import Mathlib

/-!
# OCMA-Enhanced: quality scoring and strategy-based content generation

A shallow embedding of the scoring and generation helpers of
`content-routes.js`, `helpers.js`, `strategy-routes.js` and `ContentDrafts.jsx`, of the
handler of `POST /generate-content`, and of the draft handlers of `content-routes.js`.  A function that may raise returns an `Option`; `none` is the
raised error.  A property read on an object literal also finds the members that the
object inherits from `Object.prototype` (`getProperty`).

A JavaScript string is the list of its UTF-16 code units.  The built-in
`String.prototype.toLowerCase` depends on the Unicode tables of the runtime; every
function that calls it takes it as the argument `lc`.  `asciiLower` is the
lower-casing of the ASCII range, with which `toLowerCase` agrees on strings of ASCII
code units; it is the instance used wherever a concrete evaluation is needed.
-/

namespace OCMA

/-! ## JavaScript strings -/

/-- A JavaScript string value: its sequence of UTF-16 code units. -/
abbrev JSString := List Nat

/-- The code units of a string literal (supplementary characters become surrogate pairs). -/
def utf16 (s : String) : JSString :=
  s.toList.flatMap fun ch =>
    if ch.toNat < 0x10000 then [ch.toNat]
    else [0xD800 + (ch.toNat - 0x10000) / 0x400, 0xDC00 + (ch.toNat - 0x10000) % 0x400]

/-- The string starts with `pat` at its first code unit. -/
def startsWith : JSString → JSString → Bool
  | _, [] => true
  | [], _ :: _ => false
  | c :: s, p :: pat => c == p && startsWith s pat

/-- `String.prototype.includes`: `pat` occurs somewhere in `s`. -/
def includes : JSString → JSString → Bool
  | [], pat => startsWith [] pat
  | c :: s, pat => startsWith (c :: s) pat || includes s pat

/-- Lower-casing of the ASCII letters, one code unit at a time. -/
def asciiLowerUnit (c : Nat) : Nat :=
  if 0x41 ≤ c ∧ c ≤ 0x5A then c + 0x20 else c

/-- The restriction of `toLowerCase` to ASCII: other code units are kept. -/
def asciiLower (s : JSString) : JSString := s.map asciiLowerUnit

/-- The code points of a string as a `u`-flagged regular expression reads them: a high
surrogate followed by a low surrogate is one code point, any other unit stands alone. -/
def codePoints : JSString → List Nat
  | [] => []
  | [c] => [c]
  | hi :: lo :: rest =>
    if 0xD800 ≤ hi ∧ hi ≤ 0xDBFF ∧ 0xDC00 ≤ lo ∧ lo ≤ 0xDFFF then
      (0x10000 + (hi - 0xD800) * 0x400 + (lo - 0xDC00)) :: codePoints rest
    else hi :: codePoints (lo :: rest)

/-! ## Character classes -/

/-- The class `\w` (no `u` or `i` flag): `[A-Za-z0-9_]`. -/
def isWordChar (c : Nat) : Bool :=
  (0x30 ≤ c && c ≤ 0x39) || (0x41 ≤ c && c ≤ 0x5A) || c == 0x5F || (0x61 ≤ c && c ≤ 0x7A)

/-- The class `\d`: `[0-9]`. -/
def isDigit (c : Nat) : Bool := 0x30 ≤ c && c ≤ 0x39

/-- The class `\s`: the white space and line terminator code units of ECMAScript. -/
def isWhiteSpace (c : Nat) : Bool :=
  (0x09 ≤ c && c ≤ 0x0D) || c == 0x20 || c == 0xA0 || c == 0x1680 ||
  (0x2000 ≤ c && c ≤ 0x200A) || c == 0x2028 || c == 0x2029 || c == 0x202F ||
  c == 0x205F || c == 0x3000 || c == 0xFEFF

/-- The emoji class of the 100-point scorers:
`[\u{1f300}-\u{1f5ff}\u{1f900}-\u{1f9ff}\u{1f600}-\u{1f64f}\u{1f680}-\u{1f6ff}\u{2600}-\u{26ff}\u{2700}-\u{27bf}]`. -/
def isEmoji (cp : Nat) : Bool :=
  (0x1F300 ≤ cp && cp ≤ 0x1F5FF) || (0x1F900 ≤ cp && cp ≤ 0x1F9FF) ||
  (0x1F600 ≤ cp && cp ≤ 0x1F64F) || (0x1F680 ≤ cp && cp ≤ 0x1F6FF) ||
  (0x2600 ≤ cp && cp ≤ 0x26FF) || (0x2700 ≤ cp && cp ≤ 0x27BF)

/-- The emoji class of the generator's scorer: `[\u{1f300}-\u{1f5ff}]`. -/
def isPictograph (cp : Nat) : Bool := 0x1F300 ≤ cp && cp ≤ 0x1F5FF

/-! ## Regular expressions used by the scorers -/

/-- The global scan of `/#\w+/g`.  `skip` is the number of code units of the last match
that the scan still has to pass before it looks for the next match; at a `#` followed by
a non-empty greedy run of word characters the match is recorded and the run is skipped. -/
def hashtagMatchesFrom : Nat → JSString → List JSString
  | _, [] => []
  | skip + 1, _ :: rest => hashtagMatchesFrom skip rest
  | 0, c :: rest =>
    if c = 0x23 then
      match rest.takeWhile isWordChar with
      | [] => hashtagMatchesFrom 0 rest
      | w :: ws => (c :: w :: ws) :: hashtagMatchesFrom (w :: ws).length rest
    else hashtagMatchesFrom 0 rest

/-- The matches of `content.match(/#\w+/g)`, leftmost first (`null` is the empty list). -/
def hashtagMatches (content : JSString) : List JSString := hashtagMatchesFrom 0 content

/-- The test of the emoji class with the `u` flag: some code point lies in the class. -/
def emojiTest (content : JSString) : Bool := (codePoints content).any isEmoji

/-- The alternative `(%|\+|x|times)` under the `i` flag, tried at the start of `s`. -/
def numberSuffixAt (s : JSString) : Bool :=
  startsWith s [0x25] || startsWith s [0x2B] || startsWith s [0x78] || startsWith s [0x58] ||
  startsWith (asciiLower (s.take 5)) (utf16 "times")

/-- One attempt of `/\d+(%|\+|x|times)/i` at the start of `s`: the digit run is taken
greedily and given back one digit at a time until the alternative matches. -/
def numberMatchAt (s : JSString) : Bool :=
  ((List.range ((s.takeWhile isDigit).length + 1)).reverse.filter (0 < ·)).any
    fun k => numberSuffixAt (s.drop k)

/-- The test `/\d+(%|\+|x|times)/i.test(content)`: an attempt succeeds at some index. -/
def numberTest (content : JSString) : Bool := content.tails.any numberMatchAt

/-- One attempt of `/(https?:\/\/[^\s]+)/g` at the start of `s`. -/
def urlMatchAt (s : JSString) : Bool :=
  (startsWith s (utf16 "https://") && ((s.drop 8).head?.any fun c => !isWhiteSpace c)) ||
  (startsWith s (utf16 "http://") && ((s.drop 7).head?.any fun c => !isWhiteSpace c))

/-- The test of the URL pattern on a fresh regular expression. -/
def urlTest (content : JSString) : Bool := content.tails.any urlMatchAt

/-- The call-to-action words shared by the 100-point scorers. -/
def ctas : List JSString :=
  [utf16 "click", utf16 "learn", utf16 "discover", utf16 "visit", utf16 "follow",
   utf16 "share", utf16 "subscribe", utf16 "download"]

/-! ## `content-routes.js` -/

namespace ContentRoutes

/-- The function `calculateQualityScore` of `content-routes.js`. -/
def calculateQualityScore (lc : JSString → JSString) (content : JSString) : Int :=
  let score : Int := 0
  -- Length check (20 points)
  let score :=
    if content.length > 50 ∧ content.length < 300 then score + 20
    else if content.length ≥ 300 then score + 15
    else if content.length > 20 then score + 10
    else score
  -- Hashtag presence (15 points)
  let hashtagCount := (hashtagMatches content).length
  let score := if hashtagCount > 0 then score + min ((hashtagCount : Int) * 5) 15 else score
  -- Emoji presence (10 points)
  let score := if emojiTest content then score + 10 else score
  -- Call to action (20 points)
  let score := if ctas.any (fun cta => includes (lc content) cta) then score + 20 else score
  -- Question presence (10 points)
  let score := if includes content [0x3F] then score + 10 else score
  -- Exclamation presence (5 points)
  let score := if includes content [0x21] then score + 5 else score
  min score 100

end ContentRoutes

/-! ## `helpers.js` -/

namespace Helpers

/-- The function `calculateQualityScore` of `helpers.js`. -/
def calculateQualityScore (lc : JSString → JSString) (content : JSString) : Int :=
  let score : Int := 0
  -- Length check (20 points)
  let score :=
    if content.length > 50 ∧ content.length < 300 then score + 20
    else if content.length ≥ 300 then score + 15
    else if content.length > 20 then score + 10
    else score
  -- Hashtag presence (15 points)
  let hashtagCount := (hashtagMatches content).length
  let score := if hashtagCount > 0 then score + min ((hashtagCount : Int) * 5) 15 else score
  -- Call to action (20 points)
  let ctaFound := ctas.any (fun cta => includes (lc content) cta)
  let score := if ctaFound then score + 20 else score
  -- Emoji presence (10 points)
  let score := if emojiTest content then score + 10 else score
  -- Question presence (10 points)
  let score := if includes content [0x3F] then score + 10 else score
  -- Exclamation presence (5 points)
  let score := if includes content [0x21] then score + 5 else score
  -- Numbers/statistics (10 points)
  let score := if numberTest content then score + 10 else score
  -- URL presence (10 points)
  let score := if urlTest content then score + 10 else score
  min score 100

end Helpers

/-! ## `strategy-routes.js` -/

namespace StrategyRoutes

/-- A content pillar of a strategy analysis; a field the JSON object lacks is `none`. -/
structure Pillar where
  name : Option JSString
  description : Option JSString
deriving DecidableEq

/-- A recommendation of a strategy analysis. -/
structure Recommendation where
  description : Option JSString
deriving DecidableEq

/-- The strategy analysis the routes read; every field may be absent. -/
structure Analysis where
  goals : Option (List JSString)
  key_messages : Option (List JSString)
  content_pillars : Option (List Pillar)
  recommendations : Option (List Recommendation)
deriving DecidableEq

/-- The analysis `{}`. -/
def Analysis.empty : Analysis := ⟨none, none, none, none⟩

/-- The expression `value || fallback` on an optional string: `undefined` and the empty
string are falsy. -/
def orElse (value : Option JSString) (fallback : JSString) : JSString :=
  match value with
  | some s => if s = [] then fallback else s
  | none => fallback

/-- The expression `array?.[0]`. -/
def first? {α : Type} (array : Option (List α)) : Option α := array.bind List.head?

/-- Evaluation of one property definition of an object literal: a key that is already
present keeps its position and takes the new value, a new key goes last. -/
def defineProperty {α : Type} (obj : List (JSString × α)) (key : JSString) (value : α) :
    List (JSString × α) :=
  if obj.any (fun e => e.1 == key) then obj.map (fun e => if e.1 = key then (key, value) else e)
  else obj ++ [(key, value)]

/-- An object literal: its property definitions evaluated in source order; the result
lists the own properties in the order of `Object.entries`. -/
def objectLiteral {α : Type} (defs : List (JSString × α)) : List (JSString × α) :=
  defs.foldl (fun obj e => defineProperty obj e.1 e.2) []

/-- The property names every object literal inherits from `Object.prototype`; each of
them holds a function or, for `__proto__`, the prototype object. -/
def objectPrototypeKeys : List JSString :=
  [utf16 "constructor", utf16 "__defineGetter__", utf16 "__defineSetter__",
   utf16 "hasOwnProperty", utf16 "__lookupGetter__", utf16 "__lookupSetter__",
   utf16 "isPrototypeOf", utf16 "propertyIsEnumerable", utf16 "toString",
   utf16 "valueOf", utf16 "__proto__", utf16 "toLocaleString"]

/-- The result of the property read `obj[key]` on an object literal. -/
inductive Lookup (α : Type) where
  | own (value : α)
  | inherited
  | undefined
deriving DecidableEq

/-- The property read `obj[key]`: an own property, else a member of `Object.prototype`,
else `undefined`. -/
def getProperty {α : Type} (obj : List (JSString × α)) (key : JSString) : Lookup α :=
  match obj.find? (fun e => e.1 == key) with
  | some e => .own e.2
  | none => if key ∈ objectPrototypeKeys then .inherited else .undefined

/-- The expansion of a replacement string for a pattern without capture groups:
`$$` is a dollar sign, `$&` the matched text, a dollar sign and a backtick the text before
the match, a dollar sign and a quote the text after it; any other dollar sign is kept. -/
def getSubstitution (matched str : JSString) (position : Nat) : JSString → JSString
  | [] => []
  | [c] => [c]
  | c :: d :: rest =>
    if c = 0x24 ∧ d = 0x24 then 0x24 :: getSubstitution matched str position rest
    else if c = 0x24 ∧ d = 0x26 then matched ++ getSubstitution matched str position rest
    else if c = 0x24 ∧ d = 0x60 then
      str.take position ++ getSubstitution matched str position rest
    else if c = 0x24 ∧ d = 0x27 then
      str.drop (position + matched.length) ++ getSubstitution matched str position rest
    else c :: getSubstitution matched str position (d :: rest)

/-- The scan of `str.replace(new RegExp(pat, 'g'), replacement)` for a non-empty pattern
of literal characters, from index `position` on.  `skip` is the number of code units of
the last match still to be passed. -/
def replaceAllFrom (pat replacement str : JSString) : Nat → Nat → JSString → JSString
  | _, _, [] => []
  | skip + 1, position, _ :: rest => replaceAllFrom pat replacement str skip (position + 1) rest
  | 0, position, c :: rest =>
    if startsWith (c :: rest) pat then
      getSubstitution pat str position replacement ++
        replaceAllFrom pat replacement str (pat.length - 1) (position + 1) rest
    else c :: replaceAllFrom pat replacement str 0 (position + 1) rest

/-- The call `str.replace(new RegExp(pat, 'g'), replacement)` for a placeholder `pat`,
a brace, a name of letters and underscores, a brace: the pattern matches itself. -/
def replaceAll (pat replacement str : JSString) : JSString :=
  replaceAllFrom pat replacement str 0 0 str

/-- The object `replacements` of `generateContentFromTemplate`.  In the source the four
literals of `{pain_point}`, `{brand_intro}`, `{personal_intro}` and `{call_to_action}`
hold an apostrophe that is not escaped although the literal is written in single quotes,
so the file as it stands is rejected by a JavaScript parser.  Each of these literals is
read here as the text between its outer quotes, the apostrophe being part of the text. -/
def replacements (lc : JSString → JSString) (analysis : Analysis) :
    List (JSString × JSString) :=
  let pillarName := (first? analysis.content_pillars).bind Pillar.name
  let message := first? analysis.key_messages
  let goal := first? analysis.goals
  objectLiteral [
    (utf16 "{pillar}", orElse pillarName (utf16 "Innovation")),
    (utf16 "{message}", orElse message (utf16 "Quality is our commitment")),
    (utf16 "{insight}", orElse goal (utf16 "Success through innovation")),
    (utf16 "{example}", utf16 "delivering exceptional results for our clients"),
    (utf16 "{statistic}", utf16 "87% of our clients see improvement within 30 days"),
    (utf16 "{topic}", orElse (pillarName.map lc) (utf16 "our industry")),
    (utf16 "{goal}", orElse goal (utf16 "excellence in everything we do")),
    (utf16 "{action}", utf16 "providing outstanding value"),
    (utf16 "{value_prop}", orElse message (utf16 "Unmatched quality and service")),
    (utf16 "{brand_aspect}", utf16 "our approach"),
    (utf16 "{reasons}", utf16 "proven results, dedicated support, innovative solutions"),
    (utf16 "{process}", utf16 "how we create amazing results"),
    (utf16 "{advice}",
      orElse ((first? analysis.recommendations).bind Recommendation.description)
        (utf16 "focus on what matters most")),
    (utf16 "{priority}", orElse pillarName (utf16 "customer success")),
    (utf16 "{achievement}", utf16 "exceeding client expectations"),
    (utf16 "{testimonial}", utf16 "amazing results that speak for themselves"),
    (utf16 "{attention_grabber}", utf16 "Are you ready to transform your results?"),
    (utf16 "{pain_point}", utf16 "the challenge you\x27re facing"),
    (utf16 "{our_approach}", orElse message (utf16 "our proven methodology")),
    (utf16 "{cta}", utf16 "Get started today!"),
    (utf16 "{brand_intro}", utf16 "We\x27re passionate about your success"),
    (utf16 "{main_benefit}", orElse goal (utf16 "exceptional outcomes")),
    (utf16 "{social_proof}", utf16 "500+ satisfied clients"),
    (utf16 "{topic}", orElse pillarName (utf16 "success strategies")),
    (utf16 "{problem}", utf16 "common industry challenges"),
    (utf16 "{approach}", utf16 "innovative solutions"),
    (utf16 "{example}", utf16 "client success story"),
    (utf16 "{industry_issue}", utf16 "market challenges"),
    (utf16 "{compelling_subject}", utf16 "Transform your results today"),
    (utf16 "{personal_intro}", utf16 "Hope you\x27re having a great day!"),
    (utf16 "{value_proposition}", orElse message (utf16 "exclusive benefits")),
    (utf16 "{call_to_action}", utf16 "Ready to get started? Let\x27s talk!"),
    (utf16 "{name}", utf16 "[Name]"),
    (utf16 "{sender}", utf16 "[Your Name]")]

/-- The function `generateContentFromTemplate`: one global replace per entry of
`replacements`, each applied to the result of the one before. -/
def generateContentFromTemplate (lc : JSString → JSString) (template : JSString)
    (analysis : Analysis) (_platform : JSString) : JSString :=
  (replacements lc analysis).foldl (fun content e => replaceAll e.1 e.2 content) template

/-- The object `platformTags` of `generateHashtags`. -/
def platformTags : List (JSString × List JSString) :=
  objectLiteral [
    (utf16 "instagram",
      [utf16 "#instagood", utf16 "#photooftheday", utf16 "#follow", utf16 "#like4like"]),
    (utf16 "facebook", [utf16 "#facebook", utf16 "#social", utf16 "#community", utf16 "#connect"]),
    (utf16 "twitter", [utf16 "#twitter", utf16 "#trending", utf16 "#discussion", utf16 "#share"]),
    (utf16 "linkedin",
      [utf16 "#linkedin", utf16 "#professional", utf16 "#business", utf16 "#networking"]),
    (utf16 "tiktok", [utf16 "#fyp", utf16 "#viral", utf16 "#trending", utf16 "#creative"]),
    (utf16 "youtube", [utf16 "#youtube", utf16 "#subscribe", utf16 "#video", utf16 "#watch"])]

/-- The array `generalTags` of `generateHashtags`. -/
def generalTags : List JSString :=
  [utf16 "#marketing", utf16 "#success", utf16 "#growth", utf16 "#innovation"]

/-- The call `array.map(f)` for a callback that may raise (`none`): the first raise
aborts the map. -/
def arrayMap {α β : Type} (f : α → Option β) : List α → Option (List β)
  | [] => some []
  | a :: rest =>
    match f a with
    | none => none
    | some b =>
      match arrayMap f rest with
      | none => none
      | some bs => some (b :: bs)

/-- The tag of one pillar: its name lower-cased, every run of white space removed, after
a `#`.  A pillar without a name raises a `TypeError` (`none`). -/
def pillarTag (lc : JSString → JSString) (pillar : Pillar) : Option JSString :=
  pillar.name.map fun name => 0x23 :: (lc name).filter (fun c => !isWhiteSpace c)

/-- The array `contentTags` of `generateHashtags`: the tags of all pillars, or the empty
array when `analysis.content_pillars` is absent. -/
def contentTags (lc : JSString → JSString) (analysis : Analysis) : Option (List JSString) :=
  match analysis.content_pillars with
  | some pillars => arrayMap (pillarTag lc) pillars
  | none => some []

/-- The function `generateHashtags`; `none` stands for a raised `TypeError`: a pillar
without a name, or a `platform` that names a member of `Object.prototype`, whose value
is truthy and cannot be spread. -/
def generateHashtags (lc : JSString → JSString) (platform : JSString) (analysis : Analysis) :
    Option JSString :=
  match contentTags lc analysis with
  | none => none
  | some contentTags =>
    match getProperty platformTags platform with
    | .inherited => none
    | .own tags => some ([0x20].intercalate ((generalTags ++ tags ++ contentTags.take 2).take 5))
    | .undefined => some ([0x20].intercalate ((generalTags ++ [] ++ contentTags.take 2).take 5))

/-- The function `calculateQualityScore` of `strategy-routes.js`. -/
def calculateQualityScore (content : JSString) : Int :=
  let score : Int := 50 -- Base score
  -- Length optimization
  let score :=
    if content.length > 100 ∧ content.length < 500 then score + 15
    else if content.length > 50 then score + 10
    else score
  -- Engagement elements
  let score := if includes content [0x3F] then score + 10 else score
  let score := if includes content [0x21] then score + 5 else score
  let score := if hashtagMatches content ≠ [] then score + 10 else score
  let score := if (codePoints content).any isPictograph then score + 10 else score
  min (max score 0) 100

/-- The object `templates` of `router.post('/generate-content')`, with the characters
of the source file. -/
def templates : List (JSString × List JSString) :=
  objectLiteral [
    (utf16 "post", [
      utf16 "\u00f0\u0178\u2019\u00a1 {pillar}: {message} What\x27s your experience with this? {hashtags}",
      utf16 "\u00f0\u0178\u0152\u0178 {insight} - Here\x27s how we\x27re making a difference: {example} {hashtags}",
      utf16 "\u00f0\u0178\u201c\u02c6 {statistic} Did you know this about {topic}? Share your thoughts! {hashtags}",
      utf16 "\u00f0\u0178\u017d\u00af {goal} - We\x27re committed to {action}. Join us on this journey! {hashtags}",
      utf16 "\u00e2\u0153\u00a8 {value_prop} - Why choose {brand_aspect}? {reasons} {hashtags}"]),
    (utf16 "story", [
      utf16 "Behind the scenes: {process}",
      utf16 "Quick tip: {advice}",
      utf16 "Today\x27s focus: {priority}",
      utf16 "Team spotlight: {achievement}",
      utf16 "Customer love: {testimonial}"]),
    (utf16 "video_script", [
      utf16 "Hook: {attention_grabber}\nProblem: {pain_point}\nSolution: {our_approach}\nCall to action: {cta}",
      utf16 "Introduction: {brand_intro}\nValue proposition: {main_benefit}\nProof: {social_proof}\nNext steps: {cta}"]),
    (utf16 "blog_outline", [
      utf16 "1. Introduction to {topic}\n2. Why {problem} matters\n3. Our solution: {approach}\n4. Case study: {example}\n5. Implementation steps\n6. Conclusion and next steps",
      utf16 "1. The challenge of {industry_issue}\n2. Traditional approaches vs. innovation\n3. Our methodology\n4. Results and benefits\n5. Getting started"]),
    (utf16 "email", [
      utf16 "Subject: {compelling_subject}\n\nHi {name},\n\n{personal_intro}\n\n{value_proposition}\n\n{call_to_action}\n\nBest regards,\n{sender}"])]

/-- The selection `(templates[contentType] || templates.post)[i % templateArray.length]`.
A `contentType` that names a member of `Object.prototype` reads a truthy value that is
not an array of templates: the selected template is `undefined` (`none`), on which
`generateContentFromTemplate` raises a `TypeError`. -/
def selectTemplate (contentType : JSString) (i : Nat) : Option JSString :=
  match getProperty templates contentType with
  | .own templateArray => templateArray[i % templateArray.length]?
  | .inherited => none
  | .undefined =>
    match getProperty templates (utf16 "post") with
    | .own templateArray => templateArray[i % templateArray.length]?
    | _ => none

/-- The decimal digits of a number, as a template literal renders it. -/
def decimal (n : Nat) : JSString := (Nat.toDigits 10 n).map Char.toNat

/-- A generated content record. -/
structure ContentRecord where
  id : JSString
  type : JSString
  platform : JSString
  content : JSString
  title : JSString
  hashtags : JSString
  quality_score : Int
  generated_at : JSString
  strategy_id : JSString
deriving DecidableEq

/-- The body of the innermost loop of `router.post('/generate-content')` once the
template is selected: the record pushed to `generatedContent`.  `now` is the value of
`Date.now()`, `iso` the value of `new Date().toISOString()`; `none` is a raised error. -/
def generateRecord (lc : JSString → JSString) (now : Nat) (iso strategyId : JSString)
    (analysis : Analysis) (contentType platform : JSString) (i : Nat) (template : JSString) :
    Option ContentRecord :=
  let content := generateContentFromTemplate lc template analysis platform
  match generateHashtags lc platform analysis with
  | none => none
  | some hashtags =>
    some {
      id := decimal now ++ utf16 "_" ++ contentType ++ utf16 "_" ++ platform ++ utf16 "_" ++
        decimal i
      type := contentType
      platform := platform
      content := content
      title := contentType ++ utf16 " for " ++ platform
      hashtags := hashtags
      quality_score := calculateQualityScore content
      generated_at := iso
      strategy_id := strategyId }

/-- The element read `templateArray[i % templateArray.length]`; `none` is `undefined`. -/
def templateAt (templateArray : List JSString) (i : Nat) : Option JSString :=
  templateArray[i % templateArray.length]?

/-- The object `options` of the body of a generation request. -/
structure Options where
  contentTypes : List JSString
  platforms : List JSString
  quantity : Nat
deriving DecidableEq

/-- The body of a request to `POST /generate-content`; a missing field is `none`. -/
structure RequestBody where
  strategyId : Option JSString
  analysis : Option Analysis
  options : Option Options
deriving DecidableEq

/-- The response of `POST /generate-content`: the JSON array of the new records, or the
status 400, or the status 500 of the `catch` block. -/
inductive Response where
  | ok (generatedContent : List ContentRecord)
  | badRequest
  | serverError
deriving DecidableEq

/-- The passes of the three nested loops in the order they run: each content type, each
platform, each `i` below `Math.min(quantity, 5)`. -/
def combinations (options : Options) : List (JSString × JSString × Nat) :=
  options.contentTypes.flatMap fun contentType =>
    options.platforms.flatMap fun platform =>
      (List.range (min options.quantity 5)).map fun i => (contentType, platform, i)

/-- One pass of the innermost loop body: the template is selected, then the record is
built.  `none` is a raised error. -/
def generateRecordAt (lc : JSString → JSString) (now : Nat) (iso strategyId : JSString)
    (analysis : Analysis) (contentType platform : JSString) (i : Nat) : Option ContentRecord :=
  match selectTemplate contentType i with
  | none => none
  | some template => generateRecord lc now iso strategyId analysis contentType platform i template

/-- The array `generatedContent` after the loops.  `now k` and `iso k` are the readings of
the clock in the pass number `k`; the first raised error ends the loops (`none`). -/
def generatedContent (lc : JSString → JSString) (now : Nat → Nat) (iso : Nat → JSString)
    (strategyId : JSString) (analysis : Analysis) (options : Options) :
    Option (List ContentRecord) :=
  arrayMap (fun pass : Nat × JSString × JSString × Nat =>
      generateRecordAt lc (now pass.1) (iso pass.1) strategyId analysis pass.2.1 pass.2.2.1
        pass.2.2.2)
    (combinations options).enum

/-- The handler of `POST /generate-content` on the object `strategyData.generatedContent`
(`stored`): the response and the object after the request.  A missing or empty
`strategyId` or a missing `analysis` is answered with 400; any raised error, the one of
`push` on a `strategyId` that names a member of `Object.prototype` included, with 500. -/
def generateContentRoute (lc : JSString → JSString) (now : Nat → Nat) (iso : Nat → JSString)
    (stored : List (JSString × List ContentRecord)) (body : RequestBody) :
    Response × List (JSString × List ContentRecord) :=
  match body.strategyId, body.analysis with
  | none, _ => (.badRequest, stored)
  | some _, none => (.badRequest, stored)
  | some strategyId, some analysis =>
    if strategyId = [] then (.badRequest, stored)
    else
      match body.options with
      | none => (.serverError, stored)
      | some options =>
        match generatedContent lc now iso strategyId analysis options with
        | none => (.serverError, stored)
        | some records =>
          match getProperty stored strategyId with
          | .inherited => (.serverError, stored)
          | .own old => (.ok records, defineProperty stored strategyId (old ++ records))
          | .undefined => (.ok records, defineProperty stored strategyId ([] ++ records))

/-- The records of a response: the array of a 200 answer, none for an error answer. -/
def Response.records : Response → List ContentRecord
  | .ok generatedContent => generatedContent
  | .badRequest => []
  | .serverError => []

end StrategyRoutes

/-! ## `Array.prototype.sort` -/

/-- The call `array.sort(compare)`: the sort is stable, and a comparator result that is
not a number counts as zero, which the comparators below return in that case.  For a
comparator that orders the elements consistently the result is the one the language
fixes.  For any other comparator, one that returns `NaN` on some pairs only, say, the
language leaves the order to the engine: the order given here is that of a stable
insertion sort, and an engine may return another one once three or more elements are
sorted.  What is stated about the order is therefore stated for consistent comparators,
or for an array of two elements. -/
def arraySort {α : Type} (compare : α → α → Int) (array : List α) : List α :=
  array.insertionSort (fun a b => compare a b ≤ 0)

/-- The difference `a - b` of two numbers as a comparator result: `NaN`, written `none`,
on either side gives `NaN`, which the sort reads as zero. -/
def minus (a b : Option Int) : Int :=
  match a, b with
  | some x, some y => x - y
  | _, _ => 0

/-! ## `ContentDrafts.jsx` -/

namespace ContentDrafts

/-- The call-to-action words of the draft editor. -/
def ctas : List JSString :=
  [utf16 "click", utf16 "learn", utf16 "discover", utf16 "visit", utf16 "follow",
   utf16 "share"]

/-- The class `[\u{1f600}-\u{1f64f}]`. -/
def isEmoticon (cp : Nat) : Bool := 0x1F600 ≤ cp && cp ≤ 0x1F64F

/-- The function `calculateQualityScore` of `ContentDrafts.jsx`. -/
def calculateQualityScore (lc : JSString → JSString) (content : JSString) : Int :=
  let score : Int := 0
  -- Length check
  let score :=
    if content.length > 50 ∧ content.length < 300 then score + 2
    else if content.length ≥ 300 then score + 1
    else score
  -- Hashtag check
  let score := if includes content [0x23] then score + 1 else score
  -- Call to action check
  let score := if ctas.any (fun cta => includes (lc content) cta) then score + 1 else score
  -- Emoji check
  let score :=
    if (codePoints content).any isPictograph || (codePoints content).any isEmoticon then
      score + 1
    else score
  min score 5

end ContentDrafts

/-! ## `helpers.js`: limits, keywords and validation -/

namespace Helpers

/-- The object `platformLimits` of `optimizeForPlatform` and of `validateContent`. -/
def platformLimits : List (JSString × Nat) :=
  StrategyRoutes.objectLiteral [
    (utf16 "twitter", 280),
    (utf16 "instagram", 2200),
    (utf16 "facebook", 63206),
    (utf16 "linkedin", 3000),
    (utf16 "tiktok", 150),
    (utf16 "youtube", 5000)]

/-- The condition `limit && content.length > limit` for the value read from
`platformLimits`.  An inherited member is a function or an object: it is truthy, and the
comparison of a number with it is a comparison with `NaN`, which is false. -/
def exceeds (length : Nat) : StrategyRoutes.Lookup Nat → Bool
  | .own limit => limit != 0 && decide (length > limit)
  | .inherited => false
  | .undefined => false

/-- The function `optimizeForPlatform`. -/
def optimizeForPlatform (content platform : JSString) : JSString :=
  let limit := StrategyRoutes.getProperty platformLimits platform
  if exceeds content.length limit then
    match limit with
    | .own limit => content.take (limit - 3) ++ utf16 "..."
    | _ => content
  else content

/-- `String.prototype.trim`: the white space at both ends is removed. -/
def trim (s : JSString) : JSString :=
  ((s.dropWhile isWhiteSpace).reverse.dropWhile isWhiteSpace).reverse

/-- The template literal of the third error of `validateContent`. -/
def exceedsMessage (platform : JSString) (limit : Nat) : JSString :=
  utf16 "Content exceeds " ++ platform ++ utf16 " limit of " ++ StrategyRoutes.decimal limit ++
    utf16 " characters"

/-- The object `validateContent` returns. -/
structure Validation where
  isValid : Bool
  errors : List JSString
deriving DecidableEq

/-- The function `validateContent`. -/
def validateContent (content platform : JSString) : Validation :=
  let errors : List JSString := []
  let errors :=
    if content = [] ∨ (trim content).length = 0 then
      errors ++ [utf16 "Content cannot be empty"]
    else errors
  let errors :=
    if content.length < 10 then
      errors ++ [utf16 "Content is too short (minimum 10 characters)"]
    else errors
  let limit := StrategyRoutes.getProperty platformLimits platform
  let errors :=
    if exceeds content.length limit then
      match limit with
      | .own limit => errors ++ [exceedsMessage platform limit]
      | _ => errors
    else errors
  { isValid := errors.length == 0, errors := errors }

/-- The class `[a-zA-Z]`. -/
def isAsciiLetter (c : Nat) : Bool := (0x41 ≤ c && c ≤ 0x5A) || (0x61 ≤ c && c ≤ 0x7A)

/-- The scan of `split(/\s+/)`: `current` is the piece read so far, `inRun` tells that the
last code unit belonged to a separator. -/
def splitFrom (current : JSString) (inRun : Bool) : JSString → List JSString
  | [] => [current]
  | c :: rest =>
    if isWhiteSpace c then
      if inRun then splitFrom current true rest else current :: splitFrom [] true rest
    else splitFrom (current ++ [c]) false rest

/-- The call `str.split(/\s+/)`. -/
def split (str : JSString) : List JSString := splitFrom [] false str

/-- One pass of the `forEach` loop: `wordCount[word] = (wordCount[word] || 0) + 1`.  A
number is `some n`.  A word that names a member of `Object.prototype` reads that member,
and the sum of a function and `1` is a string; a string plus `1` is again a string; a
string is written `none`. -/
def countWord (wordCount : List (JSString × Option Nat)) (word : JSString) :
    List (JSString × Option Nat) :=
  match StrategyRoutes.getProperty wordCount word with
  | .own (some n) => StrategyRoutes.defineProperty wordCount word (some (n + 1))
  | .own none => StrategyRoutes.defineProperty wordCount word none
  | .inherited => StrategyRoutes.defineProperty wordCount word none
  | .undefined => StrategyRoutes.defineProperty wordCount word (some 1)

/-- The words of `extractKeywords`: lower-cased, stripped of every code unit outside
`[a-zA-Z\s]`, split at white space, and filtered by length. -/
def keywordWords (lc : JSString → JSString) (content : JSString) : List JSString :=
  (split ((lc content).filter fun c => isAsciiLetter c || isWhiteSpace c)).filter
    fun word => decide (word.length > 3)

/-- The function `extractKeywords`.  The comparator is `([,a], [,b]) => b - a`; a
difference with a string on either side is `NaN`. -/
def extractKeywords (lc : JSString → JSString) (content : JSString) (count : Nat) :
    List JSString :=
  let words := keywordWords lc content
  let wordCount := words.foldl countWord []
  ((arraySort (fun a b => minus (b.2.map Int.ofNat) (a.2.map Int.ofNat)) wordCount).take
    count).map Prod.fst

end Helpers

/-! ## `content-routes.js`: the drafts -/

namespace ContentRoutes

/-- A stored draft.  The fields the handlers may leave `undefined` are optional. -/
structure Draft where
  id : JSString
  title : JSString
  content : JSString
  platform : Option JSString
  status : Option JSString
  hashtags : Option JSString
  tone : Option JSString
  qualityScore : Int
  createdAt : JSString
  updatedAt : JSString
deriving DecidableEq

/-- The query of `GET /drafts`; `page` and `limit` are the decimal integers given. -/
structure Query where
  status : Option JSString
  search : Option JSString
  sort : Option JSString
  page : Option Nat
  limit : Option Nat
deriving DecidableEq

/-- The body of the answer of `GET /drafts`.  `totalPages` is `none` when the quotient
`total / limit` is not a finite number. -/
structure DraftPage where
  drafts : List Draft
  total : Nat
  page : Nat
  limit : Nat
  totalPages : Option Nat
deriving DecidableEq

/-- The filter by status and by search term of `GET /drafts`. -/
def filterDrafts (lc : JSString → JSString) (status search : Option JSString)
    (drafts : List Draft) : List Draft :=
  let filteredDrafts := drafts
  -- Filter by status
  let filteredDrafts :=
    match status with
    | some status =>
      if status ≠ [] ∧ status ≠ utf16 "all" then
        filteredDrafts.filter fun draft => draft.status == some status
      else filteredDrafts
    | none => filteredDrafts
  -- Filter by search term
  match search with
  | some search =>
    if search ≠ [] then
      let searchLower := lc search
      filteredDrafts.filter fun draft =>
        (draft.title != [] && includes (lc draft.title) searchLower) ||
        (draft.content != [] && includes (lc draft.content) searchLower)
    else filteredDrafts
  | none => filteredDrafts

/-- The comparator of `GET /drafts`.  `dateValue` is the time value of `new Date(text)`,
`none` for an invalid date; `localeCompare` is the built-in of that name. -/
def compareDrafts (dateValue : JSString → Option Int)
    (localeCompare : JSString → JSString → Int) (sort : JSString) (a b : Draft) : Int :=
  if sort = utf16 "created_desc" then minus (dateValue b.createdAt) (dateValue a.createdAt)
  else if sort = utf16 "created_asc" then minus (dateValue a.createdAt) (dateValue b.createdAt)
  else if sort = utf16 "quality_desc" then b.qualityScore - a.qualityScore
  else if sort = utf16 "title_asc" then localeCompare a.title b.title
  else 0

/-- The filtered and sorted list of `GET /drafts`. -/
def sortedDrafts (lc : JSString → JSString) (dateValue : JSString → Option Int)
    (localeCompare : JSString → JSString → Int) (drafts : List Draft) (query : Query) :
    List Draft :=
  arraySort (compareDrafts dateValue localeCompare (query.sort.getD (utf16 "created_desc")))
    (filterDrafts lc query.status query.search drafts)

/-- The call `array.slice(startIndex, endIndex)` for indices that are not negative. -/
def slice {α : Type} (array : List α) (startIndex endIndex : Nat) : List α :=
  (array.take endIndex).drop startIndex

/-- The handler of `GET /drafts`.  For `page = 0` the start index `(page - 1) * limit` is
negative and counts from the end while the end index is zero: the slice is empty. -/
def getDrafts (lc : JSString → JSString) (dateValue : JSString → Option Int)
    (localeCompare : JSString → JSString → Int) (drafts : List Draft) (query : Query) :
    DraftPage :=
  let page := query.page.getD 1
  let limit := query.limit.getD 50
  let filteredDrafts := sortedDrafts lc dateValue localeCompare drafts query
  -- Pagination
  let startIndex := (page - 1) * limit
  let endIndex := startIndex + limit
  let paginatedDrafts := if page = 0 then [] else slice filteredDrafts startIndex endIndex
  { drafts := paginatedDrafts
    total := filteredDrafts.length
    page := page
    limit := limit
    totalPages := if limit = 0 then none else some ((filteredDrafts.length + limit - 1) / limit) }

/-- The body of `POST /drafts`. -/
structure DraftBody where
  title : Option JSString
  content : Option JSString
  platform : Option JSString
  status : Option JSString
  hashtags : Option JSString
  tone : Option JSString
deriving DecidableEq

/-- The body of `PUT /drafts/:id`: any of the fields of a draft. -/
structure DraftUpdates where
  id : Option JSString
  title : Option JSString
  content : Option JSString
  platform : Option JSString
  status : Option JSString
  hashtags : Option JSString
  tone : Option JSString
  qualityScore : Option Int
  createdAt : Option JSString
  updatedAt : Option JSString
deriving DecidableEq

/-- The answers of the draft handlers. -/
inductive DraftResponse where
  | ok (draft : Draft)
  | created (draft : Draft)
  | deleted
  | badRequest
  | notFound
deriving DecidableEq

/-- The handler of `POST /drafts`: the answer and the stored drafts.  `now` is the reading
of `Date.now()`, `createdAt` and `updatedAt` are the two readings of
`new Date().toISOString()`. -/
def postDraft (lc : JSString → JSString) (now : Nat) (createdAt updatedAt : JSString)
    (drafts : List Draft) (body : DraftBody) : DraftResponse × List Draft :=
  match body.content with
  | none => (.badRequest, drafts)
  | some content =>
    if content = [] then (.badRequest, drafts)
    else
      let newDraft : Draft :=
        { id := StrategyRoutes.decimal now
          title := StrategyRoutes.orElse body.title
            (utf16 "Draft " ++ StrategyRoutes.decimal (drafts.length + 1))
          content := content
          platform := body.platform
          status := some (body.status.getD (utf16 "draft"))
          hashtags := body.hashtags
          tone := body.tone
          qualityScore := calculateQualityScore lc content
          createdAt := createdAt
          updatedAt := updatedAt }
      (.created newDraft, drafts ++ [newDraft])

/-- The call `drafts.findIndex(draft => draft.id === id)`; `none` is `-1`. -/
def findIndex (drafts : List Draft) (id : JSString) : Option Nat :=
  drafts.findIdx? fun draft => draft.id == id

/-- The object literal of `PUT /drafts/:id`: the stored draft, spread; the updates, spread;
then `qualityScore`, recomputed when `updates.content` is truthy, and `updatedAt`. -/
def updatedDraft (lc : JSString → JSString) (iso : JSString) (draft : Draft)
    (updates : DraftUpdates) : Draft :=
  { id := updates.id.getD draft.id
    title := updates.title.getD draft.title
    content := updates.content.getD draft.content
    platform := updates.platform.orElse fun _ => draft.platform
    status := updates.status.orElse fun _ => draft.status
    hashtags := updates.hashtags.orElse fun _ => draft.hashtags
    tone := updates.tone.orElse fun _ => draft.tone
    qualityScore :=
      match updates.content with
      | some content => if content ≠ [] then calculateQualityScore lc content else draft.qualityScore
      | none => draft.qualityScore
    createdAt := updates.createdAt.getD draft.createdAt
    updatedAt := iso }

/-- The handler of `PUT /drafts/:id`. -/
def putDraft (lc : JSString → JSString) (iso : JSString) (drafts : List Draft)
    (id : JSString) (updates : DraftUpdates) : DraftResponse × List Draft :=
  match findIndex drafts id with
  | none => (.notFound, drafts)
  | some draftIndex =>
    match drafts.get? draftIndex with
    | none => (.notFound, drafts)
    | some draft =>
      let updated := updatedDraft lc iso draft updates
      (.ok updated, drafts.set draftIndex updated)

/-- The handler of `PATCH /drafts/:id/status`. -/
def patchDraftStatus (iso : JSString) (drafts : List Draft) (id : JSString)
    (status : Option JSString) : DraftResponse × List Draft :=
  match findIndex drafts id with
  | none => (.notFound, drafts)
  | some draftIndex =>
    match drafts.get? draftIndex with
    | none => (.notFound, drafts)
    | some draft =>
      let updated := { draft with status := status, updatedAt := iso }
      (.ok updated, drafts.set draftIndex updated)

/-- The handler of `DELETE /drafts/:id`. -/
def deleteDraft (drafts : List Draft) (id : JSString) : DraftResponse × List Draft :=
  match findIndex drafts id with
  | none => (.notFound, drafts)
  | some draftIndex => (.deleted, drafts.eraseIdx draftIndex)

end ContentRoutes

/-! ## Reference definitions, following the specification -/

namespace Spec

/-- Occurrences of "`#` followed by one or more word characters": the indices at which a
`#` stands directly before a word character. -/
def hashtagOccurrences : JSString → Nat
  | [] => 0
  | [_] => 0
  | c :: d :: rest =>
    (if c = 0x23 ∧ isWordChar d = true then 1 else 0) + hashtagOccurrences (d :: rest)

/-- Length bucket of the 100-point scorer. -/
def lengthBucket (len : Nat) : Int :=
  if 50 < len ∧ len < 300 then 20 else if len ≥ 300 then 15 else if len > 20 then 10 else 0

/-- Hashtag bucket: `min(count × 5, 15)`. -/
def hashtagBucket (s : JSString) : Int := min (5 * (hashtagOccurrences s : Int)) 15

/-- Call-to-action bucket: a flag on the lower-cased content. -/
def ctaBucket (lc : JSString → JSString) (s : JSString) : Int :=
  if ∃ cta ∈ ctas, cta <:+: lc s then 20 else 0

/-- Emoji bucket: some code point of the content lies in the emoji ranges. -/
def emojiBucket (s : JSString) : Int := if ∃ cp ∈ codePoints s, isEmoji cp = true then 10 else 0

/-- Question bucket. -/
def questionBucket (s : JSString) : Int := if 0x3F ∈ s then 10 else 0

/-- Exclamation bucket. -/
def exclamationBucket (s : JSString) : Int := if 0x21 ∈ s then 5 else 0

/-- The canonical 100-point score: the sum of the six buckets, clamped with `min(., 100)`. -/
def score (lc : JSString → JSString) (s : JSString) : Int :=
  min (lengthBucket s.length + hashtagBucket s + ctaBucket lc s + emojiBucket s +
    questionBucket s + exclamationBucket s) 100

/-- The generator's own score: base 50, a length bonus, and flags for `?`, `!`, a
hashtag and a pictograph, clamped to `[0, 100]`. -/
def generatorScore (s : JSString) : Int :=
  min (max (50 + (if 100 < s.length ∧ s.length < 500 then 15 else if 50 < s.length then 10 else 0) +
    (if 0x3F ∈ s then 10 else 0) + (if 0x21 ∈ s then 5 else 0) +
    (if 0 < hashtagOccurrences s then 10 else 0) +
    (if ∃ cp ∈ codePoints s, isPictograph cp = true then 10 else 0)) 0) 100

/-- The platforms of the fixed enumeration. -/
def platforms : List JSString :=
  [utf16 "facebook", utf16 "instagram", utf16 "twitter", utf16 "linkedin", utf16 "tiktok",
   utf16 "youtube"]

/-- The tag list of a platform, empty when the platform is not recognised. -/
def platformTagsOf (platform : JSString) : List JSString :=
  match StrategyRoutes.platformTags.find? (fun e => e.1 == platform) with
  | some e => e.2
  | none => []

/-- The tag derived from a pillar name: lower-cased, white space removed, after `#`. -/
def pillarTagOf (lc : JSString → JSString) (name : JSString) : JSString :=
  0x23 :: (lc name).filter (fun c => !isWhiteSpace c)

/-- The hashtag line: the first 5 entries of the general tags, then the platform tags,
then the tags of the first 2 pillar names, joined with spaces. -/
def hashtags (lc : JSString → JSString) (platform : JSString) (pillarNames : List JSString) :
    JSString :=
  [0x20].intercalate ((StrategyRoutes.generalTags ++ platformTagsOf platform ++
    (pillarNames.take 2).map (pillarTagOf lc)).take 5)

/-- The content types of the fixed enumeration. -/
def contentTypes : List JSString :=
  [utf16 "post", utf16 "story", utf16 "video_script", utf16 "blog_outline", utf16 "email"]

/-- The fixed mapping from placeholder to resolved value: a field of the analysis with its
fallback, or a fixed text. -/
def placeholderTable (analysis : StrategyRoutes.Analysis) : List (JSString × JSString) :=
  let pillarName :=
    (StrategyRoutes.first? analysis.content_pillars).bind StrategyRoutes.Pillar.name
  let message := StrategyRoutes.first? analysis.key_messages
  let goal := StrategyRoutes.first? analysis.goals
  let advice :=
    (StrategyRoutes.first? analysis.recommendations).bind StrategyRoutes.Recommendation.description
  [(utf16 "{pillar}", StrategyRoutes.orElse pillarName (utf16 "Innovation")),
   (utf16 "{message}", StrategyRoutes.orElse message (utf16 "Quality is our commitment")),
   (utf16 "{insight}", StrategyRoutes.orElse goal (utf16 "Success through innovation")),
   (utf16 "{example}", utf16 "client success story"),
   (utf16 "{statistic}", utf16 "87% of our clients see improvement within 30 days"),
   (utf16 "{topic}", StrategyRoutes.orElse pillarName (utf16 "success strategies")),
   (utf16 "{goal}", StrategyRoutes.orElse goal (utf16 "excellence in everything we do")),
   (utf16 "{action}", utf16 "providing outstanding value"),
   (utf16 "{value_prop}", StrategyRoutes.orElse message (utf16 "Unmatched quality and service")),
   (utf16 "{brand_aspect}", utf16 "our approach"),
   (utf16 "{reasons}", utf16 "proven results, dedicated support, innovative solutions"),
   (utf16 "{process}", utf16 "how we create amazing results"),
   (utf16 "{advice}", StrategyRoutes.orElse advice (utf16 "focus on what matters most")),
   (utf16 "{priority}", StrategyRoutes.orElse pillarName (utf16 "customer success")),
   (utf16 "{achievement}", utf16 "exceeding client expectations"),
   (utf16 "{testimonial}", utf16 "amazing results that speak for themselves"),
   (utf16 "{attention_grabber}", utf16 "Are you ready to transform your results?"),
   (utf16 "{pain_point}", utf16 "the challenge you\x27re facing"),
   (utf16 "{our_approach}", StrategyRoutes.orElse message (utf16 "our proven methodology")),
   (utf16 "{cta}", utf16 "Get started today!"),
   (utf16 "{brand_intro}", utf16 "We\x27re passionate about your success"),
   (utf16 "{main_benefit}", StrategyRoutes.orElse goal (utf16 "exceptional outcomes")),
   (utf16 "{social_proof}", utf16 "500+ satisfied clients"),
   (utf16 "{problem}", utf16 "common industry challenges"),
   (utf16 "{approach}", utf16 "innovative solutions"),
   (utf16 "{industry_issue}", utf16 "market challenges"),
   (utf16 "{compelling_subject}", utf16 "Transform your results today"),
   (utf16 "{personal_intro}", utf16 "Hope you\x27re having a great day!"),
   (utf16 "{value_proposition}", StrategyRoutes.orElse message (utf16 "exclusive benefits")),
   (utf16 "{call_to_action}", utf16 "Ready to get started? Let\x27s talk!"),
   (utf16 "{name}", utf16 "[Name]"),
   (utf16 "{sender}", utf16 "[Your Name]")]

/-- The known placeholders, in the order of the mapping. -/
def knownPlaceholders : List JSString :=
  (placeholderTable StrategyRoutes.Analysis.empty).map Prod.fst

/-- Simultaneous replacement, one scan of the template: at each index the first entry of
the table whose placeholder starts there is replaced by its value, taken as it is, and the
scan resumes behind the placeholder; inserted text is not scanned.  `skip` is the number
of code units of the last placeholder still to be passed. -/
def substituteFrom (table : List (JSString × JSString)) : Nat → JSString → JSString
  | _, [] => []
  | skip + 1, _ :: rest => substituteFrom table skip rest
  | 0, c :: rest =>
    match table.find? (fun e => startsWith (c :: rest) e.1) with
    | some e => e.2 ++ substituteFrom table (e.1.length - 1) rest
    | none => c :: substituteFrom table 0 rest

/-- The template with every occurrence of every placeholder of the table replaced
simultaneously by its value. -/
def substitute (table : List (JSString × JSString)) (template : JSString) : JSString :=
  substituteFrom table 0 template

/-- A piece of a template: plain text, or a brace token with its name. -/
inductive Segment where
  | text (t : JSString)
  | token (name : JSString)
deriving DecidableEq

/-- The characters of a piece: the text, or the name between `{` and `}`. -/
def Segment.render : Segment → JSString
  | .text t => t
  | .token name => 0x7B :: name ++ [0x7D]

/-- A piece is well formed when its text has no opening brace, or its name no brace. -/
def Segment.wellFormed : Segment → Bool
  | .text t => !t.contains 0x7B
  | .token name => !name.contains 0x7B && !name.contains 0x7D

/-- The template made of a sequence of pieces. -/
def render (segments : List Segment) : JSString := segments.flatMap Segment.render

/-- The brace token of a name. -/
def tokenOf (name : JSString) : JSString := 0x7B :: name ++ [0x7D]

/-- A string is a brace token: `{`, a name without braces, `}`. -/
def isToken (s : JSString) : Bool :=
  match s with
  | [] => false
  | c :: rest =>
    c == 0x7B && rest.getLast? == some 0x7D && !rest.dropLast.contains 0x7B &&
      !rest.dropLast.contains 0x7D

/-- The template list of a content type of the catalog, empty for any other string. -/
def templatesOf (contentType : JSString) : List JSString :=
  match StrategyRoutes.templates.find? (fun e => e.1 == contentType) with
  | some e => e.2
  | none => []

/-- The resolution of a piece by a table: a token whose brace token is a placeholder of
the table becomes the text of its value (the first entry counts), anything else stays. -/
def Segment.resolve (table : List (JSString × JSString)) : Segment → Segment
  | .text t => .text t
  | .token name =>
    match table.find? (fun e => e.1 == tokenOf name) with
    | some e => .text e.2
    | none => .token name

/-- The pieces collected so far when the text `text` is closed. -/
def flushText (text : JSString) : List Segment :=
  if text = [] then [] else [.text text]

/-- The splitting of a template into pieces, from left to right: a `{` opens a token, the
next `}` closes it; `text` is the text and `open?` the name of the open token read so
far.  A token that is never closed is kept as text. -/
def parseFrom (text : JSString) (open? : Option JSString) : JSString → List Segment
  | [] =>
    match open? with
    | none => flushText text
    | some name => flushText (text ++ 0x7B :: name)
  | c :: rest =>
    match open? with
    | none =>
      if c = 0x7B then parseFrom text (some []) rest else parseFrom (text ++ [c]) none rest
    | some name =>
      if c = 0x7D then flushText text ++ .token name :: parseFrom [] none rest
      else parseFrom text (some (name ++ [c])) rest

/-- The pieces of a template. -/
def parse (template : JSString) : List Segment := parseFrom [] none template

/-- The value `round(score / 20)`: the nearest integer, a half rounded upwards as
`Math.round` does. -/
def starRating (score : Int) : Int := (score + 10) / 20

/-- The sum of the draft editor: a length bucket and one point each for a `#`, for a
call-to-action word of the editor, and for a code point of U+1F300..U+1F5FF or of
U+1F600..U+1F64F. -/
def editorScore (lc : JSString → JSString) (s : JSString) : Int :=
  (if 50 < s.length ∧ s.length < 300 then 2 else if 300 ≤ s.length then 1 else 0) +
  (if 0x23 ∈ s then 1 else 0) +
  (if ∃ cta ∈ ContentDrafts.ctas, cta <:+: lc s then 1 else 0) +
  (if ∃ cp ∈ codePoints s, (0x1F300 ≤ cp ∧ cp ≤ 0x1F5FF) ∨ (0x1F600 ≤ cp ∧ cp ≤ 0x1F64F)
    then 1 else 0)

/-- The character limit of a platform; `none` when the platform has no limit entry. -/
def limitOf (platform : JSString) : Option Nat :=
  if platform = utf16 "twitter" then some 280
  else if platform = utf16 "instagram" then some 2200
  else if platform = utf16 "facebook" then some 63206
  else if platform = utf16 "linkedin" then some 3000
  else if platform = utf16 "tiktok" then some 150
  else if platform = utf16 "youtube" then some 5000
  else none

/-- The invariant of a stored draft: its `qualityScore` is the score of its content. -/
abbrev inSync (lc : JSString → JSString) (draft : ContentRoutes.Draft) : Prop :=
  draft.qualityScore = ContentRoutes.calculateQualityScore lc draft.content

/-- Page `page`, counted from 1, of a list cut into pages of `limit` items: the slice
from index `(page - 1) * limit` up to, not including, index `page * limit`. -/
def pageOf {α : Type} (l : List α) (page limit : Nat) : List α :=
  (l.drop ((page - 1) * limit)).take limit

/-- The distinct words of a list, in the order of their first occurrence. -/
def firstOccurrences (words : List JSString) : List JSString :=
  words.foldl (fun seen word => if word ∈ seen then seen else seen ++ [word]) []

/-- The keywords of a list of words: the distinct words in non-increasing order of their
number of occurrences, words with the same number in the order of their first occurrence,
cut to the first `count`. -/
def keywords (words : List JSString) (count : Nat) : List JSString :=
  ((firstOccurrences words).insertionSort
    (fun a b => words.count b ≤ words.count a)).take count

/-- A replacement pattern of `String.prototype.replace` occurs in the value: a dollar sign
directly followed by a dollar sign, an ampersand, a backtick or a quote.  Without a
capture group in the regular expression these four are the patterns that are expanded. -/
def hasDollarPattern : JSString → Bool
  | [] => false
  | [_] => false
  | c :: d :: rest =>
    (c == 0x24 && (d == 0x24 || d == 0x26 || d == 0x60 || d == 0x27)) ||
      hasDollarPattern (d :: rest)

/-- The drafts `GET /drafts` keeps: with a status that is given, not empty and not `all`,
the drafts of that status; with a search term that is given and not empty, the drafts
whose title or content, if not empty, contains the lower-cased term once lower-cased. -/
def keeps (lc : JSString → JSString) (status search : Option JSString)
    (draft : ContentRoutes.Draft) : Bool :=
  (match status with
    | some s => s == [] || s == utf16 "all" || draft.status == some s
    | none => true) &&
  (match search with
    | some q => q == [] ||
      ((draft.title != [] && includes (lc draft.title) (lc q)) ||
        (draft.content != [] && includes (lc draft.content) (lc q)))
    | none => true)

/-- A comparator is consistent on the elements of a list: swapping the arguments swaps
the sign, and the order it gives is transitive.  For such a comparator the result of a
stable sort is fixed. -/
def consistentOn {α : Type} (compare : α → α → Int) (l : List α) : Prop :=
  (∀ a ∈ l, ∀ b ∈ l, (compare a b < 0 ↔ 0 < compare b a)) ∧
  (∀ a ∈ l, ∀ b ∈ l, ∀ c ∈ l, compare a b ≤ 0 → compare b c ≤ 0 → compare a c ≤ 0)

end Spec

/-! ## Strings: containment and concatenation -/

theorem startsWith_iff (s pat : JSString) : startsWith s pat = true ↔ pat <+: s := by
  induction s generalizing pat with
  | nil => cases pat <;> simp [startsWith]
  | cons c s ih =>
    cases pat with
    | nil => simp [startsWith]
    | cons p pat =>
      simp only [startsWith, Bool.and_eq_true, beq_iff_eq, ih, List.cons_prefix_cons]
      constructor
      · rintro ⟨h, h2⟩; exact ⟨h.symm, h2⟩
      · rintro ⟨h, h2⟩; exact ⟨h.symm, h2⟩

theorem includes_iff (s pat : JSString) : includes s pat = true ↔ pat <:+: s := by
  induction s with
  | nil =>
    simp only [includes, startsWith_iff]
    constructor
    · intro h; exact h.isInfix
    · intro h; rw [List.eq_nil_of_infix_nil h]
  | cons c s ih =>
    simp only [includes, Bool.or_eq_true, startsWith_iff, ih, List.infix_cons_iff]

theorem includes_unit_iff (s : JSString) (c : Nat) : includes s [c] = true ↔ c ∈ s := by
  rw [includes_iff]
  constructor
  · intro h; exact List.singleton_sublist.1 h.sublist
  · intro h
    obtain ⟨a, b, hab⟩ := List.append_of_mem h
    exact ⟨a, b, by simp [hab]⟩

theorem includes_append_left (s t pat : JSString) (h : includes s pat = true) :
    includes (s ++ t) pat = true := by
  rw [includes_iff] at *
  exact h.trans (List.infix_append' [] s t)

/-! ## The hashtag scan -/

theorem hashtagOccurrences_cons_of_ne (c : Nat) (s : JSString) (hc : c ≠ 0x23) :
    Spec.hashtagOccurrences (c :: s) = Spec.hashtagOccurrences s := by
  cases s with
  | nil => simp [Spec.hashtagOccurrences]
  | cons d rest => simp [Spec.hashtagOccurrences, hc]

theorem isWordChar_ne_hash (c : Nat) (h : isWordChar c = true) : c ≠ 0x23 := by
  intro hc; subst hc; simp [isWordChar] at h

theorem hashtagOccurrences_dropWhile (s : JSString) :
    Spec.hashtagOccurrences (s.dropWhile isWordChar) = Spec.hashtagOccurrences s := by
  induction s with
  | nil => rfl
  | cons c s ih =>
    by_cases hc : isWordChar c = true
    · rw [List.dropWhile_cons_of_pos hc, ih,
        hashtagOccurrences_cons_of_ne c s (isWordChar_ne_hash c hc)]
    · rw [List.dropWhile_cons_of_neg hc]

theorem drop_length_takeWhile (p : Nat → Bool) (s : JSString) :
    s.drop (s.takeWhile p).length = s.dropWhile p := by
  induction s with
  | nil => rfl
  | cons c s ih =>
    by_cases hc : p c = true
    · simp [List.takeWhile_cons_of_pos hc, List.dropWhile_cons_of_pos hc, ih]
    · simp [List.takeWhile_cons_of_neg hc, List.dropWhile_cons_of_neg hc]

theorem hashtagMatchesFrom_length (skip : Nat) (s : JSString) :
    (hashtagMatchesFrom skip s).length = Spec.hashtagOccurrences (s.drop skip) := by
  induction s generalizing skip with
  | nil => cases skip <;> simp [hashtagMatchesFrom, Spec.hashtagOccurrences]
  | cons c rest ih =>
    cases skip with
    | succ n => simp [hashtagMatchesFrom, ih]
    | zero =>
      simp only [hashtagMatchesFrom, List.drop_zero]
      by_cases hc : c = 0x23
      · rw [if_pos hc]
        cases hw : rest.takeWhile isWordChar with
        | nil =>
          simp only []
          rw [ih 0, List.drop_zero]
          subst hc
          cases rest with
          | nil => simp [Spec.hashtagOccurrences]
          | cons d rest2 =>
            have hd : ¬ isWordChar d = true := by
              intro hd; rw [List.takeWhile_cons_of_pos hd] at hw; exact List.cons_ne_nil _ _ hw
            simp [Spec.hashtagOccurrences, hd]
        | cons w ws =>
          simp only [List.length_cons]
          rw [ih]
          have hk : (ws.length + 1) = (rest.takeWhile isWordChar).length := by rw [hw]; rfl
          rw [hk, drop_length_takeWhile, hashtagOccurrences_dropWhile]
          subst hc
          cases rest with
          | nil => simp at hw
          | cons d rest2 =>
            have hd : isWordChar d = true := by
              by_contra hd; rw [List.takeWhile_cons_of_neg hd] at hw; exact List.cons_ne_nil _ _ hw.symm
            simp [Spec.hashtagOccurrences, hd]; omega
      · rw [if_neg hc, ih 0, List.drop_zero, hashtagOccurrences_cons_of_ne c rest hc]

theorem hashtagMatches_length (s : JSString) :
    (hashtagMatches s).length = Spec.hashtagOccurrences s := by
  simp [hashtagMatches, hashtagMatchesFrom_length]


/-! ## The 100-point scorers as sums of buckets -/

theorem ctaFound_iff (lc : JSString → JSString) (s : JSString) :
    ctas.any (fun cta => includes (lc s) cta) = true ↔ ∃ cta ∈ ctas, cta <:+: lc s := by
  simp only [List.any_eq_true, includes_iff]

theorem emojiTest_iff (s : JSString) :
    emojiTest s = true ↔ ∃ cp ∈ codePoints s, isEmoji cp = true := by
  simp only [emojiTest, List.any_eq_true]

theorem ite_add_points (c : Prop) [Decidable c] (x k : Int) :
    (if c then x + k else x) = x + (if c then k else 0) := by
  split <;> simp

theorem lengthBucket_eq (n : Nat) :
    (if n > 50 ∧ n < 300 then (0 : Int) + 20
      else if n ≥ 300 then 0 + 15 else if n > 20 then 0 + 10 else 0) = Spec.lengthBucket n := by
  simp only [Spec.lengthBucket]; split_ifs <;> omega

theorem hashtagBucket_eq (s : JSString) (x : Int) :
    (if Spec.hashtagOccurrences s > 0
      then x + min ((Spec.hashtagOccurrences s : Int) * 5) 15 else x)
      = x + Spec.hashtagBucket s := by
  simp only [Spec.hashtagBucket]; split_ifs <;> omega

theorem calculateQualityScore_eq_buckets (lc : JSString → JSString) (s : JSString) :
    ContentRoutes.calculateQualityScore lc s = Spec.score lc s := by
  simp only [ContentRoutes.calculateQualityScore, hashtagMatches_length, lengthBucket_eq,
    hashtagBucket_eq]
  simp only [ite_add_points, ctaFound_iff, emojiTest_iff, includes_unit_iff,
    Spec.score, Spec.ctaBucket, Spec.emojiBucket, Spec.questionBucket, Spec.exclamationBucket]
  congr 1
  omega

theorem helpers_calculateQualityScore_eq_buckets (lc : JSString → JSString) (s : JSString) :
    Helpers.calculateQualityScore lc s =
      min (Spec.lengthBucket s.length + Spec.hashtagBucket s + Spec.ctaBucket lc s +
        Spec.emojiBucket s + Spec.questionBucket s + Spec.exclamationBucket s +
        (if numberTest s = true then 10 else 0) + (if urlTest s = true then 10 else 0)) 100 := by
  simp only [Helpers.calculateQualityScore, hashtagMatches_length, lengthBucket_eq,
    hashtagBucket_eq]
  simp only [ite_add_points, ctaFound_iff, emojiTest_iff, includes_unit_iff,
    Spec.ctaBucket, Spec.emojiBucket, Spec.questionBucket, Spec.exclamationBucket]

theorem lengthBucket_nonneg (n : Nat) : 0 ≤ Spec.lengthBucket n := by
  simp only [Spec.lengthBucket]; split_ifs <;> omega

theorem hashtagBucket_nonneg (s : JSString) : 0 ≤ Spec.hashtagBucket s := by
  simp only [Spec.hashtagBucket]; omega

theorem ctaBucket_nonneg (lc : JSString → JSString) (s : JSString) : 0 ≤ Spec.ctaBucket lc s := by
  simp only [Spec.ctaBucket]; split_ifs <;> omega

theorem emojiBucket_nonneg (s : JSString) : 0 ≤ Spec.emojiBucket s := by
  simp only [Spec.emojiBucket]; split_ifs <;> omega

theorem questionBucket_nonneg (s : JSString) : 0 ≤ Spec.questionBucket s := by
  simp only [Spec.questionBucket]; split_ifs <;> omega

theorem exclamationBucket_nonneg (s : JSString) : 0 ≤ Spec.exclamationBucket s := by
  simp only [Spec.exclamationBucket]; split_ifs <;> omega

theorem score_nonneg (lc : JSString → JSString) (s : JSString) : 0 ≤ Spec.score lc s := by
  have h1 := lengthBucket_nonneg s.length
  have h2 := hashtagBucket_nonneg s
  have h3 := ctaBucket_nonneg lc s
  have h4 := emojiBucket_nonneg s
  have h5 := questionBucket_nonneg s
  have h6 := exclamationBucket_nonneg s
  simp only [Spec.score]; omega

theorem helpers_score_nonneg (lc : JSString → JSString) (s : JSString) :
    0 ≤ Helpers.calculateQualityScore lc s := by
  have h1 := lengthBucket_nonneg s.length
  have h2 := hashtagBucket_nonneg s
  have h3 := ctaBucket_nonneg lc s
  have h4 := emojiBucket_nonneg s
  have h5 := questionBucket_nonneg s
  have h6 := exclamationBucket_nonneg s
  rw [helpers_calculateQualityScore_eq_buckets]
  split_ifs <;> omega

/-! ## Claims on the 100-point scorer -/

/-- C1: for every string, `calculateQualityScore` of `content-routes.js` equals the
reference sum of the six buckets (length, hashtag, call to action, emoji, question,
exclamation) clamped with `min(., 100)`. -/
theorem C1_calculateQualityScore_eq_reference (lc : JSString → JSString) (s : JSString) :
    ContentRoutes.calculateQualityScore lc s =
      min (Spec.lengthBucket s.length + Spec.hashtagBucket s + Spec.ctaBucket lc s +
        Spec.emojiBucket s + Spec.questionBucket s + Spec.exclamationBucket s) 100 :=
  calculateQualityScore_eq_buckets lc s

/-- C2: for every string, the score of `content-routes.js` and the score of the
`helpers.js` copy are integers between 0 and 100. -/
theorem C2_calculateQualityScore_bounds (lc : JSString → JSString) (s : JSString) :
    (0 ≤ ContentRoutes.calculateQualityScore lc s ∧
      ContentRoutes.calculateQualityScore lc s ≤ 100) ∧
    (0 ≤ Helpers.calculateQualityScore lc s ∧ Helpers.calculateQualityScore lc s ≤ 100) := by
  refine ⟨⟨?_, ?_⟩, helpers_score_nonneg lc s, ?_⟩
  · rw [calculateQualityScore_eq_buckets]; exact score_nonneg lc s
  · rw [calculateQualityScore_eq_buckets]; simp only [Spec.score]; omega
  · rw [helpers_calculateQualityScore_eq_buckets]; omega

/-- C3: the scorer is total and gives the empty string the score 0, given that
lower-casing the empty string yields the empty string. -/
theorem C3_calculateQualityScore_empty (lc : JSString → JSString) (hlc : lc [] = []) :
    ContentRoutes.calculateQualityScore lc [] = 0 := by
  simp only [ContentRoutes.calculateQualityScore, hlc]
  decide

/-- Witness for C3 with the ASCII lower-casing. -/
theorem C3_calculateQualityScore_empty_witness :
    asciiLower [] = [] ∧ ContentRoutes.calculateQualityScore asciiLower [] = 0 :=
  ⟨rfl, C3_calculateQualityScore_empty asciiLower rfl⟩


/-! ## Appending to the content: how each bucket moves -/

theorem lengthBucket_le_add_five (n m : Nat) (h : n ≤ m) :
    Spec.lengthBucket n ≤ Spec.lengthBucket m + 5 := by
  simp only [Spec.lengthBucket]; split_ifs <;> omega

theorem hashtagOccurrences_append_unit (s : JSString) (c : Nat) (hc : isWordChar c = false) :
    Spec.hashtagOccurrences (s ++ [c]) = Spec.hashtagOccurrences s := by
  induction s with
  | nil => rfl
  | cons a s ih =>
    cases s with
    | nil => simp [Spec.hashtagOccurrences, hc]
    | cons b rest =>
      have ih2 : Spec.hashtagOccurrences (b :: (rest ++ [c])) =
          Spec.hashtagOccurrences (b :: rest) := ih
      show (if a = 0x23 ∧ isWordChar b = true then 1 else 0) +
          Spec.hashtagOccurrences (b :: (rest ++ [c])) = _
      rw [ih2]; rfl

theorem hashtagOccurrences_le_cons (a : Nat) (s : JSString) :
    Spec.hashtagOccurrences s ≤ Spec.hashtagOccurrences (a :: s) := by
  cases s with
  | nil => simp [Spec.hashtagOccurrences]
  | cons b rest => simp only [Spec.hashtagOccurrences]; omega

theorem hashtagOccurrences_le_append (s t : JSString) :
    Spec.hashtagOccurrences t ≤ Spec.hashtagOccurrences (s ++ t) := by
  induction s with
  | nil => simp
  | cons a s ih => exact le_trans ih (hashtagOccurrences_le_cons a (s ++ t))

theorem hashtagOccurrences_tag_pos (w : JSString) (hw : w ≠ [])
    (hword : ∀ c ∈ w, isWordChar c = true) : 0 < Spec.hashtagOccurrences (0x23 :: w) := by
  cases w with
  | nil => exact absurd rfl hw
  | cons d rest =>
    have hd : isWordChar d = true := hword d (List.mem_cons_self d rest)
    simp [Spec.hashtagOccurrences, hd]

theorem codePoints_append (s t : JSString)
    (ht : ∀ c ∈ t.head?, ¬ (0xDC00 ≤ c ∧ c ≤ 0xDFFF)) :
    codePoints (s ++ t) = codePoints s ++ codePoints t := by
  induction s using codePoints.induct with
  | case1 => simp [codePoints]
  | case2 c =>
    cases t with
    | nil => simp [codePoints]
    | cons b t2 =>
      have hb := ht b (by simp)
      have : ¬ (0xD800 ≤ c ∧ c ≤ 0xDBFF ∧ 0xDC00 ≤ b ∧ b ≤ 0xDFFF) := by omega
      simp [codePoints, this]
  | case3 hi lo rest hpair ih =>
    show codePoints (hi :: lo :: (rest ++ t)) = _
    simp only [codePoints, if_pos hpair, ih, List.cons_append]
  | case4 hi lo rest hpair ih =>
    have ih2 : codePoints (lo :: (rest ++ t)) = codePoints (lo :: rest) ++ codePoints t := ih
    show codePoints (hi :: lo :: (rest ++ t)) = _
    simp only [codePoints, if_neg hpair, ih2, List.cons_append]

theorem emojiBucket_le_append (s t : JSString)
    (ht : ∀ c ∈ t.head?, ¬ (0xDC00 ≤ c ∧ c ≤ 0xDFFF)) :
    Spec.emojiBucket s ≤ Spec.emojiBucket (s ++ t) := by
  simp only [Spec.emojiBucket, codePoints_append s t ht]
  split_ifs with h1 h2 <;> try omega
  exact absurd (by obtain ⟨cp, hcp, he⟩ := h1; exact ⟨cp, List.mem_append_left _ hcp, he⟩) h2

theorem ctaBucket_le_of_prefix (lc : JSString → JSString) (s u : JSString)
    (h : lc s <+: lc u) : Spec.ctaBucket lc s ≤ Spec.ctaBucket lc u := by
  simp only [Spec.ctaBucket]
  split_ifs with h1 h2 <;> try omega
  exact absurd (by obtain ⟨cta, hc, hi⟩ := h1; exact ⟨cta, hc, hi.trans h.isInfix⟩) h2

theorem questionBucket_le_append (s t : JSString) :
    Spec.questionBucket s ≤ Spec.questionBucket (s ++ t) := by
  simp only [Spec.questionBucket, List.mem_append]
  split_ifs with h1 h2 <;> try omega
  exact absurd (Or.inl h1) h2

theorem exclamationBucket_le_append (s t : JSString) :
    Spec.exclamationBucket s ≤ Spec.exclamationBucket (s ++ t) := by
  simp only [Spec.exclamationBucket, List.mem_append]
  split_ifs with h1 h2 <;> try omega
  exact absurd (Or.inl h1) h2

/-- C5: for every string without `!`, appending one `!` does not lower the score, the
length boundaries included; lower-casing is assumed to leave the text before the
appended `!` as it is. -/
theorem C5_append_exclamation_mono (lc : JSString → JSString)
    (hlc : ∀ s : JSString, lc (s ++ [0x21]) = lc s ++ lc [0x21])
    (s : JSString) (hs : 0x21 ∉ s) :
    ContentRoutes.calculateQualityScore lc s ≤
      ContentRoutes.calculateQualityScore lc (s ++ [0x21]) := by
  rw [calculateQualityScore_eq_buckets, calculateQualityScore_eq_buckets]
  have h1 := lengthBucket_le_add_five s.length (s ++ [0x21]).length (by simp)
  have h2 : Spec.hashtagBucket (s ++ [0x21]) = Spec.hashtagBucket s := by
    simp only [Spec.hashtagBucket, hashtagOccurrences_append_unit s 0x21 (by decide)]
  have h3 := ctaBucket_le_of_prefix lc s (s ++ [0x21]) ⟨_, (hlc s).symm⟩
  have h4 := emojiBucket_le_append s [0x21] (by simp)
  have h5 := questionBucket_le_append s [0x21]
  have h6 : Spec.exclamationBucket s = 0 := by simp [Spec.exclamationBucket, hs]
  have h7 : Spec.exclamationBucket (s ++ [0x21]) = 5 := by simp [Spec.exclamationBucket]
  simp only [Spec.score]
  omega

/-- Witness for C5: the 299 units `aaa...a`, where the appended `!` crosses the length
boundary 299 -> 300. -/
theorem C5_append_exclamation_mono_witness :
    0x21 ∉ List.replicate 299 0x61 ∧
    ContentRoutes.calculateQualityScore asciiLower (List.replicate 299 0x61) ≤
      ContentRoutes.calculateQualityScore asciiLower (List.replicate 299 0x61 ++ [0x21]) :=
  ⟨by decide, C5_append_exclamation_mono asciiLower (fun s => by simp [asciiLower])
    (List.replicate 299 0x61) (by decide)⟩

/-- C6: for every string without `?`, appending one `?` does not lower the score;
lower-casing is assumed to leave the text before the appended `?` as it is. -/
theorem C6_append_question_mono (lc : JSString → JSString)
    (hlc : ∀ s : JSString, lc (s ++ [0x3F]) = lc s ++ lc [0x3F])
    (s : JSString) (hs : 0x3F ∉ s) :
    ContentRoutes.calculateQualityScore lc s ≤
      ContentRoutes.calculateQualityScore lc (s ++ [0x3F]) := by
  rw [calculateQualityScore_eq_buckets, calculateQualityScore_eq_buckets]
  have h1 := lengthBucket_le_add_five s.length (s ++ [0x3F]).length (by simp)
  have h2 : Spec.hashtagBucket (s ++ [0x3F]) = Spec.hashtagBucket s := by
    simp only [Spec.hashtagBucket, hashtagOccurrences_append_unit s 0x3F (by decide)]
  have h3 := ctaBucket_le_of_prefix lc s (s ++ [0x3F]) ⟨_, (hlc s).symm⟩
  have h4 := emojiBucket_le_append s [0x3F] (by simp)
  have h5 := exclamationBucket_le_append s [0x3F]
  have h6 : Spec.questionBucket s = 0 := by simp [Spec.questionBucket, hs]
  have h7 : Spec.questionBucket (s ++ [0x3F]) = 10 := by simp [Spec.questionBucket]
  simp only [Spec.score]
  omega

/-- Witness for C6: the 299 units `aaa...a`. -/
theorem C6_append_question_mono_witness :
    0x3F ∉ List.replicate 299 0x61 ∧
    ContentRoutes.calculateQualityScore asciiLower (List.replicate 299 0x61) ≤
      ContentRoutes.calculateQualityScore asciiLower (List.replicate 299 0x61 ++ [0x3F]) :=
  ⟨by decide, C6_append_question_mono asciiLower (fun s => by simp [asciiLower])
    (List.replicate 299 0x61) (by decide)⟩

/-- C7: for every string with no hashtag match and every non-empty word of word
characters, appending `#` and the word does not lower the score; lower-casing is assumed
to leave the text before the appended `#` as it is. -/
theorem C7_append_hashtag_mono (lc : JSString → JSString)
    (hlc : ∀ s t : JSString, lc (s ++ 0x23 :: t) = lc s ++ lc (0x23 :: t))
    (s w : JSString) (hs : hashtagMatches s = []) (hw : w ≠ [])
    (hword : ∀ c ∈ w, isWordChar c = true) :
    ContentRoutes.calculateQualityScore lc s ≤
      ContentRoutes.calculateQualityScore lc (s ++ 0x23 :: w) := by
  rw [calculateQualityScore_eq_buckets, calculateQualityScore_eq_buckets]
  have h1 := lengthBucket_le_add_five s.length (s ++ 0x23 :: w).length (by simp)
  have h0 : Spec.hashtagOccurrences s = 0 := by rw [← hashtagMatches_length, hs]; rfl
  have h2 : Spec.hashtagBucket s = 0 := by simp [Spec.hashtagBucket, h0]
  have h2b : 5 ≤ Spec.hashtagBucket (s ++ 0x23 :: w) := by
    have := hashtagOccurrences_tag_pos w hw hword
    have := hashtagOccurrences_le_append s (0x23 :: w)
    simp only [Spec.hashtagBucket]; omega
  have h3 := ctaBucket_le_of_prefix lc s (s ++ 0x23 :: w) ⟨_, (hlc s w).symm⟩
  have h4 := emojiBucket_le_append s (0x23 :: w) (by simp)
  have h5 := questionBucket_le_append s (0x23 :: w)
  have h6 := exclamationBucket_le_append s (0x23 :: w)
  simp only [Spec.score]
  omega

/-- Witness for C7: 19 units `aaa...a` followed by `#a`, which crosses the length
boundary 20 -> 21. -/
theorem C7_append_hashtag_mono_witness :
    hashtagMatches (List.replicate 19 0x61) = [] ∧
    ContentRoutes.calculateQualityScore asciiLower (List.replicate 19 0x61) ≤
      ContentRoutes.calculateQualityScore asciiLower (List.replicate 19 0x61 ++ 0x23 :: [0x61]) :=
  ⟨by decide, C7_append_hashtag_mono asciiLower (fun s t => by simp [asciiLower])
    (List.replicate 19 0x61) [0x61] (by decide) (by decide) (by decide)⟩


/-! ## The generator -/

theorem strategy_calculateQualityScore_eq (s : JSString) :
    StrategyRoutes.calculateQualityScore s = Spec.generatorScore s := by
  have hlen : (if s.length > 100 ∧ s.length < 500 then (50 : Int) + 15
      else if s.length > 50 then 50 + 10 else 50)
      = 50 + (if 100 < s.length ∧ s.length < 500 then 15 else if 50 < s.length then 10 else 0) := by
    split_ifs <;> omega
  have hhash : hashtagMatches s ≠ [] ↔ 0 < Spec.hashtagOccurrences s := by
    rw [← hashtagMatches_length, List.length_pos]
  simp only [StrategyRoutes.calculateQualityScore, hlen, hhash]
  simp only [ite_add_points, includes_unit_iff, List.any_eq_true, Spec.generatorScore]

theorem generateRecord_eq_some (lc : JSString → JSString) (now : Nat)
    (iso strategyId : JSString) (analysis : StrategyRoutes.Analysis)
    (contentType platform : JSString) (i : Nat) (template : JSString)
    (r : StrategyRoutes.ContentRecord)
    (h : StrategyRoutes.generateRecord lc now iso strategyId analysis contentType platform i
      template = some r) :
    StrategyRoutes.generateHashtags lc platform analysis = some r.hashtags ∧
    r.content = StrategyRoutes.generateContentFromTemplate lc template analysis platform ∧
    r.quality_score = StrategyRoutes.calculateQualityScore r.content := by
  unfold StrategyRoutes.generateRecord at h
  cases hh : StrategyRoutes.generateHashtags lc platform analysis with
  | none => simp [hh] at h
  | some tags =>
    simp only [hh, Option.some.injEq] at h
    subst h
    refine ⟨?_, ?_, ?_⟩ <;> dsimp only

/-- C4, counterexample: the record generated for the content type `story`, index 1 (the
template `Quick tip: {advice}`), the platform `instagram` and the analysis `{}` has the
content `Quick tip: focus on what matters most` and stores the score 50, while the
100-point scorer of `content-routes.js` gives this content the score 10. -/
theorem C4_quality_score_not_canonical :
    StrategyRoutes.selectTemplate (utf16 "story") 1 = some (utf16 "Quick tip: {advice}") ∧
    (StrategyRoutes.generateRecord asciiLower 1700000000000 (utf16 "2023-11-14T22:13:20.000Z")
      (utf16 "s1") StrategyRoutes.Analysis.empty (utf16 "story") (utf16 "instagram") 1
      (utf16 "Quick tip: {advice}")).map
      (fun r => (r.content, r.quality_score,
        ContentRoutes.calculateQualityScore asciiLower r.content))
    = some (utf16 "Quick tip: focus on what matters most", 50, 10) := by
  decide

/-- C4, amended: for every template, analysis and platform, the `quality_score` stored in
a generated record is the generator's own score of the record's content (base 50, +15 if
100 < length < 500, else +10 if length > 50, +10 for `?`, +5 for `!`, +10 if a hashtag
occurs, +10 if a code point of U+1F300..U+1F5FF occurs, clamped to [0, 100]). -/
theorem C4_quality_score_is_generator_score (lc : JSString → JSString) (now : Nat)
    (iso strategyId : JSString) (analysis : StrategyRoutes.Analysis)
    (contentType platform : JSString) (i : Nat) (template : JSString)
    (r : StrategyRoutes.ContentRecord)
    (h : StrategyRoutes.generateRecord lc now iso strategyId analysis contentType platform i
      template = some r) :
    r.content = StrategyRoutes.generateContentFromTemplate lc template analysis platform ∧
    r.quality_score = Spec.generatorScore r.content := by
  obtain ⟨_, hc, hq⟩ :=
    generateRecord_eq_some lc now iso strategyId analysis contentType platform i template r h
  exact ⟨hc, by rw [hq, strategy_calculateQualityScore_eq]⟩

/-- Witness for C4, amended: the record of the first story template for `instagram` and
the analysis `{}`. -/
theorem C4_quality_score_is_generator_score_witness :
    ∃ r, StrategyRoutes.generateRecord asciiLower 1700000000000
        (utf16 "2023-11-14T22:13:20.000Z") (utf16 "s1") StrategyRoutes.Analysis.empty
        (utf16 "story") (utf16 "instagram") 0 (utf16 "Behind the scenes: {process}") = some r ∧
      r.quality_score = Spec.generatorScore r.content := by
  have hs : (StrategyRoutes.generateRecord asciiLower 1700000000000
      (utf16 "2023-11-14T22:13:20.000Z") (utf16 "s1") StrategyRoutes.Analysis.empty
      (utf16 "story") (utf16 "instagram") 0 (utf16 "Behind the scenes: {process}")).isSome
      = true := by decide
  obtain ⟨r, hr⟩ := Option.isSome_iff_exists.1 hs
  exact ⟨r, hr, (C4_quality_score_is_generator_score asciiLower 1700000000000
    (utf16 "2023-11-14T22:13:20.000Z") (utf16 "s1") StrategyRoutes.Analysis.empty
    (utf16 "story") (utf16 "instagram") 0 (utf16 "Behind the scenes: {process}") r hr).2⟩


/-! ## Hashtag assembly -/

theorem arrayMap_pillarTag_of_names (lc : JSString → JSString)
    (pillars : List StrategyRoutes.Pillar) (names : List JSString)
    (h : pillars.map StrategyRoutes.Pillar.name = names.map some) :
    StrategyRoutes.arrayMap (StrategyRoutes.pillarTag lc) pillars =
      some (names.map (Spec.pillarTagOf lc)) := by
  induction pillars generalizing names with
  | nil =>
    cases names with
    | nil => rfl
    | cons n ns => simp at h
  | cons p ps ih =>
    cases names with
    | nil => simp at h
    | cons n ns =>
      simp only [List.map_cons, List.cons.injEq] at h
      simp only [StrategyRoutes.arrayMap, StrategyRoutes.pillarTag, h.1, Option.map_some',
        ih ns h.2, List.map_cons, Spec.pillarTagOf]

theorem arrayMap_pillarTag_isSome (lc : JSString → JSString)
    (pillars : List StrategyRoutes.Pillar) (h : ∀ p ∈ pillars, p.name ≠ none) :
    ∃ tags, StrategyRoutes.arrayMap (StrategyRoutes.pillarTag lc) pillars = some tags := by
  induction pillars with
  | nil => exact ⟨[], rfl⟩
  | cons p ps ih =>
    obtain ⟨tags, ht⟩ := ih (fun q hq => h q (List.mem_cons_of_mem p hq))
    obtain ⟨n, hn⟩ := Option.ne_none_iff_exists'.1 (h p (List.mem_cons_self p ps))
    simp only [StrategyRoutes.arrayMap, StrategyRoutes.pillarTag, hn, Option.map_some', ht]
    exact ⟨_, rfl⟩

theorem contentTags_isSome (lc : JSString → JSString) (analysis : StrategyRoutes.Analysis)
    (hwf : ∀ pillars, analysis.content_pillars = some pillars → ∀ p ∈ pillars, p.name ≠ none) :
    ∃ tags, StrategyRoutes.contentTags lc analysis = some tags := by
  unfold StrategyRoutes.contentTags
  cases hp : analysis.content_pillars with
  | none => exact ⟨[], rfl⟩
  | some pillars => exact arrayMap_pillarTag_isSome lc pillars (hwf pillars hp)

theorem generateHashtags_of_own (lc : JSString → JSString) (platform : JSString)
    (analysis : StrategyRoutes.Analysis) (tags contentTags : List JSString)
    (hp : StrategyRoutes.getProperty StrategyRoutes.platformTags platform = .own tags)
    (hc : StrategyRoutes.contentTags lc analysis = some contentTags) :
    StrategyRoutes.generateHashtags lc platform analysis =
      some ([0x20].intercalate
        ((StrategyRoutes.generalTags ++ tags ++ contentTags.take 2).take 5)) := by
  simp only [StrategyRoutes.generateHashtags, hc, hp]

/-- Outside the member names of `Object.prototype`, `generateHashtags` is the reference
hashtag line of the platform and the pillar names. -/
theorem generateHashtags_eq_reference (lc : JSString → JSString) (platform : JSString)
    (analysis : StrategyRoutes.Analysis) (names : List JSString)
    (hp : platform ∉ StrategyRoutes.objectPrototypeKeys)
    (hn : (analysis.content_pillars.getD []).map StrategyRoutes.Pillar.name = names.map some) :
    StrategyRoutes.generateHashtags lc platform analysis =
      some (Spec.hashtags lc platform names) := by
  have hc : StrategyRoutes.contentTags lc analysis = some (names.map (Spec.pillarTagOf lc)) := by
    unfold StrategyRoutes.contentTags
    cases hcp : analysis.content_pillars with
    | none =>
      rw [hcp] at hn
      cases names with
      | nil => rfl
      | cons n ns => simp at hn
    | some pillars =>
      rw [hcp] at hn
      exact arrayMap_pillarTag_of_names lc pillars names hn
  simp only [StrategyRoutes.generateHashtags, hc, StrategyRoutes.getProperty, Spec.hashtags,
    Spec.platformTagsOf, List.map_take]
  cases StrategyRoutes.platformTags.find? (fun e => e.1 == platform) with
  | none => simp only [if_neg hp]
  | some e => rfl

/-- C8, at the failing input: for the platform `constructor` and the analysis `{}` the
function raises (`none`), where the reference hashtag line is the four general tags. -/
theorem C8_generateHashtags_raises_on_inherited_name :
    StrategyRoutes.generateHashtags asciiLower (utf16 "constructor")
      StrategyRoutes.Analysis.empty = none ∧
    Spec.hashtags asciiLower (utf16 "constructor") [] =
      utf16 "#marketing #success #growth #innovation" := by
  decide

/-- C9: for every recognised platform and every analysis whose pillars all have a name,
the analysis `{}` included, the record is generated and its `hashtags` string consists of
exactly 5 space-separated entries, each starting with `#`. -/
theorem C9_generated_hashtags_five_entries (lc : JSString → JSString) (now : Nat)
    (iso strategyId : JSString) (analysis : StrategyRoutes.Analysis)
    (contentType platform : JSString) (i : Nat) (template : JSString)
    (hp : platform ∈ Spec.platforms)
    (hwf : ∀ pillars, analysis.content_pillars = some pillars → ∀ p ∈ pillars, p.name ≠ none) :
    ∃ r, StrategyRoutes.generateRecord lc now iso strategyId analysis contentType platform i
        template = some r ∧
      (r.hashtags.splitOn 0x20).length = 5 ∧
      ∀ e ∈ r.hashtags.splitOn 0x20, e.head? = some 0x23 := by
  obtain ⟨tags, ht⟩ := contentTags_isSome lc analysis hwf
  have key : ∀ T : List JSString,
      StrategyRoutes.getProperty StrategyRoutes.platformTags platform = .own T →
      5 ≤ (StrategyRoutes.generalTags ++ T).length →
      (([0x20].intercalate ((StrategyRoutes.generalTags ++ T).take 5)).splitOn 0x20).length = 5 ∧
        (∀ e ∈ ([0x20].intercalate ((StrategyRoutes.generalTags ++ T).take 5)).splitOn 0x20,
          e.head? = some 0x23) →
      ∃ r, StrategyRoutes.generateRecord lc now iso strategyId analysis contentType platform i
          template = some r ∧
        (r.hashtags.splitOn 0x20).length = 5 ∧
        ∀ e ∈ r.hashtags.splitOn 0x20, e.head? = some 0x23 := by
    intro T hT hlen hres
    have hgen := generateHashtags_of_own lc platform analysis T tags hT ht
    rw [List.take_append_of_le_length hlen] at hgen
    simp only [StrategyRoutes.generateRecord, hgen]
    exact ⟨_, rfl, hres⟩
  simp only [Spec.platforms, List.mem_cons, List.mem_singleton, List.not_mem_nil,
    or_false] at hp
  rcases hp with rfl | rfl | rfl | rfl | rfl | rfl
  · exact key (Spec.platformTagsOf (utf16 "facebook")) (by decide) (by decide) (by decide)
  · exact key (Spec.platformTagsOf (utf16 "instagram")) (by decide) (by decide) (by decide)
  · exact key (Spec.platformTagsOf (utf16 "twitter")) (by decide) (by decide) (by decide)
  · exact key (Spec.platformTagsOf (utf16 "linkedin")) (by decide) (by decide) (by decide)
  · exact key (Spec.platformTagsOf (utf16 "tiktok")) (by decide) (by decide) (by decide)
  · exact key (Spec.platformTagsOf (utf16 "youtube")) (by decide) (by decide) (by decide)

/-- Witness for C9: the platform `instagram` and the analysis `{}`. -/
theorem C9_generated_hashtags_five_entries_witness :
    utf16 "instagram" ∈ Spec.platforms ∧
    ∃ r, StrategyRoutes.generateRecord asciiLower 1700000000000
        (utf16 "2023-11-14T22:13:20.000Z") (utf16 "s1") StrategyRoutes.Analysis.empty
        (utf16 "post") (utf16 "instagram") 0 (utf16 "{pillar}") = some r ∧
      (r.hashtags.splitOn 0x20).length = 5 ∧
      ∀ e ∈ r.hashtags.splitOn 0x20, e.head? = some 0x23 :=
  ⟨by decide, C9_generated_hashtags_five_entries asciiLower 1700000000000
    (utf16 "2023-11-14T22:13:20.000Z") (utf16 "s1") StrategyRoutes.Analysis.empty
    (utf16 "post") (utf16 "instagram") 0 (utf16 "{pillar}") (by decide)
    (fun pillars h => by simp [StrategyRoutes.Analysis.empty] at h)⟩

theorem platformTagsOf_no_space (platform : JSString) :
    ∀ t ∈ Spec.platformTagsOf platform, 0x20 ∉ t := by
  unfold Spec.platformTagsOf
  cases h : StrategyRoutes.platformTags.find? (fun e => e.1 == platform) with
  | none => simp
  | some e =>
    have he : e ∈ StrategyRoutes.platformTags := List.mem_of_find?_eq_some h
    have hall : ∀ e ∈ StrategyRoutes.platformTags, ∀ t ∈ e.2, 0x20 ∉ t := by decide
    exact hall e he

theorem pillarTagOf_no_space (lc : JSString → JSString) (name : JSString) :
    0x20 ∉ Spec.pillarTagOf lc name := by
  simp only [Spec.pillarTagOf, List.mem_cons, List.mem_filter, not_or, not_and]
  refine ⟨by decide, fun _ => by decide⟩

/-- Outside the member names of `Object.prototype`, the hashtag line for the pillars
`[{name: "Growth"}]` has the entry `#growth`. -/
theorem generateHashtags_growth_entry (lc : JSString → JSString) (platform : JSString)
    (hp : platform ∉ StrategyRoutes.objectPrototypeKeys) :
    ∃ line, StrategyRoutes.generateHashtags lc platform
        ⟨none, none, some [⟨some (utf16 "Growth"), none⟩], none⟩ = some line ∧
      utf16 "#growth" ∈ line.splitOn 0x20 := by
  refine ⟨_, generateHashtags_eq_reference lc platform _ [utf16 "Growth"] hp rfl, ?_⟩
  unfold Spec.hashtags
  have hmem : utf16 "#growth" ∈ (StrategyRoutes.generalTags ++ Spec.platformTagsOf platform ++
      ([utf16 "Growth"].take 2).map (Spec.pillarTagOf lc)).take 5 := by
    simp [StrategyRoutes.generalTags]
  have hx : ∀ l ∈ (StrategyRoutes.generalTags ++ Spec.platformTagsOf platform ++
      ([utf16 "Growth"].take 2).map (Spec.pillarTagOf lc)).take 5, 0x20 ∉ l := by
    intro l hl
    have hl2 := List.mem_of_mem_take hl
    simp only [List.mem_append, List.mem_map] at hl2
    rcases hl2 with (hg | hpt) | ⟨n, _, rfl⟩
    · have hall : ∀ t ∈ StrategyRoutes.generalTags, 0x20 ∉ t := by decide
      exact hall l hg
    · exact platformTagsOf_no_space platform l hpt
    · exact pillarTagOf_no_space lc n
  rw [List.splitOn_intercalate _ 0x20 hx (List.ne_nil_of_mem hmem)]
  exact hmem

/-- C10, at the failing input: for the platform `constructor` and the pillars
`[{name: "Growth"}]` the function raises (`none`) and returns no tag list. -/
theorem C10_generateHashtags_growth_raises_on_inherited_name :
    StrategyRoutes.generateHashtags asciiLower (utf16 "constructor")
      ⟨none, none, some [⟨some (utf16 "Growth"), none⟩], none⟩ = none := by
  decide


/-! ## The placeholder mapping -/

theorem replacements_eq_placeholderTable (lc : JSString → JSString)
    (analysis : StrategyRoutes.Analysis) :
    StrategyRoutes.replacements lc analysis = Spec.placeholderTable analysis := by
  simp +decide only [StrategyRoutes.replacements, StrategyRoutes.objectLiteral, List.foldl,
    StrategyRoutes.defineProperty, List.any_cons, List.any_nil, List.map_cons, List.map_nil,
    List.nil_append, List.cons_append, beq_iff_eq, Bool.or_false, Bool.false_or, Bool.or_true,
    Bool.true_or, if_true, if_false, ite_true, ite_false, Bool.false_eq_true, decide_False,
    decide_True]
  rfl

theorem placeholderTable_keys (analysis : StrategyRoutes.Analysis) :
    (Spec.placeholderTable analysis).map Prod.fst = Spec.knownPlaceholders := by
  simp only [Spec.knownPlaceholders, Spec.placeholderTable, List.map_cons, List.map_nil]

theorem knownPlaceholders_isToken : ∀ k ∈ Spec.knownPlaceholders, Spec.isToken k = true := by
  decide

theorem generateContentFromTemplate_eq_foldl (lc : JSString → JSString) (template : JSString)
    (analysis : StrategyRoutes.Analysis) (platform : JSString) :
    StrategyRoutes.generateContentFromTemplate lc template analysis platform =
      (Spec.placeholderTable analysis).foldl
        (fun content e => StrategyRoutes.replaceAll e.1 e.2 content) template := by
  rw [StrategyRoutes.generateContentFromTemplate, replacements_eq_placeholderTable]

/-! ## Template selection -/

theorem templateAt_isSome (T : List JSString) (h : T ≠ []) (i : Nat) :
    ∃ t, StrategyRoutes.templateAt T i = some t ∧ T[i % T.length]? = some t := by
  have hpos : 0 < T.length := List.length_pos.2 h
  have hlt : i % T.length < T.length := Nat.mod_lt i hpos
  exact ⟨T[i % T.length], by simp [StrategyRoutes.templateAt, hlt], by simp [hlt]⟩

theorem getProperty_own_mem {α : Type} (obj : List (JSString × α)) (key : JSString) (v : α)
    (h : StrategyRoutes.getProperty obj key = .own v) : (key, v) ∈ obj := by
  unfold StrategyRoutes.getProperty at h
  cases hf : obj.find? (fun e => e.1 == key) with
  | none =>
    rw [hf] at h
    simp only at h
    split_ifs at h
  | some e =>
    rw [hf] at h
    simp only [StrategyRoutes.Lookup.own.injEq] at h
    have hm := List.mem_of_find?_eq_some hf
    have hk := List.find?_some hf
    simp only [beq_iff_eq] at hk
    rw [← h, ← hk]
    exact hm

theorem selectTemplate_of_own (contentType : JSString) (T : List JSString)
    (h : StrategyRoutes.getProperty StrategyRoutes.templates contentType = .own T) (i : Nat) :
    StrategyRoutes.selectTemplate contentType i = StrategyRoutes.templateAt T i := by
  simp only [StrategyRoutes.selectTemplate, h, StrategyRoutes.templateAt]

theorem templates_nonempty : ∀ e ∈ StrategyRoutes.templates, e.2 ≠ [] := by decide

/-- C16: for every content type of the catalog with template list `T` and every index
`i`, the list is not empty and the selected template is `T[i mod |T|]`, which is defined;
the indices of the first `|T|` passes are pairwise distinct; for any list of length 3 the
passes `i = 0..4` select the entries 0, 1, 2, 0, 1. -/
theorem C16_template_selection_round_robin (contentType : JSString) (T : List JSString)
    (h : StrategyRoutes.getProperty StrategyRoutes.templates contentType = .own T) (i : Nat) :
    T ≠ [] ∧
    (∃ t, StrategyRoutes.selectTemplate contentType i = some t ∧ T[i % T.length]? = some t) ∧
    (∀ j k, j < T.length → k < T.length → j % T.length = k % T.length → j = k) ∧
    (∀ L : List JSString, L.length = 3 →
      (List.range 5).map (fun k => StrategyRoutes.templateAt L k) =
        [L[0]?, L[1]?, L[2]?, L[0]?, L[1]?]) := by
  have hne : T ≠ [] := templates_nonempty (contentType, T) (getProperty_own_mem _ _ _ h)
  refine ⟨hne, ?_, ?_, ?_⟩
  · rw [selectTemplate_of_own contentType T h]
    exact templateAt_isSome T hne i
  · intro j k hj hk hjk
    rwa [Nat.mod_eq_of_lt hj, Nat.mod_eq_of_lt hk] at hjk
  · intro L hL
    simp [StrategyRoutes.templateAt, hL, List.range_succ]

/-- Witness for C16: the content type `video_script`, whose list has 2 templates, and the
index 3. -/
theorem C16_template_selection_round_robin_witness :
    ∃ t, StrategyRoutes.selectTemplate (utf16 "video_script") 3 = some t ∧
      (Spec.templatesOf (utf16 "video_script"))[3 % 2]? = some t :=
  (C16_template_selection_round_robin (utf16 "video_script")
    (Spec.templatesOf (utf16 "video_script")) (by decide) 3).2.1

theorem selectTemplate_fallback (contentType : JSString)
    (hc : contentType ∉ Spec.contentTypes)
    (hp : contentType ∉ StrategyRoutes.objectPrototypeKeys) (i : Nat) :
    StrategyRoutes.selectTemplate contentType i =
      StrategyRoutes.templateAt (Spec.templatesOf (utf16 "post")) i ∧
    (Spec.templatesOf (utf16 "post")).length = 5 := by
  refine ⟨?_, by decide⟩
  have hfind : StrategyRoutes.templates.find? (fun e => e.1 == contentType) = none := by
    rw [List.find?_eq_none]
    intro e he hk
    simp only [beq_iff_eq] at hk
    have hkeys : ∀ e ∈ StrategyRoutes.templates, e.1 ∈ Spec.contentTypes := by decide
    exact hc (hk ▸ hkeys e he)
  have hget : StrategyRoutes.getProperty StrategyRoutes.templates contentType = .undefined := by
    simp only [StrategyRoutes.getProperty, hfind, if_neg hp]
  have hpost : StrategyRoutes.getProperty StrategyRoutes.templates (utf16 "post") =
      .own (Spec.templatesOf (utf16 "post")) := by decide
  simp only [StrategyRoutes.selectTemplate, hget, hpost, StrategyRoutes.templateAt]

/-- C17, at the failing input: the content type `constructor` is none of the five catalog
keys, yet no template of the post list is selected: the selected template is `undefined`
and the loop pass raises, where the post list has the entry 0. -/
theorem C17_selectTemplate_inherited_name :
    utf16 "constructor" ∉ Spec.contentTypes ∧
    StrategyRoutes.selectTemplate (utf16 "constructor") 0 = none ∧
    StrategyRoutes.generateRecordAt asciiLower 1700000000000 (utf16 "2023-11-14T22:13:20.000Z")
      (utf16 "s1") StrategyRoutes.Analysis.empty (utf16 "constructor") (utf16 "instagram") 0
      = none ∧
    (StrategyRoutes.templateAt (Spec.templatesOf (utf16 "post")) 0).isSome = true := by
  decide

/-- C12, at the failing input: for a pillar without a name `generateHashtags` raises
(`none`), while `generateContentFromTemplate` falls back to `Innovation`. -/
theorem C12_generateHashtags_raises_on_missing_name :
    StrategyRoutes.generateHashtags asciiLower (utf16 "instagram")
      ⟨none, none, some [⟨none, some (utf16 "our themes")⟩], none⟩ = none ∧
    StrategyRoutes.generateContentFromTemplate asciiLower (utf16 "{pillar}")
      ⟨none, none, some [⟨none, some (utf16 "our themes")⟩], none⟩ (utf16 "instagram") =
      utf16 "Innovation" := by
  decide

/-- C20: for every string, the score of `calculateQualityScore` of `strategy-routes.js`
is an integer between 0 and 100. -/
theorem C20_generator_score_bounds (content : JSString) :
    0 ≤ StrategyRoutes.calculateQualityScore content ∧
      StrategyRoutes.calculateQualityScore content ≤ 100 := by
  rw [strategy_calculateQualityScore_eq]
  simp only [Spec.generatorScore]
  omega


/-! ## Placeholder resolution -/

theorem startsWith_eq_false_of_not_infix (s pat : JSString) (h : ¬ pat <:+: s) :
    startsWith s pat = false := by
  cases hs : startsWith s pat with
  | false => rfl
  | true => exact absurd ((startsWith_iff s pat).1 hs).isInfix h

theorem replaceAllFrom_of_not_infix (pat replacement str : JSString) (position : Nat)
    (s : JSString) (h : ¬ pat <:+: s) :
    StrategyRoutes.replaceAllFrom pat replacement str 0 position s = s := by
  induction s generalizing position with
  | nil => rfl
  | cons c rest ih =>
    have hrest : ¬ pat <:+: rest := fun hr => h (hr.trans (List.suffix_cons c rest).isInfix)
    simp only [StrategyRoutes.replaceAllFrom, startsWith_eq_false_of_not_infix _ _ h,
      Bool.false_eq_true, if_false, ih (position + 1) hrest]

theorem foldl_replaceAll_of_not_infix (table : List (JSString × JSString)) (s : JSString)
    (h : ∀ e ∈ table, ¬ e.1 <:+: s) :
    table.foldl (fun content e => StrategyRoutes.replaceAll e.1 e.2 content) s = s := by
  induction table with
  | nil => rfl
  | cons e rest ih =>
    have he : StrategyRoutes.replaceAll e.1 e.2 s = s :=
      replaceAllFrom_of_not_infix e.1 e.2 s 0 s (h e (List.mem_cons_self e rest))
    simp only [List.foldl_cons, he]
    exact ih (fun e2 h2 => h e2 (List.mem_cons_of_mem e h2))

theorem not_infix_of_known (analysis : StrategyRoutes.Analysis) (s : JSString)
    (h : ∀ k ∈ Spec.knownPlaceholders, includes s k = false) :
    ∀ e ∈ Spec.placeholderTable analysis, ¬ e.1 <:+: s := by
  intro e he hinf
  have hk : e.1 ∈ Spec.knownPlaceholders := by
    rw [← placeholderTable_keys analysis]
    exact List.mem_map_of_mem Prod.fst he
  have := h e.1 hk
  rw [(includes_iff s e.1).2 hinf] at this
  exact Bool.noConfusion this

theorem generateContentFromTemplate_of_no_placeholder (lc : JSString → JSString)
    (template : JSString) (analysis : StrategyRoutes.Analysis) (platform : JSString)
    (h : ∀ k ∈ Spec.knownPlaceholders, includes template k = false) :
    StrategyRoutes.generateContentFromTemplate lc template analysis platform = template := by
  rw [generateContentFromTemplate_eq_foldl]
  exact foldl_replaceAll_of_not_infix _ _ (not_infix_of_known analysis template h)

/-! ## Brace tokens -/

theorem isToken_eq_tokenOf (k : JSString) (h : Spec.isToken k = true) :
    ∃ n, k = Spec.tokenOf n ∧ 0x7B ∉ n ∧ 0x7D ∉ n := by
  cases k with
  | nil => simp [Spec.isToken] at h
  | cons c rest =>
    simp only [Spec.isToken, Bool.and_eq_true, beq_iff_eq, Bool.not_eq_true',
      List.contains_eq_any_beq, List.any_eq_false, beq_iff_eq] at h
    obtain ⟨⟨⟨hc, hlast⟩, h1⟩, h2⟩ := h
    refine ⟨rest.dropLast, ?_, fun hm => h1 _ hm rfl, fun hm => h2 _ hm rfl⟩
    have hrest : rest = rest.dropLast ++ [0x7D] := by
      have := List.dropLast_append_getLast? 0x7D (by rw [hlast]; rfl : (0x7D : Nat) ∈ rest.getLast?)
      exact this.symm
    rw [hc]
    exact congrArg (List.cons 0x7B) hrest

theorem tokenOf_prefix_iff (n m R : JSString) (hn : 0x7D ∉ n) (hm : 0x7D ∉ m) :
    (m ++ [0x7D]) <+: (n ++ 0x7D :: R) ↔ m = n := by
  constructor
  · intro h
    induction m generalizing n with
    | nil =>
      cases n with
      | nil => rfl
      | cons a n2 =>
        simp only [List.nil_append, List.cons_append, List.cons_prefix_cons] at h
        exact absurd (h.1 ▸ List.mem_cons_self a n2) hn
    | cons b m2 ih =>
      cases n with
      | nil =>
        simp only [List.nil_append, List.cons_append, List.cons_prefix_cons] at h
        exact absurd (h.1 ▸ List.mem_cons_self b m2) hm
      | cons a n2 =>
        simp only [List.cons_append, List.cons_prefix_cons] at h
        rw [h.1, ih n2 (fun hx => hn (List.mem_cons_of_mem a hx))
          (fun hx => hm (List.mem_cons_of_mem b hx)) h.2]
  · rintro rfl
    exact ⟨R, by simp⟩

theorem startsWith_tokenOf (n m R : JSString) (hn : 0x7D ∉ n) (hm : 0x7D ∉ m) :
    startsWith (Spec.tokenOf n ++ R) (Spec.tokenOf m) = decide (m = n) := by
  rw [Bool.eq_iff_iff, startsWith_iff, decide_eq_true_iff]
  simp only [Spec.tokenOf, List.cons_append, List.cons_prefix_cons, true_and, List.append_assoc,
    List.singleton_append]
  exact tokenOf_prefix_iff n m R hn hm

theorem startsWith_tokenOf_of_ne (c : Nat) (s m : JSString) (hc : c ≠ 0x7B) :
    startsWith (c :: s) (Spec.tokenOf m) = false := by
  simp [Spec.tokenOf, startsWith, hc]

theorem tokenOf_injective (n m : JSString) (h : Spec.tokenOf n = Spec.tokenOf m) : n = m := by
  simp only [Spec.tokenOf, List.cons_append, List.cons.injEq, true_and] at h
  exact List.append_cancel_right h

/-! ## Unknown tokens survive every replace -/

theorem replaceAllFrom_pass_text (m replacement str x R : JSString) (position : Nat)
    (hx : 0x7B ∉ x) :
    StrategyRoutes.replaceAllFrom (Spec.tokenOf m) replacement str 0 position (x ++ R) =
      x ++ StrategyRoutes.replaceAllFrom (Spec.tokenOf m) replacement str 0
        (position + x.length) R := by
  induction x generalizing position with
  | nil => rfl
  | cons c x2 ih =>
    have hc : c ≠ 0x7B := fun h => hx (h ▸ List.mem_cons_self c x2)
    have hx2 : 0x7B ∉ x2 := fun h => hx (List.mem_cons_of_mem c h)
    have hpos : position + 1 + x2.length = position + (x2.length + 1) := by omega
    simp only [List.cons_append, StrategyRoutes.replaceAllFrom,
      startsWith_tokenOf_of_ne c _ m hc, Bool.false_eq_true, if_false, List.append_eq,
      ih (position + 1) hx2, List.length_cons, hpos]

theorem prefix_before_token (m u a b : JSString) (hm : 0x7B ∉ m) (ha : a ≠ [])
    (h : Spec.tokenOf m <+: a ++ Spec.tokenOf u ++ b) : (Spec.tokenOf m).length ≤ a.length := by
  by_contra hlt
  have hlen : a.length ≤ (Spec.tokenOf m).length := by omega
  have hpa : a <+: a ++ Spec.tokenOf u ++ b := ⟨Spec.tokenOf u ++ b, by simp⟩
  obtain ⟨r, hr⟩ := List.prefix_of_prefix_length_le hpa h hlen
  have hr2 : r <+: Spec.tokenOf u ++ b := by
    obtain ⟨t, ht⟩ := h
    refine ⟨t, ?_⟩
    rw [← hr] at ht
    simp only [List.append_assoc] at ht
    exact List.append_cancel_left ht
  have hrne : r ≠ [] := by
    intro hnil
    rw [hnil, List.append_nil] at hr
    rw [hr] at hlt
    exact hlt (le_refl _)
  cases r with
  | nil => exact hrne rfl
  | cons c r2 =>
    have hc : c = 0x7B := by
      simp only [Spec.tokenOf, List.cons_append, List.cons_prefix_cons] at hr2
      exact hr2.1
    cases a with
    | nil => exact ha rfl
    | cons a0 a2 =>
      simp only [Spec.tokenOf, List.cons_append, List.cons.injEq] at hr
      have hmem : (0x7B : Nat) ∈ m ++ [0x7D] := by
        rw [← hr.2, hc]; simp
      simp only [List.mem_append, List.mem_singleton] at hmem
      rcases hmem with h1 | h1
      · exact hm h1
      · exact absurd h1 (by decide)

theorem replaceAllFrom_keeps_token (m u replacement str : JSString)
    (hm1 : 0x7B ∉ m) (hm2 : 0x7D ∉ m) (hu1 : 0x7B ∉ u) (hu2 : 0x7D ∉ u) (hne : m ≠ u)
    (a b : JSString) (skip position : Nat) (hskip : skip ≤ a.length) :
    Spec.tokenOf u <:+:
      StrategyRoutes.replaceAllFrom (Spec.tokenOf m) replacement str skip position
        (a ++ Spec.tokenOf u ++ b) := by
  induction a generalizing skip position with
  | nil =>
    have hs : skip = 0 := by simpa using hskip
    subst hs
    have h0 : startsWith (Spec.tokenOf u ++ b) (Spec.tokenOf m) = false := by
      rw [startsWith_tokenOf u m b hu2 hm2]; simp [hne]
    have hshape : [] ++ Spec.tokenOf u ++ b = 0x7B :: (u ++ (0x7D :: b)) := by
      simp [Spec.tokenOf]
    have h0b : startsWith (0x7B :: (u ++ (0x7D :: b))) (Spec.tokenOf m) = false := by
      rw [← hshape]; simpa using h0
    rw [hshape]
    simp only [StrategyRoutes.replaceAllFrom, h0b, Bool.false_eq_true, if_false]
    rw [replaceAllFrom_pass_text m replacement str u (0x7D :: b) (position + 1) hu1]
    simp only [StrategyRoutes.replaceAllFrom,
      startsWith_tokenOf_of_ne 0x7D b m (by decide), Bool.false_eq_true, if_false]
    exact ⟨[], StrategyRoutes.replaceAllFrom (Spec.tokenOf m) replacement str 0
      (position + 1 + u.length + 1) b, by simp [Spec.tokenOf]⟩
  | cons c a2 ih =>
    cases skip with
    | succ k =>
      simp only [List.cons_append, StrategyRoutes.replaceAllFrom]
      exact ih k (position + 1) (by simpa using hskip)
    | zero =>
      simp only [List.cons_append, StrategyRoutes.replaceAllFrom]
      split_ifs with hsw
      · have hpre : Spec.tokenOf m <+: (c :: a2) ++ Spec.tokenOf u ++ b := by
          have := (startsWith_iff _ _).1 hsw
          simpa using this
        have hlen := prefix_before_token m u (c :: a2) b hm1 (List.cons_ne_nil c a2) hpre
        have hk : (Spec.tokenOf m).length - 1 ≤ a2.length := by
          simp only [List.length_cons] at hlen; omega
        exact (ih ((Spec.tokenOf m).length - 1) (position + 1) hk).trans
          (List.suffix_append _ _).isInfix
      · exact (ih 0 (position + 1) (Nat.zero_le _)).trans (List.suffix_cons c _).isInfix

theorem replaceAll_keeps_token (m u replacement s : JSString)
    (hm1 : 0x7B ∉ m) (hm2 : 0x7D ∉ m) (hu1 : 0x7B ∉ u) (hu2 : 0x7D ∉ u) (hne : m ≠ u)
    (h : Spec.tokenOf u <:+: s) :
    Spec.tokenOf u <:+: StrategyRoutes.replaceAll (Spec.tokenOf m) replacement s := by
  obtain ⟨a, b, hab⟩ := h
  have := replaceAllFrom_keeps_token m u replacement s hm1 hm2 hu1 hu2 hne a b 0 0
    (Nat.zero_le _)
  rw [hab] at this
  exact this

theorem foldl_replaceAll_keeps_token (table : List (JSString × JSString)) (u s : JSString)
    (hu1 : 0x7B ∉ u) (hu2 : 0x7D ∉ u)
    (hkeys : ∀ e ∈ table, Spec.isToken e.1 = true ∧ e.1 ≠ Spec.tokenOf u)
    (h : Spec.tokenOf u <:+: s) :
    Spec.tokenOf u <:+:
      table.foldl (fun content e => StrategyRoutes.replaceAll e.1 e.2 content) s := by
  induction table generalizing s with
  | nil => exact h
  | cons e rest ih =>
    obtain ⟨htok, hneq⟩ := hkeys e (List.mem_cons_self e rest)
    obtain ⟨m, hm, hm1, hm2⟩ := isToken_eq_tokenOf e.1 htok
    have hne : m ≠ u := fun hmu => hneq (by rw [hm, hmu])
    simp only [List.foldl_cons]
    refine ih _ (fun e2 h2 => hkeys e2 (List.mem_cons_of_mem e h2)) ?_
    rw [hm]
    exact replaceAll_keeps_token m u e.2 s hm1 hm2 hu1 hu2 hne h

/-- C14: for every analysis and platform, a template that contains no known placeholder
is returned unchanged, and a brace token whose name is not in the mapping occurs in the
output whenever it occurs in the template. -/
theorem C14_unknown_placeholders_verbatim (lc : JSString → JSString) (template : JSString)
    (analysis : StrategyRoutes.Analysis) (platform : JSString) :
    ((∀ k ∈ Spec.knownPlaceholders, includes template k = false) →
      StrategyRoutes.generateContentFromTemplate lc template analysis platform = template) ∧
    (∀ name : JSString, 0x7B ∉ name → 0x7D ∉ name →
      Spec.tokenOf name ∉ Spec.knownPlaceholders →
      includes template (Spec.tokenOf name) = true →
      includes (StrategyRoutes.generateContentFromTemplate lc template analysis platform)
        (Spec.tokenOf name) = true) := by
  refine ⟨generateContentFromTemplate_of_no_placeholder lc template analysis platform, ?_⟩
  intro name h1 h2 hunknown hin
  rw [includes_iff] at hin ⊢
  rw [generateContentFromTemplate_eq_foldl]
  apply foldl_replaceAll_keeps_token _ name template h1 h2 _ hin
  intro e he
  have hk : e.1 ∈ Spec.knownPlaceholders := by
    rw [← placeholderTable_keys analysis]
    exact List.mem_map_of_mem Prod.fst he
  exact ⟨knownPlaceholders_isToken e.1 hk, fun heq => hunknown (heq ▸ hk)⟩

/-- Witness for C14: the template `Tags: {hashtags} by {unknown}` holds no known
placeholder and is returned as it is, with the token `{unknown}` in it. -/
theorem C14_unknown_placeholders_verbatim_witness :
    StrategyRoutes.generateContentFromTemplate asciiLower (utf16 "Tags: {hashtags} by {unknown}")
        StrategyRoutes.Analysis.empty (utf16 "instagram") =
      utf16 "Tags: {hashtags} by {unknown}" ∧
    includes (StrategyRoutes.generateContentFromTemplate asciiLower
        (utf16 "Tags: {hashtags} by {unknown}") StrategyRoutes.Analysis.empty
        (utf16 "instagram")) (Spec.tokenOf (utf16 "unknown")) = true :=
  ⟨(C14_unknown_placeholders_verbatim asciiLower (utf16 "Tags: {hashtags} by {unknown}")
      StrategyRoutes.Analysis.empty (utf16 "instagram")).1 (by decide),
   (C14_unknown_placeholders_verbatim asciiLower (utf16 "Tags: {hashtags} by {unknown}")
      StrategyRoutes.Analysis.empty (utf16 "instagram")).2 (utf16 "unknown") (by decide)
      (by decide) (by decide) (by decide)⟩

/-! ## The placeholder `{pillar}` -/

theorem getSubstitution_of_no_dollar (matched str : JSString) (position : Nat) (v : JSString)
    (hv : 0x24 ∉ v) : StrategyRoutes.getSubstitution matched str position v = v := by
  induction v using StrategyRoutes.getSubstitution.induct matched str position with
  | case1 => rfl
  | case2 c => rfl
  | case3 c d rest h ih => exact absurd (h.1 ▸ List.mem_cons_self c _) hv
  | case4 c d rest _ h ih => exact absurd (h.1 ▸ List.mem_cons_self c _) hv
  | case5 c d rest _ _ h ih => exact absurd (h.1 ▸ List.mem_cons_self c _) hv
  | case6 c d rest _ _ _ h ih => exact absurd (h.1 ▸ List.mem_cons_self c _) hv
  | case7 c d rest h1 h2 h3 h4 ih =>
    have hrest : 0x24 ∉ d :: rest := fun hm => hv (List.mem_cons_of_mem c hm)
    simp only [StrategyRoutes.getSubstitution, if_neg h1, if_neg h2, if_neg h3, if_neg h4,
      ih hrest]

theorem replaceAllFrom_skip_all (pat replacement str x : JSString) (skip position : Nat)
    (h : x.length ≤ skip) :
    StrategyRoutes.replaceAllFrom pat replacement str skip position x = [] := by
  induction x generalizing skip position with
  | nil => cases skip <;> rfl
  | cons c x2 ih =>
    cases skip with
    | zero => simp at h
    | succ k =>
      simp only [StrategyRoutes.replaceAllFrom]
      exact ih k (position + 1) (by simpa using h)

theorem replaceAll_self (pat replacement : JSString) (hp : pat ≠ []) :
    StrategyRoutes.replaceAll pat replacement pat =
      StrategyRoutes.getSubstitution pat pat 0 replacement := by
  cases pat with
  | nil => exact absurd rfl hp
  | cons c rest =>
    have hs : startsWith (c :: rest) (c :: rest) = true :=
      (startsWith_iff _ _).2 (List.prefix_refl _)
    simp only [StrategyRoutes.replaceAll, StrategyRoutes.replaceAllFrom, hs, if_true,
      List.length_cons, Nat.add_sub_cancel]
    rw [replaceAllFrom_skip_all _ _ _ rest rest.length 1 (le_refl _), List.append_nil]

theorem hasDollarPattern_of_not_mem (v : JSString) (hv : 0x24 ∉ v) :
    Spec.hasDollarPattern v = false := by
  induction v using Spec.hasDollarPattern.induct with
  | case1 => rfl
  | case2 c => rfl
  | case3 c d rest ih =>
    have hc : c ≠ 0x24 := fun h => hv (h ▸ List.mem_cons_self c _)
    have hrest : 0x24 ∉ d :: rest := fun hm => hv (List.mem_cons_of_mem c hm)
    simp only [Spec.hasDollarPattern, ih hrest, Bool.or_false, Bool.and_eq_false_imp,
      beq_iff_eq]
    exact fun h => absurd h hc

theorem getSubstitution_of_no_pattern (matched str : JSString) (position : Nat) (v : JSString)
    (hv : Spec.hasDollarPattern v = false) :
    StrategyRoutes.getSubstitution matched str position v = v := by
  induction v using StrategyRoutes.getSubstitution.induct matched str position with
  | case1 => rfl
  | case2 c => rfl
  | case3 c d rest h ih =>
    simp [Spec.hasDollarPattern, h.1, h.2] at hv
  | case4 c d rest _ h ih =>
    simp [Spec.hasDollarPattern, h.1, h.2] at hv
  | case5 c d rest _ _ h ih =>
    simp [Spec.hasDollarPattern, h.1, h.2] at hv
  | case6 c d rest _ _ _ h ih =>
    simp [Spec.hasDollarPattern, h.1, h.2] at hv
  | case7 c d rest h1 h2 h3 h4 ih =>
    have hrest : Spec.hasDollarPattern (d :: rest) = false := by
      simp only [Spec.hasDollarPattern, Bool.or_eq_false_iff] at hv
      exact hv.2
    simp only [StrategyRoutes.getSubstitution, if_neg h1, if_neg h2, if_neg h3, if_neg h4,
      ih hrest]

theorem generateContentFromTemplate_pillar (lc : JSString → JSString)
    (analysis : StrategyRoutes.Analysis) (platform : JSString) (value : JSString)
    (hvalue : StrategyRoutes.orElse
      ((StrategyRoutes.first? analysis.content_pillars).bind StrategyRoutes.Pillar.name)
      (utf16 "Innovation") = value)
    (hd : Spec.hasDollarPattern value = false)
    (hk : ∀ k ∈ Spec.knownPlaceholders, k ≠ utf16 "{pillar}" → includes value k = false) :
    StrategyRoutes.generateContentFromTemplate lc (utf16 "{pillar}") analysis platform =
      value := by
  rw [generateContentFromTemplate_eq_foldl]
  have htable : ∃ tail, Spec.placeholderTable analysis = (utf16 "{pillar}", value) :: tail := by
    rw [← hvalue]
    exact ⟨_, rfl⟩
  obtain ⟨tail, ht⟩ := htable
  have hkeys := placeholderTable_keys analysis
  rw [ht] at hkeys ⊢
  have htail : ∀ e ∈ tail, ¬ e.1 <:+: value := by
    intro e he hinf
    have hmem : e.1 ∈ tail.map Prod.fst := List.mem_map_of_mem Prod.fst he
    have hknown : e.1 ∈ Spec.knownPlaceholders := by
      rw [← hkeys]
      exact List.mem_cons_of_mem _ hmem
    have hne : e.1 ≠ utf16 "{pillar}" := by
      have hnodup : Spec.knownPlaceholders.Nodup := by decide
      rw [← hkeys, List.map_cons, List.nodup_cons] at hnodup
      exact fun h => hnodup.1 (h ▸ hmem)
    have := hk e.1 hknown hne
    rw [(includes_iff value e.1).2 hinf] at this
    exact Bool.noConfusion this
  simp only [List.foldl_cons]
  rw [replaceAll_self _ _ (by decide), getSubstitution_of_no_pattern _ _ _ _ hd]
  exact foldl_replaceAll_of_not_infix tail value htail

/-- C15, counterexample: for the first pillar name `{cta}` the template `{pillar}` yields
`Get started today!`, not the name, and for the name `$&` it yields `{pillar}`. -/
theorem C15_pillar_name_rescanned :
    StrategyRoutes.generateContentFromTemplate asciiLower (utf16 "{pillar}")
      ⟨none, none, some [⟨some (utf16 "{cta}"), none⟩], none⟩ (utf16 "instagram") =
      utf16 "Get started today!" ∧
    StrategyRoutes.generateContentFromTemplate asciiLower (utf16 "{pillar}")
      ⟨none, none, some [⟨some (utf16 "$&"), none⟩], none⟩ (utf16 "instagram") =
      utf16 "{pillar}" := by
  decide

/-- C15, amended: for every analysis, the template `{pillar}` yields the name of the first
content pillar when that name is present, not empty, holds none of the replacement
patterns `$$`, `$&`, dollar sign and backtick, dollar sign and quote, and holds no known
placeholder other than `{pillar}`; it yields `Innovation` when `content_pillars` is
absent or empty or its first entry has no name or an empty name. -/
theorem C15_pillar_placeholder (lc : JSString → JSString)
    (analysis : StrategyRoutes.Analysis) (platform : JSString) :
    (∀ (p : StrategyRoutes.Pillar) (rest : List StrategyRoutes.Pillar) (name : JSString),
      analysis.content_pillars = some (p :: rest) → p.name = some name → name ≠ [] →
      Spec.hasDollarPattern name = false →
      (∀ k ∈ Spec.knownPlaceholders, k ≠ utf16 "{pillar}" → includes name k = false) →
      StrategyRoutes.generateContentFromTemplate lc (utf16 "{pillar}") analysis platform
        = name) ∧
    ((analysis.content_pillars = none ∨ analysis.content_pillars = some [] ∨
        ∃ p rest, analysis.content_pillars = some (p :: rest) ∧
          (p.name = none ∨ p.name = some [])) →
      StrategyRoutes.generateContentFromTemplate lc (utf16 "{pillar}") analysis platform
        = utf16 "Innovation") := by
  constructor
  · intro p rest name hcp hname hne hd hk
    apply generateContentFromTemplate_pillar lc analysis platform name _ hd hk
    simp [StrategyRoutes.orElse, StrategyRoutes.first?, hcp, hname, hne]
  · intro h
    apply generateContentFromTemplate_pillar lc analysis platform _ _ (by decide) (by decide)
    rcases h with h | h | ⟨p, rest, h, hn | hn⟩
    · simp [StrategyRoutes.orElse, StrategyRoutes.first?, h]
    · simp [StrategyRoutes.orElse, StrategyRoutes.first?, h]
    · simp [StrategyRoutes.orElse, StrategyRoutes.first?, h, hn]
    · simp [StrategyRoutes.orElse, StrategyRoutes.first?, h, hn]

/-- Witness for C15, amended: the pillar name `A$B`, which holds a dollar sign and no
replacement pattern, and the analysis `{}`. -/
theorem C15_pillar_placeholder_witness :
    StrategyRoutes.generateContentFromTemplate asciiLower (utf16 "{pillar}")
        ⟨none, none, some [⟨some (utf16 "A$B"), none⟩], none⟩ (utf16 "instagram") =
      utf16 "A$B" ∧
    StrategyRoutes.generateContentFromTemplate asciiLower (utf16 "{pillar}")
        StrategyRoutes.Analysis.empty (utf16 "instagram") = utf16 "Innovation" :=
  ⟨(C15_pillar_placeholder asciiLower ⟨none, none, some [⟨some (utf16 "A$B"), none⟩], none⟩
      (utf16 "instagram")).1 ⟨some (utf16 "A$B"), none⟩ [] (utf16 "A$B") rfl rfl
      (by decide) (by decide) (by decide),
   (C15_pillar_placeholder asciiLower StrategyRoutes.Analysis.empty (utf16 "instagram")).2
      (Or.inl rfl)⟩

/-! ## Sequential and simultaneous replacement -/

theorem replaceAllFrom_eq_substituteFrom (pat value str : JSString)
    (hv : Spec.hasDollarPattern value = false) (skip position : Nat) (s : JSString) :
    StrategyRoutes.replaceAllFrom pat value str skip position s =
      Spec.substituteFrom [(pat, value)] skip s := by
  induction s generalizing skip position with
  | nil => cases skip <;> rfl
  | cons c rest ih =>
    cases skip with
    | succ k => simp only [StrategyRoutes.replaceAllFrom, Spec.substituteFrom, ih]
    | zero =>
      by_cases h : startsWith (c :: rest) pat = true
      · simp only [StrategyRoutes.replaceAllFrom, Spec.substituteFrom, List.find?_cons, h,
          if_true, getSubstitution_of_no_pattern _ _ _ _ hv, ih]
      · simp only [StrategyRoutes.replaceAllFrom, Spec.substituteFrom, List.find?_cons, h,
          if_false, List.find?_nil, ih, Bool.false_eq_true]

theorem find?_startsWith_of_ne (table : List (JSString × JSString)) (c : Nat) (s : JSString)
    (hkeys : ∀ e ∈ table, Spec.isToken e.1 = true) (hc : c ≠ 0x7B) :
    table.find? (fun e => startsWith (c :: s) e.1) = none := by
  rw [List.find?_eq_none]
  intro e he
  obtain ⟨m, hm, _, _⟩ := isToken_eq_tokenOf e.1 (hkeys e he)
  rw [hm, startsWith_tokenOf_of_ne c s m hc]
  exact Bool.false_ne_true

theorem substituteFrom_pass_text (table : List (JSString × JSString)) (x R : JSString)
    (hkeys : ∀ e ∈ table, Spec.isToken e.1 = true) (hx : 0x7B ∉ x) :
    Spec.substituteFrom table 0 (x ++ R) = x ++ Spec.substituteFrom table 0 R := by
  induction x with
  | nil => rfl
  | cons c x2 ih =>
    have hc : c ≠ 0x7B := fun h => hx (h ▸ List.mem_cons_self c x2)
    have hx2 : 0x7B ∉ x2 := fun h => hx (List.mem_cons_of_mem c h)
    show Spec.substituteFrom table 0 (c :: (x2 ++ R)) = c :: (x2 ++ _)
    simp only [Spec.substituteFrom, find?_startsWith_of_ne table c (x2 ++ R) hkeys hc, ih hx2]

theorem substituteFrom_skip (table : List (JSString × JSString)) (x R : JSString) :
    Spec.substituteFrom table x.length (x ++ R) = Spec.substituteFrom table 0 R := by
  induction x with
  | nil => rfl
  | cons c x2 ih =>
    show Spec.substituteFrom table (x2.length + 1) (c :: (x2 ++ R)) = _
    simp only [Spec.substituteFrom, ih]

theorem find?_token (table : List (JSString × JSString)) (n R : JSString)
    (hkeys : ∀ e ∈ table, Spec.isToken e.1 = true) (hn : 0x7D ∉ n) :
    table.find? (fun e => startsWith (Spec.tokenOf n ++ R) e.1) =
      table.find? (fun e => e.1 == Spec.tokenOf n) := by
  induction table with
  | nil => rfl
  | cons e rest ih =>
    obtain ⟨m, hm, _, hm2⟩ := isToken_eq_tokenOf e.1 (hkeys e (List.mem_cons_self e rest))
    have hp : startsWith (Spec.tokenOf n ++ R) e.1 = (e.1 == Spec.tokenOf n) := by
      rw [hm, startsWith_tokenOf n m R hn hm2, Bool.eq_iff_iff]
      simp only [decide_eq_true_eq, beq_iff_eq]
      exact ⟨fun h => by rw [h], tokenOf_injective m n⟩
    simp only [List.find?_cons, hp, ih (fun e2 h2 => hkeys e2 (List.mem_cons_of_mem e h2))]

theorem substituteFrom_segment (table : List (JSString × JSString)) (seg : Spec.Segment)
    (R : JSString) (hkeys : ∀ e ∈ table, Spec.isToken e.1 = true)
    (hseg : seg.wellFormed = true) :
    Spec.substituteFrom table 0 (seg.render ++ R) =
      (seg.resolve table).render ++ Spec.substituteFrom table 0 R := by
  cases seg with
  | text t =>
    simp only [Spec.Segment.wellFormed, Bool.not_eq_true', List.contains_eq_any_beq,
      List.any_eq_false, beq_iff_eq] at hseg
    exact substituteFrom_pass_text table t R hkeys (fun hm => hseg _ hm rfl)
  | token n =>
    simp only [Spec.Segment.wellFormed, Bool.and_eq_true, Bool.not_eq_true',
      List.contains_eq_any_beq, List.any_eq_false, beq_iff_eq] at hseg
    have hn1 : 0x7B ∉ n := fun hm => hseg.1 _ hm rfl
    have hn2 : 0x7D ∉ n := fun hm => hseg.2 _ hm rfl
    have hfind := find?_token table n R hkeys hn2
    have hshape : Spec.tokenOf n ++ R = 0x7B :: (n ++ (0x7D :: R)) := by simp [Spec.tokenOf]
    show Spec.substituteFrom table 0 (Spec.tokenOf n ++ R) = _
    rw [hshape] at hfind ⊢
    simp only [Spec.substituteFrom, hfind, Spec.Segment.resolve]
    cases hf : table.find? (fun e => e.1 == Spec.tokenOf n) with
    | some e =>
      have he : e.1 = Spec.tokenOf n := by simpa using List.find?_some hf
      have hlen : e.1.length - 1 = (n ++ [0x7D]).length := by
        rw [he]; simp [Spec.tokenOf]
      have hsplit : n ++ (0x7D :: R) = (n ++ [0x7D]) ++ R := by simp
      simp only [Spec.Segment.render]
      rw [hlen, hsplit, substituteFrom_skip]
    | none =>
      simp only [Spec.Segment.render]
      rw [substituteFrom_pass_text table n (0x7D :: R) hkeys hn1]
      have h2 := substituteFrom_pass_text table [0x7D] R hkeys (by decide)
      simp only [List.singleton_append] at h2
      rw [h2]
      simp

theorem substitute_render (table : List (JSString × JSString)) (segs : List Spec.Segment)
    (hkeys : ∀ e ∈ table, Spec.isToken e.1 = true)
    (hsegs : ∀ seg ∈ segs, seg.wellFormed = true) :
    Spec.substitute table (Spec.render segs) =
      Spec.render (segs.map (Spec.Segment.resolve table)) := by
  unfold Spec.substitute
  induction segs with
  | nil => rfl
  | cons seg rest ih =>
    have hstep := substituteFrom_segment table seg (Spec.render rest) hkeys
      (hsegs seg (List.mem_cons_self seg rest))
    simp only [Spec.render, List.flatMap_cons, List.map_cons] at hstep ih ⊢
    rw [hstep, ih (fun s2 h2 => hsegs s2 (List.mem_cons_of_mem seg h2))]

theorem resolve_cons (key value : JSString) (rest : List (JSString × JSString))
    (seg : Spec.Segment) :
    Spec.Segment.resolve rest (Spec.Segment.resolve [(key, value)] seg) =
      Spec.Segment.resolve ((key, value) :: rest) seg := by
  cases seg with
  | text t => rfl
  | token n =>
    by_cases h : (key == Spec.tokenOf n) = true
    · simp only [Spec.Segment.resolve, List.find?_cons, h]
    · simp only [Spec.Segment.resolve, List.find?_cons, h, List.find?_nil]

theorem resolve_wellFormed (key value : JSString) (hv : 0x7B ∉ value) (seg : Spec.Segment)
    (hseg : seg.wellFormed = true) :
    (Spec.Segment.resolve [(key, value)] seg).wellFormed = true := by
  cases seg with
  | text t => exact hseg
  | token n =>
    by_cases h : (key == Spec.tokenOf n) = true
    · simp only [Spec.Segment.resolve, List.find?_cons, h, Spec.Segment.wellFormed,
        Bool.not_eq_true', List.contains_eq_any_beq, List.any_eq_false, beq_iff_eq]
      intro x hx hx2
      exact hv (hx2 ▸ hx)
    · simp only [Spec.Segment.resolve, List.find?_cons, h, List.find?_nil]
      exact hseg

theorem foldl_replaceAll_render_of_no_pattern (table : List (JSString × JSString))
    (segs : List Spec.Segment)
    (hkeys : ∀ e ∈ table, Spec.isToken e.1 = true)
    (hvals : ∀ e ∈ table, 0x7B ∉ e.2 ∧ Spec.hasDollarPattern e.2 = false)
    (hsegs : ∀ seg ∈ segs, seg.wellFormed = true) :
    table.foldl (fun content e => StrategyRoutes.replaceAll e.1 e.2 content)
        (Spec.render segs) =
      Spec.render (segs.map (Spec.Segment.resolve table)) := by
  induction table generalizing segs with
  | nil =>
    have hid : ∀ seg : Spec.Segment, Spec.Segment.resolve [] seg = seg := by
      intro seg; cases seg <;> rfl
    have hmap : segs.map (Spec.Segment.resolve []) = segs := by
      rw [List.map_congr_left (fun seg _ => hid seg), List.map_id']
    rw [hmap]; rfl
  | cons e rest ih =>
    have hk1 : ∀ e2 ∈ [(e.1, e.2)], Spec.isToken e2.1 = true := by
      intro e2 h2
      rw [List.mem_singleton.1 h2]
      exact hkeys e (List.mem_cons_self e rest)
    obtain ⟨hv1, hv2⟩ := hvals e (List.mem_cons_self e rest)
    have hstep : StrategyRoutes.replaceAll e.1 e.2 (Spec.render segs) =
        Spec.render (segs.map (Spec.Segment.resolve [(e.1, e.2)])) := by
      rw [StrategyRoutes.replaceAll, replaceAllFrom_eq_substituteFrom e.1 e.2 _ hv2]
      exact substitute_render [(e.1, e.2)] segs hk1 hsegs
    simp only [List.foldl_cons, hstep]
    rw [ih _ (fun e2 h2 => hkeys e2 (List.mem_cons_of_mem e h2))
      (fun e2 h2 => hvals e2 (List.mem_cons_of_mem e h2))]
    · rw [List.map_map]
      congr 1
      apply List.map_congr_left
      intro seg _
      exact resolve_cons e.1 e.2 rest seg
    · intro seg hseg
      obtain ⟨s0, hs0, rfl⟩ := List.mem_map.1 hseg
      exact resolve_wellFormed e.1 e.2 hv1 s0 (hsegs s0 hs0)

theorem foldl_replaceAll_render (table : List (JSString × JSString))
    (segs : List Spec.Segment)
    (hkeys : ∀ e ∈ table, Spec.isToken e.1 = true)
    (hvals : ∀ e ∈ table, 0x7B ∉ e.2 ∧ 0x24 ∉ e.2)
    (hsegs : ∀ seg ∈ segs, seg.wellFormed = true) :
    table.foldl (fun content e => StrategyRoutes.replaceAll e.1 e.2 content)
        (Spec.render segs) =
      Spec.render (segs.map (Spec.Segment.resolve table)) :=
  foldl_replaceAll_render_of_no_pattern table segs hkeys
    (fun e he => ⟨(hvals e he).1, hasDollarPattern_of_not_mem e.2 (hvals e he).2⟩) hsegs

theorem placeholderTable_isToken (analysis : StrategyRoutes.Analysis) :
    ∀ e ∈ Spec.placeholderTable analysis, Spec.isToken e.1 = true := by
  intro e he
  apply knownPlaceholders_isToken
  rw [← placeholderTable_keys analysis]
  exact List.mem_map_of_mem Prod.fst he

/-- C13, counterexample: a resolved value that holds a placeholder is replaced again
(`{message}` resolved to `{cta}` ends as `Get started today!`), a `$&` in a value is
expanded to the placeholder, and a placeholder built around a value (`{{insight}ta}` with
the goal `c`) is replaced too; simultaneous replacement gives `{cta}`, `$&` and `{cta}`. -/
theorem C13_replacement_is_rescanned :
    (StrategyRoutes.generateContentFromTemplate asciiLower (utf16 "{message}")
        ⟨none, some [utf16 "{cta}"], none, none⟩ (utf16 "instagram") =
        utf16 "Get started today!" ∧
      Spec.substitute (Spec.placeholderTable ⟨none, some [utf16 "{cta}"], none, none⟩)
        (utf16 "{message}") = utf16 "{cta}") ∧
    (StrategyRoutes.generateContentFromTemplate asciiLower (utf16 "{message}")
        ⟨none, some [utf16 "$&"], none, none⟩ (utf16 "instagram") = utf16 "{message}" ∧
      Spec.substitute (Spec.placeholderTable ⟨none, some [utf16 "$&"], none, none⟩)
        (utf16 "{message}") = utf16 "$&") ∧
    (StrategyRoutes.generateContentFromTemplate asciiLower (utf16 "{{insight}ta}")
        ⟨some [utf16 "c"], none, none, none⟩ (utf16 "instagram") =
        utf16 "Get started today!" ∧
      Spec.substitute (Spec.placeholderTable ⟨some [utf16 "c"], none, none, none⟩)
        (utf16 "{{insight}ta}") = utf16 "{cta}") := by
  decide!

/-- C13, amended: for every template made of text without `{` and of brace tokens whose
names hold no brace, and every analysis whose resolved values hold no `{` and none of the
replacement patterns `$$`, `$&`, dollar sign and backtick, dollar sign and quote, the
generated content is the template with every known placeholder replaced simultaneously by
its resolved value: each token of the mapping becomes its value, all else stays. -/
theorem C13_sequential_eq_simultaneous (lc : JSString → JSString)
    (segments : List Spec.Segment) (analysis : StrategyRoutes.Analysis) (platform : JSString)
    (hsegs : ∀ seg ∈ segments, seg.wellFormed = true)
    (hvals : ∀ e ∈ Spec.placeholderTable analysis,
      0x7B ∉ e.2 ∧ Spec.hasDollarPattern e.2 = false) :
    StrategyRoutes.generateContentFromTemplate lc (Spec.render segments) analysis platform =
      Spec.substitute (Spec.placeholderTable analysis) (Spec.render segments) ∧
    StrategyRoutes.generateContentFromTemplate lc (Spec.render segments) analysis platform =
      Spec.render (segments.map (Spec.Segment.resolve (Spec.placeholderTable analysis))) := by
  have h2 := foldl_replaceAll_render_of_no_pattern (Spec.placeholderTable analysis) segments
    (placeholderTable_isToken analysis) hvals hsegs
  rw [generateContentFromTemplate_eq_foldl, h2,
    substitute_render _ _ (placeholderTable_isToken analysis) hsegs]
  exact ⟨rfl, rfl⟩

/-- Witness for C13, amended: the template `Quick tip: {advice} {message}` and an
analysis whose first key message is `Save $5 now`, a value with a dollar sign and no
replacement pattern. -/
theorem C13_sequential_eq_simultaneous_witness :
    StrategyRoutes.generateContentFromTemplate asciiLower
        (Spec.render [.text (utf16 "Quick tip: "), .token (utf16 "advice"),
          .text (utf16 " "), .token (utf16 "message")])
        ⟨none, some [utf16 "Save $5 now"], none, none⟩ (utf16 "instagram") =
      Spec.substitute (Spec.placeholderTable ⟨none, some [utf16 "Save $5 now"], none, none⟩)
        (Spec.render [.text (utf16 "Quick tip: "), .token (utf16 "advice"),
          .text (utf16 " "), .token (utf16 "message")]) :=
  (C13_sequential_eq_simultaneous asciiLower
    [.text (utf16 "Quick tip: "), .token (utf16 "advice"), .text (utf16 " "),
      .token (utf16 "message")]
    ⟨none, some [utf16 "Save $5 now"], none, none⟩ (utf16 "instagram") (by decide)
    (by decide)).1

/-! ## Generated content holds no known placeholder -/

theorem includes_pass_text (m x R : JSString) (hx : 0x7B ∉ x) :
    includes (x ++ R) (Spec.tokenOf m) = includes R (Spec.tokenOf m) := by
  induction x with
  | nil => rfl
  | cons c x2 ih =>
    have hc : c ≠ 0x7B := fun h => hx (h ▸ List.mem_cons_self c x2)
    have hx2 : 0x7B ∉ x2 := fun h => hx (List.mem_cons_of_mem c h)
    show includes (c :: (x2 ++ R)) (Spec.tokenOf m) = _
    simp only [includes, startsWith_tokenOf_of_ne c _ m hc, Bool.false_or, ih hx2]

theorem includes_segment (m : JSString) (hm : 0x7D ∉ m) (seg : Spec.Segment) (R : JSString)
    (hseg : seg.wellFormed = true) (hne : seg ≠ .token m) :
    includes (seg.render ++ R) (Spec.tokenOf m) = includes R (Spec.tokenOf m) := by
  cases seg with
  | text t =>
    simp only [Spec.Segment.wellFormed, Bool.not_eq_true', List.contains_eq_any_beq,
      List.any_eq_false, beq_iff_eq] at hseg
    exact includes_pass_text m t R (fun hmem => hseg _ hmem rfl)
  | token n =>
    simp only [Spec.Segment.wellFormed, Bool.and_eq_true, Bool.not_eq_true',
      List.contains_eq_any_beq, List.any_eq_false, beq_iff_eq] at hseg
    have hn1 : 0x7B ∉ n := fun hmem => hseg.1 _ hmem rfl
    have hn2 : 0x7D ∉ n := fun hmem => hseg.2 _ hmem rfl
    have hmn : m ≠ n := fun h => hne (by rw [h])
    have h0 : startsWith (Spec.tokenOf n ++ R) (Spec.tokenOf m) = false := by
      rw [startsWith_tokenOf n m R hn2 hm]; simp [hmn]
    have hshape : Spec.tokenOf n ++ R = 0x7B :: (n ++ ([0x7D] ++ R)) := by simp [Spec.tokenOf]
    show includes (Spec.tokenOf n ++ R) (Spec.tokenOf m) = _
    rw [hshape] at h0 ⊢
    simp only [includes, h0, Bool.false_or]
    rw [includes_pass_text m n _ hn1, includes_pass_text m [0x7D] R (by decide)]

theorem includes_render_false (m : JSString) (hm : 0x7D ∉ m) (segs : List Spec.Segment)
    (hsegs : ∀ seg ∈ segs, seg.wellFormed = true) (hne : Spec.Segment.token m ∉ segs) :
    includes (Spec.render segs) (Spec.tokenOf m) = false := by
  induction segs with
  | nil => rfl
  | cons seg rest ih =>
    have h1 := includes_segment m hm seg (Spec.render rest)
      (hsegs seg (List.mem_cons_self seg rest))
      (fun h => hne (h ▸ List.mem_cons_self seg rest))
    simp only [Spec.render, List.flatMap_cons] at h1 ih ⊢
    rw [h1]
    exact ih (fun s2 h2 => hsegs s2 (List.mem_cons_of_mem seg h2))
      (fun h => hne (List.mem_cons_of_mem seg h))

theorem resolve_table_wellFormed (table : List (JSString × JSString))
    (hvals : ∀ e ∈ table, 0x7B ∉ e.2) (seg : Spec.Segment) (hseg : seg.wellFormed = true) :
    (Spec.Segment.resolve table seg).wellFormed = true := by
  cases seg with
  | text t => exact hseg
  | token n =>
    simp only [Spec.Segment.resolve]
    cases hf : table.find? (fun e => e.1 == Spec.tokenOf n) with
    | none => exact hseg
    | some e =>
      have he := hvals e (List.mem_of_find?_eq_some hf)
      simp only [Spec.Segment.wellFormed, Bool.not_eq_true', List.contains_eq_any_beq,
        List.any_eq_false, beq_iff_eq]
      intro x hx hx2
      exact he (hx2 ▸ hx)

theorem resolve_token_unknown (table : List (JSString × JSString)) (seg : Spec.Segment)
    (n : JSString) (h : Spec.Segment.resolve table seg = .token n) :
    ∀ e ∈ table, e.1 ≠ Spec.tokenOf n := by
  cases seg with
  | text t => simp [Spec.Segment.resolve] at h
  | token n2 =>
    simp only [Spec.Segment.resolve] at h
    cases hf : table.find? (fun e => e.1 == Spec.tokenOf n2) with
    | some e => simp [hf] at h
    | none =>
      simp only [hf, Spec.Segment.token.injEq] at h
      intro e he heq
      have := List.find?_eq_none.1 hf e he
      rw [heq, h] at this
      simp at this

theorem content_has_no_placeholder (lc : JSString → JSString) (segs : List Spec.Segment)
    (analysis : StrategyRoutes.Analysis) (platform : JSString)
    (hsegs : ∀ seg ∈ segs, seg.wellFormed = true)
    (hvals : ∀ e ∈ Spec.placeholderTable analysis, 0x7B ∉ e.2 ∧ 0x24 ∉ e.2) :
    ∀ k ∈ Spec.knownPlaceholders,
      includes (StrategyRoutes.generateContentFromTemplate lc (Spec.render segs) analysis
        platform) k = false := by
  intro k hk
  rw [generateContentFromTemplate_eq_foldl,
    foldl_replaceAll_render _ _ (placeholderTable_isToken analysis) hvals hsegs]
  obtain ⟨m, hm, _, hm2⟩ := isToken_eq_tokenOf k (knownPlaceholders_isToken k hk)
  rw [hm]
  apply includes_render_false m hm2
  · intro seg hseg
    obtain ⟨s0, hs0, rfl⟩ := List.mem_map.1 hseg
    exact resolve_table_wellFormed _ (fun e he => (hvals e he).1) s0 (hsegs s0 hs0)
  · intro hmem
    obtain ⟨s0, _, hs0⟩ := List.mem_map.1 hmem
    rw [← placeholderTable_keys analysis] at hk
    obtain ⟨e, he, hek⟩ := List.mem_map.1 hk
    exact resolve_token_unknown _ s0 m hs0 e he (by rw [hek, hm])

theorem catalog_templates_parse :
    ∀ contentType ∈ Spec.contentTypes, ∀ template ∈ Spec.templatesOf contentType,
      Spec.render (Spec.parse template) = template ∧
        (Spec.parse template).all Spec.Segment.wellFormed = true := by
  decide!

theorem fallback_values_plain :
    ∀ e ∈ Spec.placeholderTable StrategyRoutes.Analysis.empty, 0x7B ∉ e.2 ∧ 0x24 ∉ e.2 := by
  decide

/-- C11: with the analysis `{}`, for every content type of the catalog, every template of
its list and every platform, the generated content contains no known placeholder: it is
the template with every known placeholder replaced by its fallback text. -/
theorem C11_fallback_content_has_no_placeholder (lc : JSString → JSString)
    (contentType : JSString) (hct : contentType ∈ Spec.contentTypes)
    (template : JSString) (ht : template ∈ Spec.templatesOf contentType)
    (platform : JSString) :
    (∀ placeholder ∈ Spec.knownPlaceholders,
      includes (StrategyRoutes.generateContentFromTemplate lc template
        StrategyRoutes.Analysis.empty platform) placeholder = false) ∧
    StrategyRoutes.generateContentFromTemplate lc template StrategyRoutes.Analysis.empty
        platform =
      Spec.substitute (Spec.placeholderTable StrategyRoutes.Analysis.empty) template := by
  obtain ⟨hrender, hwf⟩ := catalog_templates_parse contentType hct template ht
  have hsegs : ∀ seg ∈ Spec.parse template, seg.wellFormed = true := List.all_eq_true.1 hwf
  rw [← hrender]
  refine ⟨content_has_no_placeholder lc _ _ platform hsegs fallback_values_plain, ?_⟩
  rw [generateContentFromTemplate_eq_foldl,
    foldl_replaceAll_render _ _ (placeholderTable_isToken _) fallback_values_plain hsegs,
    substitute_render _ _ (placeholderTable_isToken _) hsegs]

/-- Witness for C11: the first post template and the platform `instagram`. -/
theorem C11_fallback_content_has_no_placeholder_witness :
    includes (StrategyRoutes.generateContentFromTemplate asciiLower
      (utf16 "\u00f0\u0178\u2019\u00a1 {pillar}: {message} What\x27s your experience with this? {hashtags}")
      StrategyRoutes.Analysis.empty (utf16 "instagram")) (utf16 "{message}") = false :=
  (C11_fallback_content_has_no_placeholder asciiLower (utf16 "post") (by decide)
    (utf16 "\u00f0\u0178\u2019\u00a1 {pillar}: {message} What\x27s your experience with this? {hashtags}")
    (by decide) (utf16 "instagram")).1 (utf16 "{message}") (by decide)

/-! ## The route `POST /generate-content` -/

theorem arrayMap_forall₂ {α β : Type} (f : α → Option β) (l : List α) (r : List β)
    (h : StrategyRoutes.arrayMap f l = some r) :
    List.Forall₂ (fun a b => f a = some b) l r := by
  induction l generalizing r with
  | nil =>
    simp only [StrategyRoutes.arrayMap, Option.some.injEq] at h
    rw [← h]; exact List.Forall₂.nil
  | cons a rest ih =>
    unfold StrategyRoutes.arrayMap at h
    cases hfa : f a with
    | none => simp [hfa] at h
    | some b =>
      cases hrest : StrategyRoutes.arrayMap f rest with
      | none => simp [hfa, hrest] at h
      | some bs =>
        simp only [hfa, hrest, Option.some.injEq] at h
        rw [← h]
        exact List.Forall₂.cons hfa (ih bs hrest)

theorem arrayMap_isSome {α β : Type} (f : α → Option β) (l : List α)
    (h : ∀ a ∈ l, ∃ b, f a = some b) : ∃ r, StrategyRoutes.arrayMap f l = some r := by
  induction l with
  | nil => exact ⟨[], rfl⟩
  | cons a rest ih =>
    obtain ⟨b, hb⟩ := h a (List.mem_cons_self a rest)
    obtain ⟨bs, hbs⟩ := ih (fun x hx => h x (List.mem_cons_of_mem a hx))
    exact ⟨b :: bs, by simp only [StrategyRoutes.arrayMap, hb, hbs]⟩

theorem forall₂_map_eq {α β γ : Type} (g : α → γ) (k : β → γ) (l : List α) (r : List β)
    (h : List.Forall₂ (fun a b => k b = g a) l r) : r.map k = l.map g := by
  induction h with
  | nil => rfl
  | cons hab _ ih => simp only [List.map_cons, hab, ih]

theorem combinations_length (options : StrategyRoutes.Options) :
    (StrategyRoutes.combinations options).length =
      options.contentTypes.length * options.platforms.length * min options.quantity 5 := by
  have hinner : ∀ (ct : JSString) (ps : List JSString),
      (ps.flatMap fun platform =>
        (List.range (min options.quantity 5)).map fun i => (ct, platform, i)).length =
      ps.length * min options.quantity 5 := by
    intro ct ps
    induction ps with
    | nil => simp
    | cons p rest ih =>
      simp only [List.flatMap_cons, List.length_append, List.length_map, List.length_range, ih,
        List.length_cons]
      ring
  unfold StrategyRoutes.combinations
  induction options.contentTypes with
  | nil => simp
  | cons ct rest ih =>
    simp only [List.flatMap_cons, List.length_append, hinner, ih, List.length_cons]
    ring

theorem combinations_contentType_mem (options : StrategyRoutes.Options)
    (pass : JSString × JSString × Nat) (h : pass ∈ StrategyRoutes.combinations options) :
    pass.1 ∈ options.contentTypes ∧ pass.2.1 ∈ options.platforms ∧
      pass.2.2 < min options.quantity 5 := by
  simp only [StrategyRoutes.combinations, List.mem_flatMap, List.mem_map, List.mem_range] at h
  obtain ⟨ct, hct, p, hp, i, hi, rfl⟩ := h
  exact ⟨hct, hp, hi⟩

theorem generateRecordAt_eq_some (lc : JSString → JSString) (now : Nat)
    (iso strategyId : JSString) (analysis : StrategyRoutes.Analysis)
    (contentType platform : JSString) (i : Nat) (r : StrategyRoutes.ContentRecord)
    (h : StrategyRoutes.generateRecordAt lc now iso strategyId analysis contentType platform i
      = some r) :
    r.type = contentType ∧ r.platform = platform ∧ r.strategy_id = strategyId ∧
    r.id = StrategyRoutes.decimal now ++ utf16 "_" ++ contentType ++ utf16 "_" ++ platform ++
      utf16 "_" ++ StrategyRoutes.decimal i ∧
    ∃ template, StrategyRoutes.selectTemplate contentType i = some template ∧
      r.content = StrategyRoutes.generateContentFromTemplate lc template analysis platform := by
  unfold StrategyRoutes.generateRecordAt at h
  cases hsel : StrategyRoutes.selectTemplate contentType i with
  | none => simp [hsel] at h
  | some template =>
    simp only [hsel] at h
    unfold StrategyRoutes.generateRecord at h
    cases hh : StrategyRoutes.generateHashtags lc platform analysis with
    | none => simp [hh] at h
    | some tags =>
      simp only [hh, Option.some.injEq] at h
      subst h
      refine ⟨?_, ?_, ?_, ?_, template, rfl, ?_⟩ <;> dsimp only

theorem generateContentRoute_eq_ok (lc : JSString → JSString) (now : Nat → Nat)
    (iso : Nat → JSString) (stored : List (JSString × List StrategyRoutes.ContentRecord))
    (body : StrategyRoutes.RequestBody) (records : List StrategyRoutes.ContentRecord)
    (stored2 : List (JSString × List StrategyRoutes.ContentRecord))
    (h : StrategyRoutes.generateContentRoute lc now iso stored body = (.ok records, stored2)) :
    ∃ strategyId analysis options old,
      body.strategyId = some strategyId ∧ body.analysis = some analysis ∧
      body.options = some options ∧
      StrategyRoutes.generatedContent lc now iso strategyId analysis options = some records ∧
      (StrategyRoutes.getProperty stored strategyId = .own old ∨
        (StrategyRoutes.getProperty stored strategyId = .undefined ∧ old = [])) ∧
      stored2 = StrategyRoutes.defineProperty stored strategyId (old ++ records) := by
  unfold StrategyRoutes.generateContentRoute at h
  cases hsid : body.strategyId with
  | none => simp [hsid] at h
  | some strategyId =>
    cases han : body.analysis with
    | none => simp [hsid, han] at h
    | some analysis =>
      simp only [hsid, han] at h
      split_ifs at h with hempty
      · simp at h
      · cases hopt : body.options with
        | none => simp [hopt] at h
        | some options =>
          simp only [hopt] at h
          cases hgen : StrategyRoutes.generatedContent lc now iso strategyId analysis options with
          | none => simp [hgen] at h
          | some recs =>
            simp only [hgen] at h
            cases hget : StrategyRoutes.getProperty stored strategyId with
            | inherited => simp [hget] at h
            | own old =>
              simp only [hget, Prod.mk.injEq, StrategyRoutes.Response.ok.injEq] at h
              refine ⟨strategyId, analysis, options, old, rfl, rfl, rfl, ?_, Or.inl hget, ?_⟩
              · rw [← h.1]; exact hgen
              · rw [← h.2, h.1]
            | undefined =>
              simp only [hget, Prod.mk.injEq, StrategyRoutes.Response.ok.injEq] at h
              refine ⟨strategyId, analysis, options, [], rfl, rfl, rfl, ?_,
                Or.inr ⟨hget, rfl⟩, ?_⟩
              · rw [← h.1]; exact hgen
              · rw [← h.2, h.1]

theorem generatedContent_passes (lc : JSString → JSString) (now : Nat → Nat)
    (iso : Nat → JSString) (strategyId : JSString) (analysis : StrategyRoutes.Analysis)
    (options : StrategyRoutes.Options) (records : List StrategyRoutes.ContentRecord)
    (h : StrategyRoutes.generatedContent lc now iso strategyId analysis options
      = some records) :
    List.Forall₂ (fun (pass : Nat × JSString × JSString × Nat) r =>
        StrategyRoutes.generateRecordAt lc (now pass.1) (iso pass.1) strategyId analysis
          pass.2.1 pass.2.2.1 pass.2.2.2 = some r)
      (StrategyRoutes.combinations options).enum records :=
  arrayMap_forall₂ _ _ _ h

theorem generatedContent_types (lc : JSString → JSString) (now : Nat → Nat)
    (iso : Nat → JSString) (strategyId : JSString) (analysis : StrategyRoutes.Analysis)
    (options : StrategyRoutes.Options) (records : List StrategyRoutes.ContentRecord)
    (h : StrategyRoutes.generatedContent lc now iso strategyId analysis options
      = some records) :
    records.map (fun r => (r.type, r.platform)) =
      (StrategyRoutes.combinations options).map (fun pass => (pass.1, pass.2.1)) := by
  have h2 := generatedContent_passes lc now iso strategyId analysis options records h
  have h3 : records.map (fun r => (r.type, r.platform)) =
      (StrategyRoutes.combinations options).enum.map
        (fun pass => (pass.2.1, pass.2.2.1)) := by
    apply forall₂_map_eq
    refine h2.imp ?_
    intro pass r hr
    obtain ⟨h1, h2, _⟩ := generateRecordAt_eq_some _ _ _ _ _ _ _ _ _ hr
    rw [h1, h2]
  rw [h3]
  have h4 : (StrategyRoutes.combinations options).enum.map
      (fun pass => (pass.2.1, pass.2.2.1)) =
      ((StrategyRoutes.combinations options).enum.map Prod.snd).map
        (fun pass => (pass.1, pass.2.1)) := by
    rw [List.map_map]; rfl
  rw [h4, List.enum_map_snd]

/-- C19, at the failing input: the request for the content type `meme` is answered with
one record whose `type` is `meme`, which is not in the enumeration. -/
theorem C19_type_is_requested_string :
    ((StrategyRoutes.generateContentRoute asciiLower (fun _ => 1700000000000)
        (fun _ => utf16 "2023-11-14T22:13:20.000Z") []
        ⟨some (utf16 "s1"), some StrategyRoutes.Analysis.empty,
          some ⟨[utf16 "meme"], [utf16 "instagram"], 1⟩⟩).1.records).map
        StrategyRoutes.ContentRecord.type = [utf16 "meme"] ∧
    utf16 "meme" ∉ Spec.contentTypes := by
  decide

/-- Every record of an answered request has as `type` the requested content type of its
loop pass, as it was sent: the types of the records are the requested content types in
loop order, so each is one of the requested strings. -/
theorem record_type_is_requested (lc : JSString → JSString) (now : Nat → Nat)
    (iso : Nat → JSString) (stored : List (JSString × List StrategyRoutes.ContentRecord))
    (body : StrategyRoutes.RequestBody) (records : List StrategyRoutes.ContentRecord)
    (stored2 : List (JSString × List StrategyRoutes.ContentRecord))
    (h : StrategyRoutes.generateContentRoute lc now iso stored body = (.ok records, stored2)) :
    ∃ options, body.options = some options ∧
      records.map StrategyRoutes.ContentRecord.type =
        (StrategyRoutes.combinations options).map (fun pass => pass.1) ∧
      ∀ r ∈ records, r.type ∈ options.contentTypes := by
  obtain ⟨strategyId, analysis, options, old, _, _, hopt, hgen, _, _⟩ :=
    generateContentRoute_eq_ok lc now iso stored body records stored2 h
  have htypes := generatedContent_types lc now iso strategyId analysis options records hgen
  have hmap : records.map StrategyRoutes.ContentRecord.type =
      (StrategyRoutes.combinations options).map (fun pass => pass.1) := by
    have := congrArg (List.map Prod.fst) htypes
    simpa only [List.map_map] using this
  refine ⟨options, hopt, hmap, ?_⟩
  intro r hr
  have hmem : r.type ∈ records.map StrategyRoutes.ContentRecord.type :=
    List.mem_map_of_mem _ hr
  rw [hmap] at hmem
  obtain ⟨pass, hpass, hp⟩ := List.mem_map.1 hmem
  rw [← hp]
  exact (combinations_contentType_mem options pass hpass).1

theorem find?_defineProperty_map {α : Type} (obj : List (JSString × α)) (key : JSString)
    (value : α) :
    (obj.map (fun e => if e.1 = key then (key, value) else e)).find? (fun e => e.1 == key) =
      (obj.find? (fun e => e.1 == key)).map (fun _ => (key, value)) := by
  induction obj with
  | nil => rfl
  | cons e rest ih =>
    by_cases h : e.1 = key
    · simp [List.find?_cons, h]
    · simp [List.find?_cons, h, ih]

theorem getProperty_defineProperty_self {α : Type} (obj : List (JSString × α))
    (key : JSString) (value : α) :
    StrategyRoutes.getProperty (StrategyRoutes.defineProperty obj key value) key =
      .own value := by
  unfold StrategyRoutes.getProperty StrategyRoutes.defineProperty
  by_cases h : obj.any (fun e => e.1 == key) = true
  · rw [if_pos h, find?_defineProperty_map]
    obtain ⟨e, he, hk⟩ := List.any_eq_true.1 h
    cases hf : obj.find? (fun e => e.1 == key) with
    | none => exact absurd hk (List.find?_eq_none.1 hf e he)
    | some e2 => rfl
  · rw [if_neg h]
    have hnone : obj.find? (fun e => e.1 == key) = none := by
      rw [List.find?_eq_none]
      intro e he hk
      exact h (List.any_eq_true.2 ⟨e, he, hk⟩)
    simp [List.find?_append, hnone]

theorem forall₂_of_enum {α β : Type} (R : α → β → Prop) (l : List α) (r : List β)
    (h : List.Forall₂ (fun (c : Nat × α) b => R c.2 b) l.enum r) : List.Forall₂ R l r := by
  have h2 : List.Forall₂ R (l.enum.map Prod.snd) r := List.forall₂_map_left_iff.2 h
  rwa [List.enum_map_snd] at h2

/-- An answered request returns one record for each loop pass, in loop order, and
appends exactly these records to the stored content of the strategy. -/
theorem generateContentRoute_ok_spec (lc : JSString → JSString) (now : Nat → Nat)
    (iso : Nat → JSString) (stored : List (JSString × List StrategyRoutes.ContentRecord))
    (body : StrategyRoutes.RequestBody) (records : List StrategyRoutes.ContentRecord)
    (stored2 : List (JSString × List StrategyRoutes.ContentRecord))
    (h : StrategyRoutes.generateContentRoute lc now iso stored body = (.ok records, stored2)) :
    ∃ strategyId analysis options old,
      body.strategyId = some strategyId ∧ body.analysis = some analysis ∧
      body.options = some options ∧
      records.length =
        options.contentTypes.length * options.platforms.length * min options.quantity 5 ∧
      List.Forall₂ (fun (pass : JSString × JSString × Nat) r =>
          r.type = pass.1 ∧ r.platform = pass.2.1 ∧ r.strategy_id = strategyId ∧
          ∃ template, StrategyRoutes.selectTemplate pass.1 pass.2.2 = some template ∧
            r.content =
              StrategyRoutes.generateContentFromTemplate lc template analysis pass.2.1)
        (StrategyRoutes.combinations options) records ∧
      (StrategyRoutes.getProperty stored strategyId = .own old ∨
        (StrategyRoutes.getProperty stored strategyId = .undefined ∧ old = [])) ∧
      StrategyRoutes.getProperty stored2 strategyId = .own (old ++ records) := by
  obtain ⟨strategyId, analysis, options, old, hsid, han, hopt, hgen, hold, hst⟩ :=
    generateContentRoute_eq_ok lc now iso stored body records stored2 h
  have hpass := generatedContent_passes lc now iso strategyId analysis options records hgen
  refine ⟨strategyId, analysis, options, old, hsid, han, hopt, ?_, ?_, hold, ?_⟩
  · rw [← combinations_length, ← hpass.length_eq, List.enum_length]
  · apply forall₂_of_enum
    refine hpass.imp ?_
    intro pass r hr
    obtain ⟨h1, h2, h3, _, h5⟩ := generateRecordAt_eq_some _ _ _ _ _ _ _ _ _ hr
    exact ⟨h1, h2, h3, h5⟩
  · rw [hst, getProperty_defineProperty_self]

theorem catalog_own : ∀ ct ∈ Spec.contentTypes,
    StrategyRoutes.getProperty StrategyRoutes.templates ct = .own (Spec.templatesOf ct) ∧
      Spec.templatesOf ct ≠ [] := by
  decide

theorem selectTemplate_isSome (contentType : JSString)
    (hp : contentType ∉ StrategyRoutes.objectPrototypeKeys) (i : Nat) :
    ∃ template, StrategyRoutes.selectTemplate contentType i = some template := by
  by_cases hc : contentType ∈ Spec.contentTypes
  · obtain ⟨h1, h2⟩ := catalog_own contentType hc
    rw [selectTemplate_of_own contentType _ h1]
    obtain ⟨t, ht, _⟩ := templateAt_isSome _ h2 i
    exact ⟨t, ht⟩
  · rw [(selectTemplate_fallback contentType hc hp i).1]
    obtain ⟨t, ht, _⟩ := templateAt_isSome (Spec.templatesOf (utf16 "post"))
      (catalog_own (utf16 "post") (by decide)).2 i
    exact ⟨t, ht⟩

theorem generateHashtags_isSome (lc : JSString → JSString) (platform : JSString)
    (analysis : StrategyRoutes.Analysis)
    (hp : platform ∉ StrategyRoutes.objectPrototypeKeys)
    (hwf : ∀ pillars, analysis.content_pillars = some pillars → ∀ p ∈ pillars, p.name ≠ none) :
    ∃ line, StrategyRoutes.generateHashtags lc platform analysis = some line := by
  obtain ⟨tags, ht⟩ := contentTags_isSome lc analysis hwf
  simp only [StrategyRoutes.generateHashtags, ht, StrategyRoutes.getProperty]
  cases StrategyRoutes.platformTags.find? (fun e => e.1 == platform) with
  | none => simp only [if_neg hp]; exact ⟨_, rfl⟩
  | some e => exact ⟨_, rfl⟩

/-- A request is answered with records when its strategy id, content types and platforms
are no member names of `Object.prototype` and every pillar of the analysis has a name. -/
theorem generateContentRoute_ok_of_wellFormed (lc : JSString → JSString) (now : Nat → Nat)
    (iso : Nat → JSString) (stored : List (JSString × List StrategyRoutes.ContentRecord))
    (strategyId : JSString) (analysis : StrategyRoutes.Analysis)
    (options : StrategyRoutes.Options)
    (hid : strategyId ≠ []) (hidp : strategyId ∉ StrategyRoutes.objectPrototypeKeys)
    (hct : ∀ ct ∈ options.contentTypes, ct ∉ StrategyRoutes.objectPrototypeKeys)
    (hpl : ∀ p ∈ options.platforms, p ∉ StrategyRoutes.objectPrototypeKeys)
    (hwf : ∀ pillars, analysis.content_pillars = some pillars → ∀ p ∈ pillars, p.name ≠ none) :
    ∃ records stored2,
      StrategyRoutes.generateContentRoute lc now iso stored
        ⟨some strategyId, some analysis, some options⟩ = (.ok records, stored2) := by
  have hgen : ∃ records,
      StrategyRoutes.generatedContent lc now iso strategyId analysis options = some records := by
    apply arrayMap_isSome
    intro pass hpass
    have hmem : pass.2 ∈ StrategyRoutes.combinations options := by
      have := List.mem_map_of_mem Prod.snd hpass
      rwa [List.enum_map_snd] at this
    obtain ⟨h1, h2, _⟩ := combinations_contentType_mem options pass.2 hmem
    obtain ⟨template, htpl⟩ := selectTemplate_isSome pass.2.1 (hct _ h1) pass.2.2.2
    obtain ⟨line, hline⟩ := generateHashtags_isSome lc pass.2.2.1 analysis (hpl _ h2) hwf
    simp only [StrategyRoutes.generateRecordAt, htpl, StrategyRoutes.generateRecord, hline]
    exact ⟨_, rfl⟩
  obtain ⟨records, hrec⟩ := hgen
  simp only [StrategyRoutes.generateContentRoute, if_neg hid, hrec, StrategyRoutes.getProperty]
  cases stored.find? (fun e => e.1 == strategyId) with
  | none => simp only [if_neg hidp]; exact ⟨_, _, rfl⟩
  | some e => exact ⟨_, _, rfl⟩

/-- When every requested content type is in the enumeration, so is the `type` of every
record of the answer. -/
theorem record_type_in_enumeration (lc : JSString → JSString) (now : Nat → Nat)
    (iso : Nat → JSString) (stored : List (JSString × List StrategyRoutes.ContentRecord))
    (body : StrategyRoutes.RequestBody) (records : List StrategyRoutes.ContentRecord)
    (stored2 : List (JSString × List StrategyRoutes.ContentRecord))
    (h : StrategyRoutes.generateContentRoute lc now iso stored body = (.ok records, stored2))
    (hreq : ∀ options, body.options = some options →
      ∀ t ∈ options.contentTypes, t ∈ Spec.contentTypes) :
    ∀ r ∈ records, r.type ∈ Spec.contentTypes := by
  obtain ⟨options, hopt, _, hmem⟩ :=
    record_type_is_requested lc now iso stored body records stored2 h
  exact fun r hr => hreq options hopt r.type (hmem r hr)

/-- C18, at the failing input: the request for the content type `constructor`, the
platform `instagram` and the quantity 1 has one loop pass, but it is answered with the
status 500, without any record, and nothing is stored. -/
theorem C18_generate_content_fails_on_inherited_name :
    (StrategyRoutes.combinations ⟨[utf16 "constructor"], [utf16 "instagram"], 1⟩).length = 1 ∧
    StrategyRoutes.generateContentRoute asciiLower (fun _ => 1700000000000)
      (fun _ => utf16 "2023-11-14T22:13:20.000Z") []
      ⟨some (utf16 "s1"), some StrategyRoutes.Analysis.empty,
        some ⟨[utf16 "constructor"], [utf16 "instagram"], 1⟩⟩ = (.serverError, []) := by
  decide

/-! ## The ceiling of the 100-point scorer -/

theorem bucket_sum_le (lc : JSString → JSString) (s : JSString) :
    Spec.lengthBucket s.length + Spec.hashtagBucket s + Spec.ctaBucket lc s +
      Spec.emojiBucket s + Spec.questionBucket s + Spec.exclamationBucket s ≤ 80 := by
  have h1 : Spec.lengthBucket s.length ≤ 20 := by
    simp only [Spec.lengthBucket]; split_ifs <;> omega
  have h2 : Spec.hashtagBucket s ≤ 15 := by simp only [Spec.hashtagBucket]; omega
  have h3 : Spec.ctaBucket lc s ≤ 20 := by simp only [Spec.ctaBucket]; split_ifs <;> omega
  have h4 : Spec.emojiBucket s ≤ 10 := by simp only [Spec.emojiBucket]; split_ifs <;> omega
  have h5 : Spec.questionBucket s ≤ 10 := by
    simp only [Spec.questionBucket]; split_ifs <;> omega
  have h6 : Spec.exclamationBucket s ≤ 5 := by
    simp only [Spec.exclamationBucket]; split_ifs <;> omega
  omega

theorem bucket_sum_dvd (lc : JSString → JSString) (s : JSString) :
    (5 : Int) ∣ Spec.lengthBucket s.length + Spec.hashtagBucket s + Spec.ctaBucket lc s +
      Spec.emojiBucket s + Spec.questionBucket s + Spec.exclamationBucket s := by
  have h1 : (5 : Int) ∣ Spec.lengthBucket s.length := by
    simp only [Spec.lengthBucket]; split_ifs <;> omega
  have h2 : (5 : Int) ∣ Spec.hashtagBucket s := by simp only [Spec.hashtagBucket]; omega
  have h3 : (5 : Int) ∣ Spec.ctaBucket lc s := by
    simp only [Spec.ctaBucket]; split_ifs <;> omega
  have h4 : (5 : Int) ∣ Spec.emojiBucket s := by
    simp only [Spec.emojiBucket]; split_ifs <;> omega
  have h5 : (5 : Int) ∣ Spec.questionBucket s := by
    simp only [Spec.questionBucket]; split_ifs <;> omega
  have h6 : (5 : Int) ∣ Spec.exclamationBucket s := by
    simp only [Spec.exclamationBucket]; split_ifs <;> omega
  omega

theorem calculateQualityScore_eq_sum (lc : JSString → JSString) (s : JSString) :
    ContentRoutes.calculateQualityScore lc s =
      Spec.lengthBucket s.length + Spec.hashtagBucket s + Spec.ctaBucket lc s +
        Spec.emojiBucket s + Spec.questionBucket s + Spec.exclamationBucket s := by
  have h := bucket_sum_le lc s
  rw [calculateQualityScore_eq_buckets, Spec.score]
  omega

theorem helpers_calculateQualityScore_eq_add (lc : JSString → JSString) (s : JSString) :
    Helpers.calculateQualityScore lc s =
      ContentRoutes.calculateQualityScore lc s + (if numberTest s = true then 10 else 0) +
        (if urlTest s = true then 10 else 0) := by
  have h := bucket_sum_le lc s
  rw [helpers_calculateQualityScore_eq_buckets, calculateQualityScore_eq_sum]
  split_ifs <;> omega

/-- C27: for every string, the score of `content-routes.js` is at most 80 and a multiple
of 5, and it is the plain sum of the six buckets: the final `min(score, 100)` never
changes the sum. -/
theorem C27_score_at_most_80 (lc : JSString → JSString) (s : JSString) :
    ContentRoutes.calculateQualityScore lc s ≤ 80 ∧
    (5 : Int) ∣ ContentRoutes.calculateQualityScore lc s ∧
    ContentRoutes.calculateQualityScore lc s =
      Spec.lengthBucket s.length + Spec.hashtagBucket s + Spec.ctaBucket lc s +
        Spec.emojiBucket s + Spec.questionBucket s + Spec.exclamationBucket s ∧
    ¬ 80 < ContentRoutes.calculateQualityScore lc s := by
  rw [calculateQualityScore_eq_sum]
  have h := bucket_sum_le lc s
  exact ⟨h, bucket_sum_dvd lc s, rfl, by omega⟩

/-- C25, counterexample: the string `5%` has the score 10 in `helpers.js`, for the
number bucket, and the score 0 in `content-routes.js`. -/
theorem C25_scorers_differ_on_statistic :
    Helpers.calculateQualityScore asciiLower (utf16 "5%") = 10 ∧
    ContentRoutes.calculateQualityScore asciiLower (utf16 "5%") = 0 := by
  decide

/-- C25, amended: for every string, the score of `helpers.js` is the score of
`content-routes.js` plus 10 if the content matches `/\d+(%|\+|x|times)/i` plus 10 if it
matches the URL pattern; the two scorers agree exactly on the strings that match neither
pattern. -/
theorem C25_helpers_score_adds_two_buckets (lc : JSString → JSString) (s : JSString) :
    Helpers.calculateQualityScore lc s =
      ContentRoutes.calculateQualityScore lc s + (if numberTest s = true then 10 else 0) +
        (if urlTest s = true then 10 else 0) ∧
    (Helpers.calculateQualityScore lc s = ContentRoutes.calculateQualityScore lc s ↔
      numberTest s = false ∧ urlTest s = false) := by
  refine ⟨helpers_calculateQualityScore_eq_add lc s, ?_⟩
  rw [helpers_calculateQualityScore_eq_add]
  cases numberTest s <;> cases urlTest s <;> first | (simp; done) | (simp; omega)

/-! ## The score of the draft editor -/

theorem editor_calculateQualityScore_eq (lc : JSString → JSString) (s : JSString) :
    ContentDrafts.calculateQualityScore lc s = Spec.editorScore lc s := by
  have hcta : (ContentDrafts.ctas.any (fun cta => includes (lc s) cta) = true) ↔
      ∃ cta ∈ ContentDrafts.ctas, cta <:+: lc s := by
    simp only [List.any_eq_true, includes_iff]
  have hemoji : (((codePoints s).any isPictograph || (codePoints s).any ContentDrafts.isEmoticon)
      = true) ↔ ∃ cp ∈ codePoints s,
        (0x1F300 ≤ cp ∧ cp ≤ 0x1F5FF) ∨ (0x1F600 ≤ cp ∧ cp ≤ 0x1F64F) := by
    simp only [Bool.or_eq_true, List.any_eq_true, isPictograph, ContentDrafts.isEmoticon,
      Bool.and_eq_true, decide_eq_true_eq]
    constructor
    · rintro (⟨cp, h, h2⟩ | ⟨cp, h, h2⟩)
      · exact ⟨cp, h, Or.inl h2⟩
      · exact ⟨cp, h, Or.inr h2⟩
    · rintro ⟨cp, h, h2 | h2⟩
      · exact Or.inl ⟨cp, h, h2⟩
      · exact Or.inr ⟨cp, h, h2⟩
  simp only [ContentDrafts.calculateQualityScore, Spec.editorScore, hcta, hemoji,
    includes_unit_iff]
  split_ifs <;> omega

/-- C21, counterexample: the string `#` has the editor score 1, for the `#` it
contains, while its 100-point score is 0 and `round(0 / 20)` is 0. -/
theorem C21_editor_score_not_derived :
    ContentDrafts.calculateQualityScore asciiLower (utf16 "#") = 1 ∧
    ContentRoutes.calculateQualityScore asciiLower (utf16 "#") = 0 ∧
    Spec.starRating (ContentRoutes.calculateQualityScore asciiLower (utf16 "#")) = 0 := by
  decide

/-- C21, amended: for every string, the score of the draft editor is an integer between
0 and 5, the sum of its own buckets: 2 if 50 < length < 300, else 1 if length >= 300; 1
if the content contains `#`; 1 if the lower-cased content contains one of click, learn,
discover, visit, follow, share; 1 if a code point lies in U+1F300..U+1F5FF or in
U+1F600..U+1F64F. -/
theorem C21_editor_score_is_own_sum (lc : JSString → JSString) (s : JSString) :
    ContentDrafts.calculateQualityScore lc s = Spec.editorScore lc s ∧
    0 ≤ ContentDrafts.calculateQualityScore lc s ∧
    ContentDrafts.calculateQualityScore lc s ≤ 5 := by
  rw [editor_calculateQualityScore_eq]
  refine ⟨rfl, ?_, ?_⟩ <;> simp only [Spec.editorScore] <;> split_ifs <;> omega

/-! ## The hashtag line does not depend on the analysis -/

theorem generateHashtags_of_platform (lc : JSString → JSString) (platform : JSString)
    (analysis : StrategyRoutes.Analysis) (hp : platform ∈ Spec.platforms)
    (hwf : ∀ pillars, analysis.content_pillars = some pillars → ∀ p ∈ pillars, p.name ≠ none) :
    StrategyRoutes.generateHashtags lc platform analysis =
      some ([0x20].intercalate
        (StrategyRoutes.generalTags ++ (Spec.platformTagsOf platform).take 1)) := by
  obtain ⟨tags, ht⟩ := contentTags_isSome lc analysis hwf
  have key : ∀ T : List JSString,
      StrategyRoutes.getProperty StrategyRoutes.platformTags platform = .own T →
      Spec.platformTagsOf platform = T →
      1 ≤ T.length →
      StrategyRoutes.generateHashtags lc platform analysis =
        some ([0x20].intercalate
          (StrategyRoutes.generalTags ++ (Spec.platformTagsOf platform).take 1)) := by
    intro T hT hS hlen
    have hgen := generateHashtags_of_own lc platform analysis T tags hT ht
    have h5 : 5 ≤ (StrategyRoutes.generalTags ++ T).length := by
      have : StrategyRoutes.generalTags.length = 4 := by decide
      rw [List.length_append]; omega
    rw [List.take_append_of_le_length h5] at hgen
    have h4 : StrategyRoutes.generalTags.length = 4 := by decide
    rw [hgen, hS, List.take_append_eq_append_take, h4,
      List.take_of_length_le (by rw [h4]; omega)]
  simp only [Spec.platforms, List.mem_cons, List.mem_singleton, List.not_mem_nil,
    or_false] at hp
  rcases hp with rfl | rfl | rfl | rfl | rfl | rfl
  · exact key (Spec.platformTagsOf (utf16 "facebook")) (by decide) rfl (by decide)
  · exact key (Spec.platformTagsOf (utf16 "instagram")) (by decide) rfl (by decide)
  · exact key (Spec.platformTagsOf (utf16 "twitter")) (by decide) rfl (by decide)
  · exact key (Spec.platformTagsOf (utf16 "linkedin")) (by decide) rfl (by decide)
  · exact key (Spec.platformTagsOf (utf16 "tiktok")) (by decide) rfl (by decide)
  · exact key (Spec.platformTagsOf (utf16 "youtube")) (by decide) rfl (by decide)

/-- C23: for every recognised platform and any two analyses whose pillars all have a
name, `generateHashtags` returns the same line: the four general tags followed by the
first platform tag, whatever the analysis holds. -/
theorem C23_hashtags_independent_of_analysis (lc : JSString → JSString) (platform : JSString)
    (a1 a2 : StrategyRoutes.Analysis) (hp : platform ∈ Spec.platforms)
    (h1 : ∀ pillars, a1.content_pillars = some pillars → ∀ p ∈ pillars, p.name ≠ none)
    (h2 : ∀ pillars, a2.content_pillars = some pillars → ∀ p ∈ pillars, p.name ≠ none) :
    StrategyRoutes.generateHashtags lc platform a1 =
      StrategyRoutes.generateHashtags lc platform a2 ∧
    StrategyRoutes.generateHashtags lc platform a1 =
      some ([0x20].intercalate
        (StrategyRoutes.generalTags ++ (Spec.platformTagsOf platform).take 1)) := by
  rw [generateHashtags_of_platform lc platform a1 hp h1,
    generateHashtags_of_platform lc platform a2 hp h2]
  exact ⟨rfl, rfl⟩

/-- Witness for C23: on `instagram` the analysis `{}` and an analysis with the pillar
`Growth` give the same line, `#marketing #success #growth #innovation #instagood`. -/
theorem C23_hashtags_independent_of_analysis_witness :
    StrategyRoutes.generateHashtags asciiLower (utf16 "instagram") StrategyRoutes.Analysis.empty =
      StrategyRoutes.generateHashtags asciiLower (utf16 "instagram")
        ⟨none, none, some [⟨some (utf16 "Growth"), none⟩], none⟩ ∧
    StrategyRoutes.generateHashtags asciiLower (utf16 "instagram") StrategyRoutes.Analysis.empty =
      some ([0x20].intercalate
        (StrategyRoutes.generalTags ++ (Spec.platformTagsOf (utf16 "instagram")).take 1)) :=
  C23_hashtags_independent_of_analysis asciiLower (utf16 "instagram")
    StrategyRoutes.Analysis.empty ⟨none, none, some [⟨some (utf16 "Growth"), none⟩], none⟩
    (by decide) (fun pillars h => by simp [StrategyRoutes.Analysis.empty] at h)
    (fun pillars h p hp => by
      simp only [Option.some.injEq] at h
      subst h
      simp only [List.mem_singleton] at hp
      subst hp
      simp)

/-! ## The token `{hashtags}` -/

theorem post_templates_hold_hashtags :
    ∀ t ∈ Spec.templatesOf (utf16 "post"), includes t (utf16 "{hashtags}") = true := by
  decide

/-- C24: for every analysis, platform and index, the selected post template is an entry
of the post list, and the content generated from any entry of the post list still
contains the token `{hashtags}`, which is no key of the placeholder mapping; in a
generated record the tag line is the field `hashtags` and the content holds the token. -/
theorem C24_hashtags_token_stays (lc : JSString → JSString)
    (analysis : StrategyRoutes.Analysis) (platform : JSString) (i : Nat) :
    (∃ t ∈ Spec.templatesOf (utf16 "post"),
      StrategyRoutes.selectTemplate (utf16 "post") i = some t) ∧
    (∀ t ∈ Spec.templatesOf (utf16 "post"),
      includes (StrategyRoutes.generateContentFromTemplate lc t analysis platform)
        (utf16 "{hashtags}") = true) ∧
    utf16 "{hashtags}" ∉ Spec.knownPlaceholders ∧
    (∀ (now : Nat) (iso strategyId : JSString) (t : JSString) (r : StrategyRoutes.ContentRecord),
      t ∈ Spec.templatesOf (utf16 "post") →
      StrategyRoutes.generateRecord lc now iso strategyId analysis (utf16 "post") platform i t
        = some r →
      StrategyRoutes.generateHashtags lc platform analysis = some r.hashtags ∧
        includes r.content (utf16 "{hashtags}") = true) := by
  have hkeep : ∀ t ∈ Spec.templatesOf (utf16 "post"),
      includes (StrategyRoutes.generateContentFromTemplate lc t analysis platform)
        (utf16 "{hashtags}") = true := by
    intro t ht
    have hin := post_templates_hold_hashtags t ht
    rw [includes_iff] at hin ⊢
    rw [generateContentFromTemplate_eq_foldl]
    have htok : utf16 "{hashtags}" = Spec.tokenOf (utf16 "hashtags") := by decide
    rw [htok] at hin ⊢
    apply foldl_replaceAll_keeps_token _ (utf16 "hashtags") t (by decide) (by decide) _ hin
    intro e he
    have hk : e.1 ∈ Spec.knownPlaceholders := by
      rw [← placeholderTable_keys analysis]
      exact List.mem_map_of_mem Prod.fst he
    refine ⟨knownPlaceholders_isToken e.1 hk, fun heq => ?_⟩
    rw [heq] at hk
    revert hk
    decide
  refine ⟨?_, hkeep, by decide, ?_⟩
  · obtain ⟨h1, h2⟩ := catalog_own (utf16 "post") (by decide)
    rw [selectTemplate_of_own _ _ h1]
    obtain ⟨t, ht, hidx⟩ := templateAt_isSome _ h2 i
    exact ⟨t, List.getElem?_mem hidx, ht⟩
  · intro now iso strategyId t r ht hr
    obtain ⟨hh, hc, _⟩ :=
      generateRecord_eq_some lc now iso strategyId analysis _ platform i t r hr
    exact ⟨hh, by rw [hc]; exact hkeep t ht⟩

/-- Witness for C24: the first post template, the analysis `{}` and `instagram`. -/
theorem C24_hashtags_token_stays_witness :
    StrategyRoutes.selectTemplate (utf16 "post") 0 ∈
      (Spec.templatesOf (utf16 "post")).map some ∧
    ∀ t ∈ Spec.templatesOf (utf16 "post"),
      includes (StrategyRoutes.generateContentFromTemplate asciiLower t
        StrategyRoutes.Analysis.empty (utf16 "instagram")) (utf16 "{hashtags}") = true :=
  ⟨by decide, (C24_hashtags_token_stays asciiLower StrategyRoutes.Analysis.empty
    (utf16 "instagram") 0).2.1⟩

/-! ## Platform limits -/

theorem platformLimits_eq :
    Helpers.platformLimits =
      [(utf16 "twitter", 280), (utf16 "instagram", 2200), (utf16 "facebook", 63206),
       (utf16 "linkedin", 3000), (utf16 "tiktok", 150), (utf16 "youtube", 5000)] := by
  decide

theorem getProperty_platformLimits (platform : JSString) :
    (∀ L, Spec.limitOf platform = some L →
      StrategyRoutes.getProperty Helpers.platformLimits platform = .own L ∧ 150 ≤ L) ∧
    (Spec.limitOf platform = none →
      StrategyRoutes.getProperty Helpers.platformLimits platform = .inherited ∨
      StrategyRoutes.getProperty Helpers.platformLimits platform = .undefined) := by
  unfold Spec.limitOf
  split_ifs with h1 h2 h3 h4 h5 h6
  · subst h1; exact ⟨fun L h => by cases h; decide, fun h => by cases h⟩
  · subst h2; exact ⟨fun L h => by cases h; decide, fun h => by cases h⟩
  · subst h3; exact ⟨fun L h => by cases h; decide, fun h => by cases h⟩
  · subst h4; exact ⟨fun L h => by cases h; decide, fun h => by cases h⟩
  · subst h5; exact ⟨fun L h => by cases h; decide, fun h => by cases h⟩
  · subst h6; exact ⟨fun L h => by cases h; decide, fun h => by cases h⟩
  · refine ⟨fun L h => h.elim, fun _ => ?_⟩
    have hf : Helpers.platformLimits.find? (fun e => e.1 == platform) = none := by
      have e1 : (utf16 "twitter" == platform) = false := beq_eq_false_iff_ne.2 (Ne.symm h1)
      have e2 : (utf16 "instagram" == platform) = false := beq_eq_false_iff_ne.2 (Ne.symm h2)
      have e3 : (utf16 "facebook" == platform) = false := beq_eq_false_iff_ne.2 (Ne.symm h3)
      have e4 : (utf16 "linkedin" == platform) = false := beq_eq_false_iff_ne.2 (Ne.symm h4)
      have e5 : (utf16 "tiktok" == platform) = false := beq_eq_false_iff_ne.2 (Ne.symm h5)
      have e6 : (utf16 "youtube" == platform) = false := beq_eq_false_iff_ne.2 (Ne.symm h6)
      rw [platformLimits_eq]
      simp only [List.find?_cons, List.find?_nil, e1, e2, e3, e4, e5, e6]
    simp only [StrategyRoutes.getProperty, hf]
    split_ifs
    · exact Or.inl rfl
    · exact Or.inr rfl

theorem exceeds_iff (n : Nat) (platform : JSString) :
    Helpers.exceeds n (StrategyRoutes.getProperty Helpers.platformLimits platform) = true ↔
      ∃ L, Spec.limitOf platform = some L ∧ L < n := by
  obtain ⟨h1, h2⟩ := getProperty_platformLimits platform
  cases hl : Spec.limitOf platform with
  | none =>
    rcases h2 hl with h | h <;> simp [h, Helpers.exceeds]
  | some L =>
    obtain ⟨hown, h150⟩ := h1 L hl
    simp only [hown, Helpers.exceeds, Bool.and_eq_true, bne_iff_ne, ne_eq, decide_eq_true_eq,
      Option.some.injEq, exists_eq_left', gt_iff_lt, and_iff_right_iff_imp]
    omega

theorem optimizeForPlatform_of_limit (content platform : JSString) (L : Nat)
    (h : Spec.limitOf platform = some L) :
    Helpers.optimizeForPlatform content platform =
      if L < content.length then content.take (L - 3) ++ utf16 "..." else content := by
  obtain ⟨hown, _⟩ := (getProperty_platformLimits platform).1 L h
  have hex := exceeds_iff content.length platform
  simp only [h, Option.some.injEq, exists_eq_left'] at hex
  unfold Helpers.optimizeForPlatform
  simp only [hex]
  rw [hown]

theorem optimizeForPlatform_of_no_limit (content platform : JSString)
    (h : Spec.limitOf platform = none) :
    Helpers.optimizeForPlatform content platform = content := by
  have hex := exceeds_iff content.length platform
  simp only [h, false_and, exists_false, iff_false, Bool.not_eq_true, reduceCtorEq] at hex
  unfold Helpers.optimizeForPlatform
  simp only [hex, Bool.false_eq_true, if_false]

theorem optimizeForPlatform_length_le (content platform : JSString) (L : Nat)
    (h : Spec.limitOf platform = some L) :
    (Helpers.optimizeForPlatform content platform).length ≤ L := by
  have h150 := ((getProperty_platformLimits platform).1 L h).2
  rw [optimizeForPlatform_of_limit content platform L h]
  have h3 : (utf16 "...").length = 3 := by decide
  split_ifs with hlt
  · rw [List.length_append, List.length_take, h3]; omega
  · omega

/-! ## `validateContent` -/

theorem trim_length_eq_zero (s : JSString) :
    (Helpers.trim s).length = 0 ↔ ∀ c ∈ s, isWhiteSpace c = true := by
  unfold Helpers.trim
  rw [List.length_eq_zero, List.reverse_eq_nil_iff, List.dropWhile_eq_nil_iff]
  constructor
  · intro h c hc
    rw [← List.takeWhile_append_dropWhile isWhiteSpace s] at hc
    rcases List.mem_append.1 hc with hc | hc
    · exact List.mem_takeWhile_imp hc
    · exact h c (List.mem_reverse.2 hc)
  · intro h c hc
    exact h c ((List.dropWhile_sublist _).subset (List.mem_reverse.1 hc))

theorem validateContent_errors (content platform : JSString) :
    (Helpers.validateContent content platform).errors =
      (if ∀ c ∈ content, isWhiteSpace c = true then [utf16 "Content cannot be empty"] else []) ++
      (if content.length < 10 then [utf16 "Content is too short (minimum 10 characters)"]
        else []) ++
      (match Spec.limitOf platform with
        | some L => if L < content.length then [Helpers.exceedsMessage platform L] else []
        | none => []) := by
  have hempty : (content = [] ∨ (Helpers.trim content).length = 0) ↔
      ∀ c ∈ content, isWhiteSpace c = true := by
    rw [trim_length_eq_zero]
    constructor
    · rintro (rfl | h)
      · simp
      · exact h
    · exact Or.inr
  have hex := exceeds_iff content.length platform
  unfold Helpers.validateContent
  simp only [hempty, List.nil_append]
  cases hl : Spec.limitOf platform with
  | none =>
    simp only [hl, false_and, exists_false, iff_false, Bool.not_eq_true, reduceCtorEq] at hex
    simp only [hex, Bool.false_eq_true, if_false, List.append_nil]
    split_ifs <;> rfl
  | some L =>
    obtain ⟨hown, _⟩ := (getProperty_platformLimits platform).1 L hl
    simp only [hl, Option.some.injEq, exists_eq_left'] at hex
    simp only [hex]
    simp only [hown]
    split_ifs <;> rfl

theorem validateContent_isValid (content platform : JSString) :
    (Helpers.validateContent content platform).isValid = true ↔
      (Helpers.validateContent content platform).errors = [] := by
  simp only [Helpers.validateContent, beq_iff_eq, List.length_eq_zero]

/-- C22: for every content and platform, `validateContent` returns `isValid = true`
exactly when its list of errors is empty; the list is empty exactly when the content
holds a code unit that is no white space, has at least 10 code units, and does not exceed
the limit of the platform, if the platform has one; the list holds one message for each
requirement that is violated, in the order empty, too short, exceeds; the empty string
yields the first two messages. -/
theorem C22_validateContent_errors (content platform : JSString) :
    ((Helpers.validateContent content platform).isValid = true ↔
      (Helpers.validateContent content platform).errors = []) ∧
    ((Helpers.validateContent content platform).errors = [] ↔
      (∃ c ∈ content, isWhiteSpace c = false) ∧ 10 ≤ content.length ∧
        ∀ L, Spec.limitOf platform = some L → content.length ≤ L) ∧
    (Helpers.validateContent content platform).errors =
      (if ∀ c ∈ content, isWhiteSpace c = true then [utf16 "Content cannot be empty"] else []) ++
      (if content.length < 10 then [utf16 "Content is too short (minimum 10 characters)"]
        else []) ++
      (match Spec.limitOf platform with
        | some L => if L < content.length then [Helpers.exceedsMessage platform L] else []
        | none => []) ∧
    (Helpers.validateContent [] platform).errors =
      [utf16 "Content cannot be empty", utf16 "Content is too short (minimum 10 characters)"] := by
  refine ⟨validateContent_isValid content platform, ?_, validateContent_errors content platform,
    ?_⟩
  · rw [validateContent_errors]
    cases hl : Spec.limitOf platform with
    | none =>
      simp only [List.append_nil, List.append_eq_nil, reduceCtorEq, false_imp_iff, implies_true,
        and_true]
      split_ifs with h1 h2 h2 <;> simp_all
    | some L =>
      simp only [List.append_eq_nil, Option.some.injEq, forall_eq']
      split_ifs with h1 h2 h3 h3 h2 h3 h3 <;> simp_all
  · rw [validateContent_errors]
    have hnone : ∀ o : Option Nat,
        (match o with
          | some L => if L < ([] : JSString).length then [Helpers.exceedsMessage platform L]
            else []
          | none => []) = [] := by
      intro o
      cases o <;> simp
    rw [hnone]
    simp

/-- C28: for every content and every platform with a limit `L`, `optimizeForPlatform`
returns a string of at most `L` code units: the content itself when it has at most `L`
code units, and otherwise its first `L - 3` code units followed by `...`, of length
exactly `L`; for a platform without a limit it returns the content; and
`validateContent` of the result, for the same platform, reports at most the errors
empty and too short, never the error of the limit. -/
theorem C28_optimizeForPlatform_within_limit (content platform : JSString) :
    (∀ L, Spec.limitOf platform = some L →
      (Helpers.optimizeForPlatform content platform).length ≤ L ∧
      (content.length ≤ L → Helpers.optimizeForPlatform content platform = content) ∧
      (L < content.length →
        Helpers.optimizeForPlatform content platform = content.take (L - 3) ++ utf16 "..." ∧
        (Helpers.optimizeForPlatform content platform).length = L)) ∧
    (Spec.limitOf platform = none → Helpers.optimizeForPlatform content platform = content) ∧
    (∀ e ∈ (Helpers.validateContent (Helpers.optimizeForPlatform content platform)
        platform).errors,
      e = utf16 "Content cannot be empty" ∨
      e = utf16 "Content is too short (minimum 10 characters)") ∧
    (∀ L, Helpers.exceedsMessage platform L ∉
      (Helpers.validateContent (Helpers.optimizeForPlatform content platform) platform).errors) := by
  have hsub : ∀ e ∈ (Helpers.validateContent (Helpers.optimizeForPlatform content platform)
      platform).errors,
      e = utf16 "Content cannot be empty" ∨
      e = utf16 "Content is too short (minimum 10 characters)" := by
    intro e he
    rw [validateContent_errors] at he
    cases hl : Spec.limitOf platform with
    | none =>
      rw [hl] at he
      simp only [List.append_nil, List.mem_append] at he
      rcases he with he | he
      · split_ifs at he <;> simp_all
      · split_ifs at he <;> simp_all
    | some L =>
      have hle := optimizeForPlatform_length_le content platform L hl
      rw [hl] at he
      simp only [if_neg (Nat.not_lt.2 hle), List.append_nil, List.mem_append] at he
      rcases he with he | he
      · split_ifs at he <;> simp_all
      · split_ifs at he <;> simp_all
  refine ⟨?_, optimizeForPlatform_of_no_limit content platform, hsub, ?_⟩
  · intro L hl
    have h150 := ((getProperty_platformLimits platform).1 L hl).2
    refine ⟨optimizeForPlatform_length_le content platform L hl, ?_, ?_⟩
    · intro hle
      rw [optimizeForPlatform_of_limit content platform L hl, if_neg (Nat.not_lt.2 hle)]
    · intro hlt
      rw [optimizeForPlatform_of_limit content platform L hl, if_pos hlt]
      refine ⟨rfl, ?_⟩
      have h3 : (utf16 "...").length = 3 := by decide
      rw [List.length_append, List.length_take, h3]
      omega
  · intro L hmem
    have h9 : (Helpers.exceedsMessage platform L).take 9 = utf16 "Content e" := by
      unfold Helpers.exceedsMessage
      simp only [List.append_assoc]
      rw [List.take_append_of_le_length (by decide)]
      decide
    rcases hsub _ hmem with h | h
    · rw [h] at h9
      revert h9
      decide
    · rw [h] at h9
      revert h9
      decide

/-- Witness for C28: a content of 200 code units on `tiktok`, whose limit is 150. -/
theorem C28_optimizeForPlatform_within_limit_witness :
    (Helpers.optimizeForPlatform (List.replicate 200 0x61) (utf16 "tiktok")).length ≤ 150 ∧
    Helpers.optimizeForPlatform (List.replicate 200 0x61) (utf16 "tiktok") =
      (List.replicate 200 0x61).take 147 ++ utf16 "..." :=
  have h := (C28_optimizeForPlatform_within_limit (List.replicate 200 0x61)
    (utf16 "tiktok")).1 150 (by decide)
  ⟨h.1, (h.2.2 (by rw [List.length_replicate]; decide)).1⟩

/-! ## Stored drafts: the score and the content -/

theorem postDraft_inSync (lc : JSString → JSString) (now : Nat) (createdAt updatedAt : JSString)
    (drafts : List ContentRoutes.Draft) (body : ContentRoutes.DraftBody)
    (h : ∀ d ∈ drafts, Spec.inSync lc d) :
    (∀ d ∈ (ContentRoutes.postDraft lc now createdAt updatedAt drafts body).2, Spec.inSync lc d) ∧
    (∀ d, (ContentRoutes.postDraft lc now createdAt updatedAt drafts body).1 = .created d →
      Spec.inSync lc d ∧
      (ContentRoutes.postDraft lc now createdAt updatedAt drafts body).2 = drafts ++ [d]) := by
  unfold ContentRoutes.postDraft
  cases body.content with
  | none => exact ⟨h, fun d hd => by cases hd⟩
  | some content =>
    by_cases hc : content = []
    · simp only [hc, if_true]
      exact ⟨h, fun d hd => by cases hd⟩
    · simp only [hc, if_false]
      refine ⟨fun d hd => ?_, fun d hd => ?_⟩
      · rcases List.mem_append.1 hd with hd | hd
        · exact h d hd
        · rw [List.mem_singleton.1 hd]
      · simp only [ContentRoutes.DraftResponse.created.injEq] at hd
        subst hd
        exact ⟨rfl, rfl⟩

theorem updatedDraft_inSync (lc : JSString → JSString) (iso : JSString)
    (draft : ContentRoutes.Draft) (updates : ContentRoutes.DraftUpdates)
    (hc : updates.content ≠ some []) (h : Spec.inSync lc draft) :
    Spec.inSync lc (ContentRoutes.updatedDraft lc iso draft updates) := by
  unfold Spec.inSync ContentRoutes.updatedDraft
  cases hu : updates.content with
  | none => exact h
  | some content =>
    have hne : content ≠ [] := fun he => hc (by rw [hu, he])
    simp only [Option.getD_some, ne_eq, hne, not_false_eq_true, if_true]

theorem putDraft_inSync (lc : JSString → JSString) (iso : JSString)
    (drafts : List ContentRoutes.Draft) (id : JSString) (updates : ContentRoutes.DraftUpdates)
    (hc : updates.content ≠ some []) (h : ∀ d ∈ drafts, Spec.inSync lc d) :
    ∀ d ∈ (ContentRoutes.putDraft lc iso drafts id updates).2, Spec.inSync lc d := by
  unfold ContentRoutes.putDraft
  cases ContentRoutes.findIndex drafts id with
  | none => exact h
  | some draftIndex =>
    dsimp only
    cases hg : drafts.get? draftIndex with
    | none => exact h
    | some draft =>
      intro d hd
      rcases List.mem_or_eq_of_mem_set hd with hd | hd
      · exact h d hd
      · rw [hd]
        exact updatedDraft_inSync lc iso draft updates hc (h draft (List.get?_mem hg))

theorem patchDraftStatus_inSync (lc : JSString → JSString) (iso : JSString)
    (drafts : List ContentRoutes.Draft) (id : JSString) (status : Option JSString)
    (h : ∀ d ∈ drafts, Spec.inSync lc d) :
    ∀ d ∈ (ContentRoutes.patchDraftStatus iso drafts id status).2, Spec.inSync lc d := by
  unfold ContentRoutes.patchDraftStatus
  cases ContentRoutes.findIndex drafts id with
  | none => exact h
  | some draftIndex =>
    dsimp only
    cases hg : drafts.get? draftIndex with
    | none => exact h
    | some draft =>
      intro d hd
      rcases List.mem_or_eq_of_mem_set hd with hd | hd
      · exact h d hd
      · rw [hd]
        exact h draft (List.get?_mem hg)

theorem deleteDraft_inSync (lc : JSString → JSString) (drafts : List ContentRoutes.Draft)
    (id : JSString) (h : ∀ d ∈ drafts, Spec.inSync lc d) :
    ∀ d ∈ (ContentRoutes.deleteDraft drafts id).2, Spec.inSync lc d := by
  unfold ContentRoutes.deleteDraft
  cases ContentRoutes.findIndex drafts id with
  | none => exact h
  | some draftIndex => exact fun d hd => h d (List.mem_of_mem_eraseIdx hd)

/-- The invariant holds for the draft `POST /drafts` creates and is kept by
`PUT /drafts/:id` for every body whose `content` is absent or not empty, by
`PATCH /drafts/:id/status` and by `DELETE /drafts/:id`. -/
theorem drafts_inSync_preserved (lc : JSString → JSString) (now : Nat)
    (iso createdAt updatedAt id : JSString) (drafts : List ContentRoutes.Draft)
    (body : ContentRoutes.DraftBody) (updates : ContentRoutes.DraftUpdates)
    (status : Option JSString) (h : ∀ d ∈ drafts, Spec.inSync lc d) :
    (∀ d ∈ (ContentRoutes.postDraft lc now createdAt updatedAt drafts body).2, Spec.inSync lc d) ∧
    (updates.content ≠ some [] →
      ∀ d ∈ (ContentRoutes.putDraft lc iso drafts id updates).2, Spec.inSync lc d) ∧
    (∀ d ∈ (ContentRoutes.patchDraftStatus iso drafts id status).2, Spec.inSync lc d) ∧
    (∀ d ∈ (ContentRoutes.deleteDraft drafts id).2, Spec.inSync lc d) :=
  ⟨(postDraft_inSync lc now createdAt updatedAt drafts body h).1,
    fun hc => putDraft_inSync lc iso drafts id updates hc h,
    patchDraftStatus_inSync lc iso drafts id status h,
    deleteDraft_inSync lc drafts id h⟩

/-- C26, at the failing input: the draft created by `POST /drafts` with the content
`Click here!` is stored with the score 25 of that content; after `PUT /drafts/:id` with
the body `{content: ""}` the stored draft has the empty content and still the score 25,
while the score of the empty content is 0. -/
theorem C26_put_empty_content_keeps_score :
    (ContentRoutes.postDraft asciiLower 1700000000000 (utf16 "2023-11-14T22:13:20.000Z")
      (utf16 "2023-11-14T22:13:20.000Z") []
      ⟨none, some (utf16 "Click here!"), none, none, none, none⟩).2.map
      (fun d => (d.id, d.content, d.qualityScore,
        ContentRoutes.calculateQualityScore asciiLower d.content))
      = [(utf16 "1700000000000", utf16 "Click here!", 25, 25)] ∧
    (ContentRoutes.putDraft asciiLower (utf16 "2023-11-14T22:14:00.000Z")
      (ContentRoutes.postDraft asciiLower 1700000000000 (utf16 "2023-11-14T22:13:20.000Z")
        (utf16 "2023-11-14T22:13:20.000Z") []
        ⟨none, some (utf16 "Click here!"), none, none, none, none⟩).2
      (utf16 "1700000000000")
      ⟨none, none, some [], none, none, none, none, none, none, none⟩).2.map
      (fun d => (d.id, d.content, d.qualityScore,
        ContentRoutes.calculateQualityScore asciiLower d.content))
      = [(utf16 "1700000000000", [], 25, 0)] := by
  decide

/-! ## Pagination of `GET /drafts` -/

theorem slice_eq_pageOf {α : Type} (l : List α) (page limit : Nat) :
    ContentRoutes.slice l ((page - 1) * limit) ((page - 1) * limit + limit) =
      Spec.pageOf l page limit := by
  unfold ContentRoutes.slice Spec.pageOf
  rw [List.drop_take, Nat.add_sub_cancel_left]

theorem flatMap_pageOf {α : Type} (l : List α) (limit m : Nat) :
    (List.range m).flatMap (fun k => Spec.pageOf l (k + 1) limit) = l.take (m * limit) := by
  induction m with
  | zero => simp
  | succ m ih =>
    rw [List.range_succ, List.flatMap_append, ih, Nat.succ_mul, List.take_add]
    simp [Spec.pageOf]

theorem ceil_div_eq (n limit : Nat) (h : 1 ≤ limit) :
    (n + limit - 1) / limit = Nat.ceil ((n : ℚ) / (limit : ℚ)) := by
  have hpos : (0 : ℚ) < (limit : ℚ) := by exact_mod_cast h
  apply le_antisymm
  · rw [Nat.lt_succ_iff.symm, Nat.div_lt_iff_lt_mul (by omega)]
    have hle : (n : ℚ) / (limit : ℚ) ≤ (Nat.ceil ((n : ℚ) / (limit : ℚ)) : ℚ) := Nat.le_ceil _
    rw [div_le_iff₀ hpos] at hle
    have hle2 : n ≤ Nat.ceil ((n : ℚ) / (limit : ℚ)) * limit := by exact_mod_cast hle
    rw [Nat.succ_mul]
    omega
  · rw [Nat.ceil_le, div_le_iff₀ hpos]
    have : n ≤ (n + limit - 1) / limit * limit := by
      have h1 := Nat.div_add_mod (n + limit - 1) limit
      have h2 := Nat.mod_lt (n + limit - 1) (show 0 < limit by omega)
      rw [Nat.mul_comm] at h1
      omega
    exact_mod_cast this

theorem sortedDrafts_page (lc : JSString → JSString) (dateValue : JSString → Option Int)
    (localeCompare : JSString → JSString → Int) (drafts : List ContentRoutes.Draft)
    (query : ContentRoutes.Query) (page : Option Nat) :
    ContentRoutes.sortedDrafts lc dateValue localeCompare drafts { query with page := page } =
      ContentRoutes.sortedDrafts lc dateValue localeCompare drafts query := rfl

theorem getDrafts_drafts (lc : JSString → JSString) (dateValue : JSString → Option Int)
    (localeCompare : JSString → JSString → Int) (drafts : List ContentRoutes.Draft)
    (query : ContentRoutes.Query) (page limit : Nat)
    (hp : query.page = some page) (hl : query.limit = some limit) (h1 : 1 ≤ page) :
    (ContentRoutes.getDrafts lc dateValue localeCompare drafts query).drafts =
      Spec.pageOf (ContentRoutes.sortedDrafts lc dateValue localeCompare drafts query)
        page limit := by
  have h0 : page ≠ 0 := by omega
  simp only [ContentRoutes.getDrafts, hp, hl, Option.getD_some, h0, if_false, slice_eq_pageOf]

theorem filterDrafts_eq_filter (lc : JSString → JSString) (status search : Option JSString)
    (drafts : List ContentRoutes.Draft) :
    ContentRoutes.filterDrafts lc status search drafts =
      drafts.filter (Spec.keeps lc status search) := by
  unfold ContentRoutes.filterDrafts
  cases status with
  | none =>
    cases search with
    | none =>
      dsimp only
      symm
      apply List.filter_eq_self.2
      intro d _
      simp [Spec.keeps]
    | some q =>
      dsimp only
      by_cases hq : q ≠ []
      · rw [if_pos hq]
        apply List.filter_congr
        intro d _
        simp [Spec.keeps, hq]
      · rw [if_neg hq]
        symm
        apply List.filter_eq_self.2
        intro d _
        simp [Spec.keeps, not_not.1 hq]
  | some s =>
    dsimp only
    by_cases hs : s ≠ [] ∧ s ≠ utf16 "all"
    · rw [if_pos hs]
      cases search with
      | none =>
        dsimp only
        apply List.filter_congr
        intro d _
        simp [Spec.keeps, hs.1, hs.2]
      | some q =>
        dsimp only
        by_cases hq : q ≠ []
        · rw [if_pos hq, List.filter_filter]
          have hqe : q.isEmpty = false := by
            cases q with
            | nil => exact absurd rfl hq
            | cons _ _ => rfl
          have hse : s.isEmpty = false := by
            cases s with
            | nil => exact absurd rfl hs.1
            | cons _ _ => rfl
          have hsa : (s == utf16 "all") = false := beq_eq_false_iff_ne.2 hs.2
          apply List.filter_congr
          intro d _
          simp [Spec.keeps, hqe, hse, hsa, Bool.and_comm]
        · rw [if_neg hq]
          apply List.filter_congr
          intro d _
          simp [Spec.keeps, hs.1, hs.2, not_not.1 hq]
    · rw [if_neg hs]
      have hs2 : s = [] ∨ s = utf16 "all" := by
        by_contra hcon
        exact hs ⟨fun h => hcon (Or.inl h), fun h => hcon (Or.inr h)⟩
      cases search with
      | none =>
        dsimp only
        symm
        apply List.filter_eq_self.2
        intro d _
        simp [Spec.keeps, hs2]
      | some q =>
        dsimp only
        by_cases hq : q ≠ []
        · rw [if_pos hq]
          have hqe : q.isEmpty = false := by
            cases q with
            | nil => exact absurd rfl hq
            | cons _ _ => rfl
          apply List.filter_congr
          intro d _
          rcases hs2 with h | h <;> subst h <;> simp [Spec.keeps, hqe]
        · rw [if_neg hq]
          symm
          apply List.filter_eq_self.2
          intro d _
          simp [Spec.keeps, hs2, not_not.1 hq]

theorem orderedInsert_pairwise {α : Type} (r : α → α → Prop) [DecidableRel r] (a : α)
    (l : List α) (hl : l.Pairwise r) (htot : ∀ b ∈ l, r a b ∨ r b a)
    (htr : ∀ b ∈ l, ∀ c ∈ l, r a b → r b c → r a c) :
    (l.orderedInsert r a).Pairwise r := by
  induction l with
  | nil => simp
  | cons b l ih =>
    obtain ⟨hb, hl2⟩ := List.pairwise_cons.1 hl
    show (if r a b then a :: b :: l else b :: l.orderedInsert r a).Pairwise r
    by_cases hab : r a b
    · rw [if_pos hab]
      refine List.pairwise_cons.2 ⟨fun x hx => ?_, hl⟩
      rcases List.mem_cons.1 hx with hx | hx
      · rw [hx]; exact hab
      · exact htr b (List.mem_cons_self b l) x (List.mem_cons_of_mem b hx) hab (hb x hx)
    · rw [if_neg hab]
      have hba : r b a := (htot b (List.mem_cons_self b l)).resolve_left hab
      refine List.pairwise_cons.2 ⟨fun x hx => ?_, ?_⟩
      · rcases (List.mem_orderedInsert r).1 hx with hx | hx
        · rw [hx]; exact hba
        · exact hb x hx
      · exact ih hl2 (fun x hx => htot x (List.mem_cons_of_mem b hx))
          (fun x hx c hc => htr x (List.mem_cons_of_mem b hx) c (List.mem_cons_of_mem b hc))

theorem insertionSort_pairwise {α : Type} (r : α → α → Prop) [DecidableRel r] (l : List α)
    (htot : ∀ a ∈ l, ∀ b ∈ l, r a b ∨ r b a)
    (htr : ∀ a ∈ l, ∀ b ∈ l, ∀ c ∈ l, r a b → r b c → r a c) :
    (l.insertionSort r).Pairwise r := by
  induction l with
  | nil => simp
  | cons a l ih =>
    show ((l.insertionSort r).orderedInsert r a).Pairwise r
    apply orderedInsert_pairwise
    · exact ih (fun x hx y hy => htot x (List.mem_cons_of_mem a hx) y (List.mem_cons_of_mem a hy))
        (fun x hx y hy z hz => htr x (List.mem_cons_of_mem a hx) y (List.mem_cons_of_mem a hy)
          z (List.mem_cons_of_mem a hz))
    · intro b hb
      have hb2 := (List.mem_insertionSort r).1 hb
      exact htot a (List.mem_cons_self a l) b (List.mem_cons_of_mem a hb2)
    · intro b hb c hc
      have hb2 := (List.mem_insertionSort r).1 hb
      have hc2 := (List.mem_insertionSort r).1 hc
      exact htr a (List.mem_cons_self a l) b (List.mem_cons_of_mem a hb2) c
        (List.mem_cons_of_mem a hc2)

/-- For a comparator that is consistent on the array, `array.sort(compare)` returns the
elements in the order of the comparator, and two elements of which the first stands
before the second and is not after it in the order keep their places relative to each
other. -/
theorem arraySort_of_consistent {α : Type} (compare : α → α → Int) (l : List α)
    (h : Spec.consistentOn compare l) :
    (arraySort compare l).Pairwise (fun a b => compare a b ≤ 0) ∧
    ∀ a b, [a, b].Sublist l → compare a b ≤ 0 → [a, b].Sublist (arraySort compare l) := by
  obtain ⟨hanti, htr⟩ := h
  refine ⟨?_, fun a b hsub hle => List.pair_sublist_insertionSort hle hsub⟩
  apply insertionSort_pairwise _ l _ htr
  intro a ha b hb
  by_cases hab : compare a b ≤ 0
  · exact Or.inl hab
  · have := (hanti b hb a ha).2 (by omega)
    exact Or.inr (by omega)

theorem consistentOn_of_key {α : Type} (compare : α → α → Int) (l : List α) (key : α → Int)
    (h : ∀ a ∈ l, ∀ b ∈ l, compare a b = key b - key a) : Spec.consistentOn compare l := by
  constructor
  · intro a ha b hb
    rw [h a ha b hb, h b hb a ha]
    omega
  · intro a ha b hb c hc
    rw [h a ha b hb, h b hb c hc, h a ha c hc]
    omega

theorem compareDrafts_quality_desc (dateValue : JSString → Option Int)
    (localeCompare : JSString → JSString → Int) (a b : ContentRoutes.Draft) :
    ContentRoutes.compareDrafts dateValue localeCompare (utf16 "quality_desc") a b =
      b.qualityScore - a.qualityScore := by
  unfold ContentRoutes.compareDrafts
  rw [if_neg (by decide), if_neg (by decide), if_pos rfl]

theorem compareDrafts_created_desc (dateValue : JSString → Option Int)
    (localeCompare : JSString → JSString → Int) (a b : ContentRoutes.Draft) :
    ContentRoutes.compareDrafts dateValue localeCompare (utf16 "created_desc") a b =
      minus (dateValue b.createdAt) (dateValue a.createdAt) := by
  unfold ContentRoutes.compareDrafts
  rw [if_pos rfl]

theorem compareDrafts_created_asc (dateValue : JSString → Option Int)
    (localeCompare : JSString → JSString → Int) (a b : ContentRoutes.Draft) :
    ContentRoutes.compareDrafts dateValue localeCompare (utf16 "created_asc") a b =
      minus (dateValue a.createdAt) (dateValue b.createdAt) := by
  unfold ContentRoutes.compareDrafts
  rw [if_neg (by decide), if_pos rfl]

theorem minus_of_isSome (x y : Option Int) (hx : x.isSome = true) (hy : y.isSome = true) :
    minus x y = x.getD 0 - y.getD 0 := by
  cases x with
  | none => cases hx
  | some u =>
    cases y with
    | none => cases hy
    | some v => rfl

theorem sortedDrafts_quality_desc (lc : JSString → JSString)
    (dateValue : JSString → Option Int) (localeCompare : JSString → JSString → Int)
    (drafts : List ContentRoutes.Draft) (query : ContentRoutes.Query)
    (hs : query.sort = some (utf16 "quality_desc")) :
    (ContentRoutes.sortedDrafts lc dateValue localeCompare drafts query).Pairwise
      (fun a b => b.qualityScore ≤ a.qualityScore) := by
  unfold ContentRoutes.sortedDrafts
  rw [hs, Option.getD_some]
  have hcons := consistentOn_of_key
    (ContentRoutes.compareDrafts dateValue localeCompare (utf16 "quality_desc"))
    (ContentRoutes.filterDrafts lc query.status query.search drafts)
    (fun d => d.qualityScore)
    (fun a _ b _ => compareDrafts_quality_desc dateValue localeCompare a b)
  refine (arraySort_of_consistent _ _ hcons).1.imp ?_
  intro a b hab
  rw [compareDrafts_quality_desc] at hab
  omega

theorem sortedDrafts_created_desc (lc : JSString → JSString)
    (dateValue : JSString → Option Int) (localeCompare : JSString → JSString → Int)
    (drafts : List ContentRoutes.Draft) (query : ContentRoutes.Query)
    (hs : query.sort = none ∨ query.sort = some (utf16 "created_desc"))
    (hd : ∀ d ∈ ContentRoutes.filterDrafts lc query.status query.search drafts,
      (dateValue d.createdAt).isSome = true) :
    (ContentRoutes.sortedDrafts lc dateValue localeCompare drafts query).Pairwise
      (fun a b => (dateValue b.createdAt).getD 0 ≤ (dateValue a.createdAt).getD 0) := by
  have hsort : query.sort.getD (utf16 "created_desc") = utf16 "created_desc" := by
    rcases hs with h | h <;> rw [h] <;> rfl
  unfold ContentRoutes.sortedDrafts
  rw [hsort]
  have hcons := consistentOn_of_key
    (ContentRoutes.compareDrafts dateValue localeCompare (utf16 "created_desc"))
    (ContentRoutes.filterDrafts lc query.status query.search drafts)
    (fun d => (dateValue d.createdAt).getD 0)
    (fun a ha b hb => by
      rw [compareDrafts_created_desc, minus_of_isSome _ _ (hd b hb) (hd a ha)])
  have hmem : ∀ d ∈ arraySort
      (ContentRoutes.compareDrafts dateValue localeCompare (utf16 "created_desc"))
      (ContentRoutes.filterDrafts lc query.status query.search drafts),
      (dateValue d.createdAt).isSome = true :=
    fun d hdm => hd d ((List.mem_insertionSort _).1 hdm)
  refine (arraySort_of_consistent _ _ hcons).1.imp_of_mem ?_
  intro a b ha hb hab
  rw [compareDrafts_created_desc, minus_of_isSome _ _ (hmem b hb) (hmem a ha)] at hab
  omega

theorem sortedDrafts_created_asc (lc : JSString → JSString)
    (dateValue : JSString → Option Int) (localeCompare : JSString → JSString → Int)
    (drafts : List ContentRoutes.Draft) (query : ContentRoutes.Query)
    (hs : query.sort = some (utf16 "created_asc"))
    (hd : ∀ d ∈ ContentRoutes.filterDrafts lc query.status query.search drafts,
      (dateValue d.createdAt).isSome = true) :
    (ContentRoutes.sortedDrafts lc dateValue localeCompare drafts query).Pairwise
      (fun a b => (dateValue a.createdAt).getD 0 ≤ (dateValue b.createdAt).getD 0) := by
  unfold ContentRoutes.sortedDrafts
  rw [hs, Option.getD_some]
  have hcons := consistentOn_of_key
    (ContentRoutes.compareDrafts dateValue localeCompare (utf16 "created_asc"))
    (ContentRoutes.filterDrafts lc query.status query.search drafts)
    (fun d => - (dateValue d.createdAt).getD 0)
    (fun a ha b hb => by
      rw [compareDrafts_created_asc, minus_of_isSome _ _ (hd a ha) (hd b hb)]
      dsimp only
      omega)
  have hmem : ∀ d ∈ arraySort
      (ContentRoutes.compareDrafts dateValue localeCompare (utf16 "created_asc"))
      (ContentRoutes.filterDrafts lc query.status query.search drafts),
      (dateValue d.createdAt).isSome = true :=
    fun d hdm => hd d ((List.mem_insertionSort _).1 hdm)
  refine (arraySort_of_consistent _ _ hcons).1.imp_of_mem ?_
  intro a b ha hb hab
  rw [compareDrafts_created_asc, minus_of_isSome _ _ (hmem a ha) (hmem b hb)] at hab
  omega

/-- C30: for every draft list, filter and sort option, and integers `page >= 1` and
`limit >= 1`, the page returned by `GET /drafts` is the slice from `(page - 1) * limit` up
to `page * limit` of the filtered and sorted list and has at most `limit` items; `total`
is the length of the filtered list; `totalPages` is `ceil(total / limit)`; and the pages 1
to `totalPages`, one after the other, are the filtered and sorted list.  The filtered list
holds the drafts the status and the search term keep, in stored order.  The sorted list is
a rearrangement of the filtered list; for a comparator that is consistent on the filtered
list it is in the order of the comparator, drafts that the comparator does not separate
keeping their stored order; so it is in non-increasing order of `qualityScore` for
`quality_desc`, and of the creation date for `created_desc`, the default, and in
non-decreasing order of the creation date for `created_asc`, when the dates are valid. -/
theorem C30_pagination_partitions (lc : JSString → JSString)
    (dateValue : JSString → Option Int) (localeCompare : JSString → JSString → Int)
    (drafts : List ContentRoutes.Draft) (query : ContentRoutes.Query) (page limit : Nat)
    (hp : query.page = some page) (hl : query.limit = some limit)
    (h1 : 1 ≤ page) (h2 : 1 ≤ limit) :
    (ContentRoutes.getDrafts lc dateValue localeCompare drafts query).drafts =
      ((ContentRoutes.sortedDrafts lc dateValue localeCompare drafts query).drop
        ((page - 1) * limit)).take limit ∧
    (ContentRoutes.getDrafts lc dateValue localeCompare drafts query).drafts.length ≤ limit ∧
    (ContentRoutes.getDrafts lc dateValue localeCompare drafts query).total =
      (ContentRoutes.filterDrafts lc query.status query.search drafts).length ∧
    (ContentRoutes.sortedDrafts lc dateValue localeCompare drafts query).Perm
      (ContentRoutes.filterDrafts lc query.status query.search drafts) ∧
    (ContentRoutes.getDrafts lc dateValue localeCompare drafts query).totalPages =
      some (Nat.ceil
        (((ContentRoutes.getDrafts lc dateValue localeCompare drafts query).total : ℚ) /
          (limit : ℚ))) ∧
    (List.range (Nat.ceil
        (((ContentRoutes.getDrafts lc dateValue localeCompare drafts query).total : ℚ) /
          (limit : ℚ)))).flatMap
      (fun k => (ContentRoutes.getDrafts lc dateValue localeCompare drafts
        { query with page := some (k + 1) }).drafts) =
      ContentRoutes.sortedDrafts lc dateValue localeCompare drafts query ∧
    ContentRoutes.filterDrafts lc query.status query.search drafts =
      drafts.filter (Spec.keeps lc query.status query.search) ∧
    (Spec.consistentOn
        (ContentRoutes.compareDrafts dateValue localeCompare
          (query.sort.getD (utf16 "created_desc")))
        (ContentRoutes.filterDrafts lc query.status query.search drafts) →
      (ContentRoutes.sortedDrafts lc dateValue localeCompare drafts query).Pairwise
        (fun a b => ContentRoutes.compareDrafts dateValue localeCompare
          (query.sort.getD (utf16 "created_desc")) a b ≤ 0) ∧
      ∀ a b, [a, b].Sublist (ContentRoutes.filterDrafts lc query.status query.search drafts) →
        ContentRoutes.compareDrafts dateValue localeCompare
          (query.sort.getD (utf16 "created_desc")) a b ≤ 0 →
        [a, b].Sublist (ContentRoutes.sortedDrafts lc dateValue localeCompare drafts query)) ∧
    (query.sort = some (utf16 "quality_desc") →
      (ContentRoutes.sortedDrafts lc dateValue localeCompare drafts query).Pairwise
        (fun a b => b.qualityScore ≤ a.qualityScore)) ∧
    ((query.sort = none ∨ query.sort = some (utf16 "created_desc")) →
      (∀ d ∈ ContentRoutes.filterDrafts lc query.status query.search drafts,
        (dateValue d.createdAt).isSome = true) →
      (ContentRoutes.sortedDrafts lc dateValue localeCompare drafts query).Pairwise
        (fun a b => (dateValue b.createdAt).getD 0 ≤ (dateValue a.createdAt).getD 0)) ∧
    (query.sort = some (utf16 "created_asc") →
      (∀ d ∈ ContentRoutes.filterDrafts lc query.status query.search drafts,
        (dateValue d.createdAt).isSome = true) →
      (ContentRoutes.sortedDrafts lc dateValue localeCompare drafts query).Pairwise
        (fun a b => (dateValue a.createdAt).getD 0 ≤ (dateValue b.createdAt).getD 0)) := by
  have hperm : (ContentRoutes.sortedDrafts lc dateValue localeCompare drafts query).Perm
      (ContentRoutes.filterDrafts lc query.status query.search drafts) :=
    List.perm_insertionSort _ _
  have htotal : (ContentRoutes.getDrafts lc dateValue localeCompare drafts query).total =
      (ContentRoutes.sortedDrafts lc dateValue localeCompare drafts query).length := rfl
  have hl0 : limit ≠ 0 := by omega
  refine ⟨getDrafts_drafts lc dateValue localeCompare drafts query page limit hp hl h1, ?_,
    ?_, hperm, ?_, ?_, filterDrafts_eq_filter lc query.status query.search drafts,
    fun hcons => arraySort_of_consistent _ _ hcons,
    sortedDrafts_quality_desc lc dateValue localeCompare drafts query,
    sortedDrafts_created_desc lc dateValue localeCompare drafts query,
    sortedDrafts_created_asc lc dateValue localeCompare drafts query⟩
  · rw [getDrafts_drafts lc dateValue localeCompare drafts query page limit hp hl h1]
    exact List.length_take_le _ _
  · rw [htotal, hperm.length_eq]
  · rw [htotal, ← ceil_div_eq _ limit h2]
    simp only [ContentRoutes.getDrafts, hl, Option.getD_some, hl0, if_false]
  · have hpages : ∀ k : Nat,
        (ContentRoutes.getDrafts lc dateValue localeCompare drafts
          { query with page := some (k + 1) }).drafts =
        Spec.pageOf (ContentRoutes.sortedDrafts lc dateValue localeCompare drafts query)
          (k + 1) limit := fun k =>
      getDrafts_drafts lc dateValue localeCompare drafts { query with page := some (k + 1) }
        (k + 1) limit rfl hl (by omega)
    simp only [hpages]
    rw [flatMap_pageOf, htotal, ← ceil_div_eq _ limit h2]
    apply List.take_of_length_le
    have h3 := Nat.div_add_mod
      ((ContentRoutes.sortedDrafts lc dateValue localeCompare drafts query).length + limit - 1)
      limit
    have h4 := Nat.mod_lt
      ((ContentRoutes.sortedDrafts lc dateValue localeCompare drafts query).length + limit - 1)
      (show 0 < limit by omega)
    rw [Nat.mul_comm] at h3
    omega

/-- Witness for C30: three stored drafts, no filter, the order `quality_desc`, page 2 in
pages of 2: the page has at most 2 drafts, and the sorted list is in non-increasing order
of `qualityScore`. -/
theorem C30_pagination_partitions_witness :
    (ContentRoutes.getDrafts asciiLower (fun _ => none) (fun _ _ => 0)
      [⟨utf16 "1", utf16 "Draft 1", utf16 "Click here!", none, some (utf16 "draft"), none, none,
          25, utf16 "2023-11-14T22:13:20.000Z", utf16 "2023-11-14T22:13:20.000Z"⟩,
        ⟨utf16 "2", utf16 "Draft 2", utf16 "Why?", none, some (utf16 "draft"), none, none,
          10, utf16 "2023-11-14T22:13:21.000Z", utf16 "2023-11-14T22:13:21.000Z"⟩,
        ⟨utf16 "3", utf16 "Draft 3", utf16 "Learn more?", none, some (utf16 "draft"), none,
          none, 30, utf16 "2023-11-14T22:13:22.000Z", utf16 "2023-11-14T22:13:22.000Z"⟩]
      ⟨none, none, some (utf16 "quality_desc"), some 2, some 2⟩).drafts.length ≤ 2 ∧
    (ContentRoutes.sortedDrafts asciiLower (fun _ => none) (fun _ _ => 0)
      [⟨utf16 "1", utf16 "Draft 1", utf16 "Click here!", none, some (utf16 "draft"), none, none,
          25, utf16 "2023-11-14T22:13:20.000Z", utf16 "2023-11-14T22:13:20.000Z"⟩,
        ⟨utf16 "2", utf16 "Draft 2", utf16 "Why?", none, some (utf16 "draft"), none, none,
          10, utf16 "2023-11-14T22:13:21.000Z", utf16 "2023-11-14T22:13:21.000Z"⟩,
        ⟨utf16 "3", utf16 "Draft 3", utf16 "Learn more?", none, some (utf16 "draft"), none,
          none, 30, utf16 "2023-11-14T22:13:22.000Z", utf16 "2023-11-14T22:13:22.000Z"⟩]
      ⟨none, none, some (utf16 "quality_desc"), some 2, some 2⟩).Pairwise
      (fun a b => b.qualityScore ≤ a.qualityScore) :=
  have h := C30_pagination_partitions asciiLower (fun _ => none) (fun _ _ => 0)
    [⟨utf16 "1", utf16 "Draft 1", utf16 "Click here!", none, some (utf16 "draft"), none, none,
        25, utf16 "2023-11-14T22:13:20.000Z", utf16 "2023-11-14T22:13:20.000Z"⟩,
      ⟨utf16 "2", utf16 "Draft 2", utf16 "Why?", none, some (utf16 "draft"), none, none,
        10, utf16 "2023-11-14T22:13:21.000Z", utf16 "2023-11-14T22:13:21.000Z"⟩,
      ⟨utf16 "3", utf16 "Draft 3", utf16 "Learn more?", none, some (utf16 "draft"), none,
        none, 30, utf16 "2023-11-14T22:13:22.000Z", utf16 "2023-11-14T22:13:22.000Z"⟩]
    ⟨none, none, some (utf16 "quality_desc"), some 2, some 2⟩ 2 2 rfl rfl (by decide)
    (by decide)
  ⟨h.2.1, h.2.2.2.2.2.2.2.2.1 rfl⟩

/-! ## `extractKeywords` -/

theorem keys_defineProperty {α : Type} (obj : List (JSString × α)) (key : JSString) (value : α) :
    (StrategyRoutes.defineProperty obj key value).map Prod.fst =
      if key ∈ obj.map Prod.fst then obj.map Prod.fst else obj.map Prod.fst ++ [key] := by
  unfold StrategyRoutes.defineProperty
  by_cases h : obj.any (fun e => e.1 == key) = true
  · have hk : key ∈ obj.map Prod.fst := by
      obtain ⟨e, he, hek⟩ := List.any_eq_true.1 h
      exact List.mem_map.2 ⟨e, he, by simpa using hek⟩
    rw [if_pos h, if_pos hk, List.map_map]
    apply List.map_congr_left
    intro e _
    by_cases hek : e.1 = key
    · simp [hek]
    · simp [hek]
  · have hk : key ∉ obj.map Prod.fst := by
      intro hk
      obtain ⟨e, he, hek⟩ := List.mem_map.1 hk
      exact h (List.any_eq_true.2 ⟨e, he, by simpa using hek⟩)
    rw [if_neg h, if_neg hk, List.map_append]
    rfl

theorem mem_defineProperty {α : Type} (obj : List (JSString × α)) (key : JSString) (value : α)
    (e : JSString × α) (h : e ∈ StrategyRoutes.defineProperty obj key value) :
    (e ∈ obj ∧ e.1 ≠ key) ∨ e = (key, value) := by
  unfold StrategyRoutes.defineProperty at h
  by_cases hany : obj.any (fun e => e.1 == key) = true
  · rw [if_pos hany] at h
    obtain ⟨e0, he0, heq⟩ := List.mem_map.1 h
    by_cases hk : e0.1 = key
    · rw [if_pos hk] at heq
      exact Or.inr heq.symm
    · rw [if_neg hk] at heq
      subst heq
      exact Or.inl ⟨he0, hk⟩
  · rw [if_neg hany] at h
    rcases List.mem_append.1 h with h | h
    · refine Or.inl ⟨h, fun hk => hany (List.any_eq_true.2 ⟨e, h, by simpa using hk⟩)⟩
    · exact Or.inr (List.mem_singleton.1 h)

theorem keys_countWord (wordCount : List (JSString × Option Nat)) (word : JSString) :
    (Helpers.countWord wordCount word).map Prod.fst =
      if word ∈ wordCount.map Prod.fst then wordCount.map Prod.fst
      else wordCount.map Prod.fst ++ [word] := by
  unfold Helpers.countWord
  split <;> exact keys_defineProperty _ _ _

theorem keys_foldl_countWord (words : List JSString) (wordCount : List (JSString × Option Nat)) :
    (words.foldl Helpers.countWord wordCount).map Prod.fst =
      words.foldl (fun seen word => if word ∈ seen then seen else seen ++ [word])
        (wordCount.map Prod.fst) := by
  induction words generalizing wordCount with
  | nil => rfl
  | cons w ws ih => rw [List.foldl_cons, List.foldl_cons, ih, keys_countWord]

theorem keys_wordCount (words : List JSString) :
    (words.foldl Helpers.countWord []).map Prod.fst = Spec.firstOccurrences words :=
  keys_foldl_countWord words []

theorem firstOccurrences_append (words : List JSString) (word : JSString) :
    Spec.firstOccurrences (words ++ [word]) =
      if word ∈ Spec.firstOccurrences words then Spec.firstOccurrences words
      else Spec.firstOccurrences words ++ [word] := by
  simp only [Spec.firstOccurrences, List.foldl_append, List.foldl_cons, List.foldl_nil]

theorem mem_firstOccurrences (words : List JSString) :
    ∀ word, word ∈ Spec.firstOccurrences words ↔ word ∈ words := by
  induction words using List.reverseRecOn with
  | nil => simp [Spec.firstOccurrences]
  | append_singleton ws w ih =>
    intro word
    rw [firstOccurrences_append]
    by_cases hw : w ∈ Spec.firstOccurrences ws
    · rw [if_pos hw, List.mem_append, List.mem_singleton, ih]
      constructor
      · exact Or.inl
      · rintro (h | h)
        · exact h
        · rw [h]; exact (ih w).1 hw
    · rw [if_neg hw, List.mem_append, List.mem_append, ih]

theorem firstOccurrences_nodup (words : List JSString) : (Spec.firstOccurrences words).Nodup := by
  induction words using List.reverseRecOn with
  | nil => simp [Spec.firstOccurrences]
  | append_singleton ws w ih =>
    rw [firstOccurrences_append]
    by_cases hw : w ∈ Spec.firstOccurrences ws
    · rw [if_pos hw]; exact ih
    · rw [if_neg hw]
      exact List.Nodup.append ih (List.nodup_singleton w)
        (by simpa [List.disjoint_singleton] using hw)

theorem getProperty_undefined_not_mem {α : Type} (obj : List (JSString × α)) (key : JSString)
    (h : StrategyRoutes.getProperty obj key = .undefined) : key ∉ obj.map Prod.fst := by
  intro hk
  obtain ⟨e, he, hek⟩ := List.mem_map.1 hk
  unfold StrategyRoutes.getProperty at h
  cases hf : obj.find? (fun e => e.1 == key) with
  | none =>
    have := List.find?_eq_none.1 hf e he
    simp [hek] at this
  | some e2 =>
    rw [hf] at h
    cases h

theorem getProperty_inherited_mem {α : Type} (obj : List (JSString × α)) (key : JSString)
    (h : StrategyRoutes.getProperty obj key = .inherited) :
    key ∈ StrategyRoutes.objectPrototypeKeys := by
  unfold StrategyRoutes.getProperty at h
  cases hf : obj.find? (fun e => e.1 == key) with
  | none =>
    rw [hf] at h
    by_contra hk
    simp only [if_neg hk] at h
    cases h
  | some e2 =>
    rw [hf] at h
    cases h

theorem mem_countWord (wordCount : List (JSString × Option Nat)) (word : JSString)
    (e : JSString × Option Nat) (he : e ∈ Helpers.countWord wordCount word) :
    (e ∈ wordCount ∧ e.1 ≠ word) ∨
    (e.1 = word ∧ e.2 =
      match StrategyRoutes.getProperty wordCount word with
      | .own (some n) => some (n + 1)
      | .own none => none
      | .inherited => none
      | .undefined => some 1) := by
  unfold Helpers.countWord at he
  revert he
  cases StrategyRoutes.getProperty wordCount word with
  | own v =>
    cases v with
    | none =>
      intro he
      rcases mem_defineProperty _ _ _ _ he with h | h
      · exact Or.inl h
      · exact Or.inr (by rw [h]; exact ⟨rfl, rfl⟩)
    | some n =>
      intro he
      rcases mem_defineProperty _ _ _ _ he with h | h
      · exact Or.inl h
      · exact Or.inr (by rw [h]; exact ⟨rfl, rfl⟩)
  | inherited =>
    intro he
    rcases mem_defineProperty _ _ _ _ he with h | h
    · exact Or.inl h
    · exact Or.inr (by rw [h]; exact ⟨rfl, rfl⟩)
  | undefined =>
    intro he
    rcases mem_defineProperty _ _ _ _ he with h | h
    · exact Or.inl h
    · exact Or.inr (by rw [h]; exact ⟨rfl, rfl⟩)

theorem count_append_singleton (ws : List JSString) (w x : JSString) :
    (ws ++ [w]).count x = ws.count x + (if w = x then 1 else 0) := by
  rw [List.count_append]
  by_cases h : w = x
  · subst h
    simp
  · have h0 : List.count x [w] = 0 :=
      List.count_eq_zero_of_not_mem (by simpa using Ne.symm h)
    rw [if_neg h, h0]

theorem wordCount_values (words : List JSString)
    (hw : ∀ w ∈ words, w ∉ StrategyRoutes.objectPrototypeKeys) :
    ∀ e ∈ words.foldl Helpers.countWord [], e.2 = some (words.count e.1) := by
  induction words using List.reverseRecOn with
  | nil => intro e he; cases he
  | append_singleton ws w ih =>
    have ih2 := ih (fun x hx => hw x (List.mem_append_left _ hx))
    have hwp : w ∉ StrategyRoutes.objectPrototypeKeys :=
      hw w (List.mem_append_right _ (List.mem_singleton_self w))
    rw [List.foldl_append, List.foldl_cons, List.foldl_nil]
    intro e he
    rcases mem_countWord _ _ _ he with ⟨h1, h2⟩ | ⟨h1, h2⟩
    · rw [ih2 e h1, count_append_singleton, if_neg (Ne.symm h2), Nat.add_zero]
    · rw [h2, h1, count_append_singleton, if_pos rfl]
      cases hg : StrategyRoutes.getProperty (ws.foldl Helpers.countWord []) w with
      | own v =>
        have hv := ih2 _ (getProperty_own_mem _ _ _ hg)
        simp only at hv
        rw [hv]
      | inherited => exact absurd (getProperty_inherited_mem _ _ hg) hwp
      | undefined =>
        have hnk := getProperty_undefined_not_mem _ _ hg
        rw [keys_wordCount, mem_firstOccurrences] at hnk
        rw [List.count_eq_zero_of_not_mem hnk]

theorem extractKeywords_eq_take (lc : JSString → JSString) (content : JSString) (count : Nat) :
    Helpers.extractKeywords lc content count =
      ((arraySort (fun a b : JSString × Option Nat =>
          minus (b.2.map Int.ofNat) (a.2.map Int.ofNat))
        ((Helpers.keywordWords lc content).foldl Helpers.countWord [])).map Prod.fst).take
        count := by
  simp only [Helpers.extractKeywords, List.map_take]

/-- Outside the member names of `Object.prototype`, `extractKeywords` is the reference
list of keywords of the cleaned words. -/
theorem extractKeywords_eq_reference (lc : JSString → JSString) (content : JSString)
    (count : Nat)
    (hw : ∀ w ∈ Helpers.keywordWords lc content, w ∉ StrategyRoutes.objectPrototypeKeys) :
    Helpers.extractKeywords lc content count =
      Spec.keywords (Helpers.keywordWords lc content) count := by
  rw [extractKeywords_eq_take, Spec.keywords, ← keys_wordCount]
  congr 1
  unfold arraySort
  apply List.map_insertionSort
  intro a ha b hb
  have h1 := wordCount_values _ hw a ha
  have h2 := wordCount_values _ hw b hb
  simp only [h1, h2, Option.map_some', minus, Int.ofNat_eq_coe]
  omega

theorem extractKeywords_length_le (lc : JSString → JSString) (content : JSString) (count : Nat) :
    (Helpers.extractKeywords lc content count).length ≤ count := by
  rw [extractKeywords_eq_take]
  exact List.length_take_le _ _

theorem extractKeywords_nodup (lc : JSString → JSString) (content : JSString) (count : Nat) :
    (Helpers.extractKeywords lc content count).Nodup := by
  rw [extractKeywords_eq_take]
  apply List.Nodup.sublist (List.take_sublist _ _)
  have hperm := (List.perm_insertionSort
    (fun a b : JSString × Option Nat => minus (b.2.map Int.ofNat) (a.2.map Int.ofNat) ≤ 0)
    ((Helpers.keywordWords lc content).foldl Helpers.countWord [])).map Prod.fst
  unfold arraySort
  rw [hperm.nodup_iff, keys_wordCount]
  exact firstOccurrences_nodup _

theorem extractKeywords_subset (lc : JSString → JSString) (content : JSString) (count : Nat) :
    ∀ w ∈ Helpers.extractKeywords lc content count, w ∈ Helpers.keywordWords lc content := by
  intro w hw
  rw [extractKeywords_eq_take] at hw
  have hw2 := List.mem_of_mem_take hw
  have hperm := (List.perm_insertionSort
    (fun a b : JSString × Option Nat => minus (b.2.map Int.ofNat) (a.2.map Int.ofNat) ≤ 0)
    ((Helpers.keywordWords lc content).foldl Helpers.countWord [])).map Prod.fst
  unfold arraySort at hw2
  rw [hperm.mem_iff, keys_wordCount, mem_firstOccurrences] at hw2
  exact hw2

theorem splitFrom_mem (s : JSString) :
    ∀ (current : JSString) (inRun : Bool), ∀ piece ∈ Helpers.splitFrom current inRun s,
      ∀ c ∈ piece, c ∈ current ∨ (c ∈ s ∧ isWhiteSpace c = false) := by
  induction s with
  | nil =>
    intro current inRun piece hp c hc
    simp only [Helpers.splitFrom, List.mem_singleton] at hp
    subst hp
    exact Or.inl hc
  | cons x rest ih =>
    intro current inRun piece hp c hc
    unfold Helpers.splitFrom at hp
    by_cases hx : isWhiteSpace x = true
    · rw [if_pos hx] at hp
      cases inRun with
      | true =>
        simp only [if_true] at hp
        rcases ih current true piece hp c hc with h | ⟨h1, h2⟩
        · exact Or.inl h
        · exact Or.inr ⟨List.mem_cons_of_mem _ h1, h2⟩
      | false =>
        simp only [Bool.false_eq_true, if_false, List.mem_cons] at hp
        rcases hp with hp | hp
        · subst hp
          exact Or.inl hc
        · rcases ih [] true piece hp c hc with h | ⟨h1, h2⟩
          · cases h
          · exact Or.inr ⟨List.mem_cons_of_mem _ h1, h2⟩
    · rw [if_neg hx] at hp
      rcases ih (current ++ [x]) false piece hp c hc with h | ⟨h1, h2⟩
      · rcases List.mem_append.1 h with h | h
        · exact Or.inl h
        · rw [List.mem_singleton.1 h]
          exact Or.inr ⟨List.mem_cons_self _ _, by simpa using hx⟩
      · exact Or.inr ⟨List.mem_cons_of_mem _ h1, h2⟩

theorem keywordWords_shape (lc : JSString → JSString) (content : JSString) :
    ∀ w ∈ Helpers.keywordWords lc content,
      3 < w.length ∧ ∀ c ∈ w, c ∈ lc content ∧ Helpers.isAsciiLetter c = true := by
  intro w hw
  simp only [Helpers.keywordWords, List.mem_filter, decide_eq_true_eq] at hw
  refine ⟨hw.2, fun c hc => ?_⟩
  rcases splitFrom_mem _ [] false w hw.1 c hc with h | ⟨h1, h2⟩
  · cases h
  · simp only [List.mem_filter, Bool.or_eq_true] at h1
    refine ⟨h1.1, ?_⟩
    rcases h1.2 with h | h
    · exact h
    · rw [h2] at h; cases h

/-- For every content and count, `extractKeywords` returns at most `count` words without
a duplicate, each a word of the cleaned content: longer than 3 code units and made of
ASCII letters, lower-case ones when the lower-cased content holds no upper-case ASCII
letter. -/
theorem extractKeywords_words (lc : JSString → JSString) (content : JSString) (count : Nat) :
    (Helpers.extractKeywords lc content count).length ≤ count ∧
    (Helpers.extractKeywords lc content count).Nodup ∧
    (∀ w ∈ Helpers.extractKeywords lc content count,
      w ∈ Helpers.keywordWords lc content ∧ 3 < w.length ∧
      (∀ c ∈ w, Helpers.isAsciiLetter c = true) ∧
      ((∀ c ∈ lc content, ¬ (0x41 ≤ c ∧ c ≤ 0x5A)) → ∀ c ∈ w, 0x61 ≤ c ∧ c ≤ 0x7A)) := by
  refine ⟨extractKeywords_length_le lc content count, extractKeywords_nodup lc content count,
    fun w hw => ?_⟩
  have hmem := extractKeywords_subset lc content count w hw
  obtain ⟨hlen, hchars⟩ := keywordWords_shape lc content w hmem
  refine ⟨hmem, hlen, fun c hc => (hchars c hc).2, fun hlc c hc => ?_⟩
  obtain ⟨h1, h2⟩ := hchars c hc
  have h3 := hlc c h1
  simp only [Helpers.isAsciiLetter, Bool.or_eq_true, Bool.and_eq_true, decide_eq_true_eq] at h2
  omega

/-- The reference keywords are listed in non-increasing order of their number of
occurrences, and a word that occurs first before another word and not less often stands
before it. -/
theorem keywords_order (words : List JSString) (count : Nat) :
    (Spec.keywords words count).Pairwise (fun a b => words.count b ≤ words.count a) ∧
    (∀ a b, [a, b].Sublist (Spec.firstOccurrences words) → words.count b ≤ words.count a →
      [a, b].Sublist ((Spec.firstOccurrences words).insertionSort
        (fun a b => words.count b ≤ words.count a))) := by
  constructor
  · unfold Spec.keywords
    apply List.Pairwise.sublist (List.take_sublist _ _)
    have htotal : IsTotal JSString (fun a b => words.count b ≤ words.count a) :=
      ⟨fun a b => Nat.le_total _ _⟩
    have htrans : IsTrans JSString (fun a b => words.count b ≤ words.count a) :=
      ⟨fun a b c hab hbc => Nat.le_trans hbc hab⟩
    exact List.sorted_insertionSort _ _
  · intro a b hsub hle
    exact List.pair_sublist_insertionSort hle hsub

/-- C29, at the failing input: for the content `constructor alpha alpha` the function
returns `constructor` before `alpha`, although `constructor` occurs once and `alpha`
twice among the cleaned words; the reference list has `alpha` first. -/
theorem C29_constructor_listed_out_of_order :
    Helpers.extractKeywords asciiLower (utf16 "constructor alpha alpha") 10 =
      [utf16 "constructor", utf16 "alpha"] ∧
    Helpers.keywordWords asciiLower (utf16 "constructor alpha alpha") =
      [utf16 "constructor", utf16 "alpha", utf16 "alpha"] ∧
    Spec.keywords (Helpers.keywordWords asciiLower (utf16 "constructor alpha alpha")) 10 =
      [utf16 "alpha", utf16 "constructor"] := by
  decide

end OCMA
